import Mathlib

/-!
Digital Energy Meter: fixed-point arithmetic and the calculation engine

A shallow embedding of `Sources/FixedPoint.c` and `Sources/Calc.c`.

Machine integers are mathematical integers (`Int`) with the reduction of the C type made
explicit at every place where the C code converts or stores a value:

* `wrap32`  : conversion to `int32_t`  (two's complement, value reduced into `[-2^31, 2^31)`),
* `wrap64`  : conversion to `int64_t`,
* `wrapU32` : conversion to `uint32_t` (value reduced into `[0, 2^32)`),
* `wrapU8`  : conversion to `uint8_t`.

A right shift `>>` of a signed value is the arithmetic shift of the target compiler
(`Int.shiftRight`, i.e. division by a power of two rounded toward minus infinity); the C
division `/` rounds toward zero (`Int.tdiv`).  Function-local `static` variables and the
globals a function writes are fields of an explicit state record that the function receives
and returns.
-/

namespace EnergyMeter

/-! ## Machine integers -/

/-- Conversion to `int32_t`. -/
def wrap32 (x : Int) : Int := (x + 2147483648) % 4294967296 - 2147483648

/-- Conversion to `int64_t`. -/
def wrap64 (x : Int) : Int :=
  (x + 9223372036854775808) % 18446744073709551616 - 9223372036854775808

/-- Conversion to `uint32_t`. -/
def wrapU32 (x : Int) : Int := x % 4294967296

/-- Conversion to `uint64_t`. -/
def wrapU64 (x : Int) : Int := x % 18446744073709551616

/-- Conversion to `uint8_t`. -/
def wrapU8 (x : Int) : Int := x % 256

/-- The value is representable as an `int32_t`. -/
def InInt32 (x : Int) : Prop := -2147483648 ≤ x ∧ x ≤ 2147483647

instance (x : Int) : Decidable (InInt32 x) := by
  unfold InInt32
  exact inferInstance

/-- The value is representable as a `uint32_t`. -/
def InUInt32 (x : Int) : Prop := 0 ≤ x ∧ x ≤ 4294967295

instance (x : Int) : Decidable (InUInt32 x) := by
  unfold InUInt32
  exact inferInstance

/-! ## FixedPoint.c -/

/-- Modelled from the spec: `PE_DEBUGHALT()` is a macro of `CPU.h`, which is not among the
sources.  The spec calls what it does a fatal, unrecoverable halt at the point of detection;
the halt is the error result `none` of the function that executes it. -/
def PE_DEBUGHALT {α : Type} : Option α := none

/-- `FixedPoint_Convert32Q16`: `(int32_t) integer << 16`. -/
def FixedPoint_Convert32Q16 (integer : Int) : Int :=
  wrap32 (wrap32 integer * 65536)

/-- `FixedPoint_Multiply`: the product is formed in `int64_t`, shifted right by 16 and
stored in an `int32_t`. -/
def FixedPoint_Multiply (num1 num2 : Int) : Int :=
  let product64bit := wrap64 (wrap64 num1 * wrap64 num2)
  let product32bit := wrap32 (product64bit >>> (16 : Nat))
  product32bit

/-- `FixedPoint_Divide`: halts on a zero divisor; otherwise the dividend is widened to
`int64_t`, shifted left by 16, divided (C division, toward zero) by the divisor and the
quotient is stored in an `int32_t`. -/
def FixedPoint_Divide (dividend divisor : Int) : Option Int :=
  if divisor = 0 then PE_DEBUGHALT
  else
    let quotient := wrap32 (wrap64 (Int.tdiv (wrap64 (wrap64 dividend * 65536)) (wrap64 divisor)))
    some quotient

/-- The body of the `for` loop of `FixedPoint_SquareRoot`, run for the remaining number of
iterations: `xN = (FixedPoint_Divide(radicand, xN) + xN) >> 1`.  The sum is an `int32_t`
sum. -/
def sqrtLoop (radicand : Int) : Nat → Int → Option Int
  | 0, xN => some xN
  | k + 1, xN =>
    (FixedPoint_Divide radicand xN).bind fun q =>
      sqrtLoop radicand k (wrap32 (wrap32 (q + xN) >>> (1 : Nat)))

/-- `FixedPoint_SquareRoot`: `nIteration` is a `uint8_t`, so the loop counter, which
stays below it, never wraps and the body runs `nIteration` times. -/
def FixedPoint_SquareRoot (radicand initialGuess : Int) (nIteration : Nat) : Option Int :=
  sqrtLoop radicand nIteration initialGuess

/-- The check of the 1-LSB bound of the square root at `v` volts² (or amps²):
`FixedPoint_SquareRoot(x, x, 15)` with `x = v * 2^16` returns an `r` with
`(r - 1)^2 ≤ v * 2^32 ≤ (r + 1)^2`. -/
def sqrtWithinOneLsb (v : Nat) : Bool :=
  match FixedPoint_SquareRoot ((v : Int) * 65536) ((v : Int) * 65536) 15 with
  | some r => decide ((r - 1) ^ 2 ≤ (v : Int) * 2 ^ 32 ∧ (v : Int) * 2 ^ 32 ≤ (r + 1) ^ 2)
  | none => false

/-! ## Calc.c: frequency tracking -/

/-- The `static` variables of `Calc_FrequencyTracking`, the global `FrequencyTimes10` it
writes, and the calls of `PIT_Set` it has made (most recent first). -/
structure FreqState where
  /-- Value of `static bool firstSampleCaptured`. -/
  firstSampleCaptured : Bool
  /-- Value of `static bool startCounter`. -/
  startCounter : Bool
  /-- Value of `static bool resetCounter`. -/
  resetCounter : Bool
  /-- Value of `static uint8_t periodSampleCount`. -/
  periodSampleCount : Int
  /-- Value of `static int32_t sampleOld`. -/
  sampleOld : Int
  /-- Value of `static uint32_t oldSamplePeriod`. -/
  oldSamplePeriod : Int
  /-- Value of `static uint32_t zeroCrossing`. -/
  zeroCrossing : Int
  /-- Value of `static uint32_t firstZeroCrossing`. -/
  firstZeroCrossing : Int
  /-- Value of `static uint32_t secondZeroCrossing`. -/
  secondZeroCrossing : Int
  /-- Value of the global `uint32_t FrequencyTimes10`. -/
  FrequencyTimes10 : Int
  /-- Arguments of the calls `PIT_Set (period, restart)` made so far, most recent first. -/
  pitSet : List (Int × Bool)

/-- The initial values of the `static` variables (those without an initialiser are zero),
`FrequencyTimes10 = 0` as set by `Calc_Init`, and no call of `PIT_Set` made yet. -/
def FreqState.init : FreqState where
  firstSampleCaptured := false
  startCounter := false
  resetCounter := true
  periodSampleCount := 0
  sampleOld := 0
  oldSamplePeriod := 1315790
  zeroCrossing := 0
  firstZeroCrossing := 0
  secondZeroCrossing := 0
  FrequencyTimes10 := 0
  pitSet := []

/-- What a call of `Calc_FrequencyTracking` leaves behind: the state, the returned flag and
the value written to `*samplePeriod`. -/
structure FreqResult where
  /-- The state after the call. -/
  state : FreqState
  /-- The returned flag. -/
  risingEdgeDetected : Bool
  /-- The value stored through the pointer `samplePeriod`. -/
  samplePeriod : Int

/-- The interpolation `((int32_t)sample * 1000) / ((int32_t) sample - (int32_t) sampleOld)`
of line 380, in `int32_t` arithmetic, stored in the `uint32_t` variable `zeroCrossing`. -/
def crossingFraction (sampleOld sample : Int) : Int :=
  wrapU32 (wrap32 (Int.tdiv (wrap32 (wrap32 sample * 1000))
    (wrap32 (wrap32 sample - wrap32 sampleOld))))

/-- Lines 374-386: the body of `if (sampleOld < 0 && sample >= 0)`. -/
def onRisingEdge (st : FreqState) (sample : Int) : FreqState :=
  { st with
    startCounter := true
    zeroCrossing := crossingFraction st.sampleOld sample
    resetCounter := !st.resetCounter }

/-- Line 414: `FrequencyTimes10 = 1e9 / (16 * (newSamplePeriod/10))`.  The divisor is a
`uint32_t` expression (integer division by 10, product reduced modulo 2^32).  The constant
`1e9` makes the outer division one of `double` values, converted back to `uint32_t` by
truncation; dividend and divisor are integers below 2^53, hence exact, and the correctly
rounded quotient of two such values has the same integer part as the exact quotient, so
for a nonzero divisor the stored value is the integer quotient.  For a zero divisor the C
conversion is not defined; the model has the value 0 there. -/
def frequencyTimes10 (newSamplePeriod : Int) : Int :=
  1000000000 / wrapU32 (16 * (newSamplePeriod / 10))

/-- Lines 393-421: the body of `if (resetCounter)`, all in `uint32_t` arithmetic. -/
def recomputePeriod (st : FreqState) : FreqState :=
  let secondZeroCrossing := wrapU32 (1000 - st.zeroCrossing)
  let newSamplePeriod := wrapU32 ((st.oldSamplePeriod >>> (4 : Nat)) * st.periodSampleCount)
  let newSamplePeriod :=
    if st.firstZeroCrossing ≤ 1000 ∧ secondZeroCrossing ≤ 1000 then
      wrapU32 (newSamplePeriod
        + wrapU32 ((st.firstZeroCrossing + secondZeroCrossing)
            * (st.oldSamplePeriod >>> (16 : Nat))) / 1000)
    else newSamplePeriod
  { st with
    resetCounter := false
    secondZeroCrossing := secondZeroCrossing
    pitSet := (newSamplePeriod, true) :: st.pitSet
    FrequencyTimes10 := frequencyTimes10 newSamplePeriod
    oldSamplePeriod := newSamplePeriod
    periodSampleCount := 0 }

/-- Lines 389-430: the body of `if (startCounter)`. -/
def countSample (st : FreqState) : FreqState :=
  let st := if st.resetCounter then recomputePeriod st else st
  let st := if st.zeroCrossing ≤ 1000 then { st with firstZeroCrossing := st.zeroCrossing } else st
  { st with periodSampleCount := wrapU8 (st.periodSampleCount + 1) }

/-- Lines 370-430: the body of `if (firstSampleCaptured)`; the second component is the
local flag `risingEdgeDetected`. -/
def trackSample (st : FreqState) (sample : Int) : FreqState × Bool :=
  let edge : FreqState × Bool :=
    if st.sampleOld < 0 ∧ sample ≥ 0 then (onRisingEdge st sample, true) else (st, false)
  (if edge.1.startCounter then countSample edge.1 else edge.1, edge.2)

/-- `Calc_FrequencyTracking`, one call. -/
def Calc_FrequencyTracking (st : FreqState) (sample : Int) : FreqResult :=
  let samplePeriod := st.oldSamplePeriod
  let body : FreqState × Bool :=
    if st.firstSampleCaptured then trackSample st sample else (st, false)
  { state := { body.1 with firstSampleCaptured := true, sampleOld := sample }
    risingEdgeDetected := body.2
    samplePeriod := samplePeriod }

/-- The state after calling `Calc_FrequencyTracking` on each sample of a list in turn. -/
def trackFrom (st : FreqState) (samples : List Int) : FreqState :=
  samples.foldl (fun s x => (Calc_FrequencyTracking s x).state) st

/-- No rising crossing (`previous < 0` and `current ≥ 0`) between consecutive samples of
`previous :: samples`. -/
def noRisingCrossing : Int → List Int → Prop
  | _, [] => True
  | previous, x :: xs => ¬ (previous < 0 ∧ x ≥ 0) ∧ noRisingCrossing x xs

/-- The most recent period passed to `PIT_Set`, or the initial period of 1,315,790 ns
(`MAX_SAMPLE_PERIOD`, installed by `main`) when `Calc_FrequencyTracking` has made no call. -/
def installedPeriod (st : FreqState) : Int :=
  (st.pitSet.head?.map Prod.fst).getD 1315790

/-- Facts that hold of the tracker state after any sequence of calls. -/
def FreqInv (st : FreqState) : Prop :=
  (st.resetCounter = true → st.periodSampleCount = 0) ∧
  0 ≤ st.zeroCrossing ∧
  (0 ≤ st.firstZeroCrossing ∧ st.firstZeroCrossing ≤ 1000) ∧
  (0 ≤ st.oldSamplePeriod ∧ st.oldSamplePeriod < 4294967296) ∧
  st.oldSamplePeriod = installedPeriod st

/-- The new period as the spec words it: the base product, plus the correction when both
fractions lie in `[0, 1000]`. -/
def claimedNewPeriod (oldPeriod samplesThisCycle entryFraction exitFraction : Int) : Int :=
  (oldPeriod >>> (4 : Nat)) * samplesThisCycle
    + (if (0 ≤ entryFraction ∧ entryFraction ≤ 1000) ∧ (0 ≤ exitFraction ∧ exitFraction ≤ 1000)
        then ((entryFraction + exitFraction) * (oldPeriod >>> (16 : Nat))) / 1000 else 0)

/-! ## Calc.c: average power -/

/-- The `static` variables of `Calc_AveragePower` and the global `AveragePowerW`. -/
structure AvgPowerState where
  /-- Value of `static uint8_t counter`. -/
  counter : Int
  /-- Value of `static int32_t sumInstPower`. -/
  sumInstPower : Int
  /-- Value of the global `uint32_t AveragePowerW`. -/
  AveragePowerW : Int
deriving DecidableEq

/-- Initial values: both statics and the global are zero. -/
def AvgPowerState.init : AvgPowerState where
  counter := 0
  sumInstPower := 0
  AveragePowerW := 0

/-- `Calc_AveragePower`, one call: the state after it and the returned `averagePower`, or
the halt of `FixedPoint_Divide`. -/
def Calc_AveragePower (st : AvgPowerState) (instPower : Int) (risingEdgeDetected : Bool) :
    Option (AvgPowerState × Int) :=
  let boundary : Option (AvgPowerState × Int) :=
    if risingEdgeDetected then
      (FixedPoint_Divide st.sumInstPower (wrap32 (wrap32 st.counter * 65536))).map
        fun averagePower =>
          ({ st with AveragePowerW := wrapU32 averagePower, sumInstPower := 0, counter := 0 },
            averagePower)
    else some (st, 0)
  boundary.map fun r =>
    ({ r.1 with
        sumInstPower := wrap32 (r.1.sumInstPower + instPower)
        counter := wrapU8 (r.1.counter + 1) },
      r.2)

/-- Calls of `Calc_AveragePower` without a boundary on each power sample of a list in
turn. -/
def accumulatePower (st : AvgPowerState) : List Int → Option AvgPowerState
  | [] => some st
  | p :: ps => (Calc_AveragePower st p false).bind fun r => accumulatePower r.1 ps

/-! ## FixedPoint.c: the unsigned variants -/

/-- `FixedPoint_MultiplyU`: both operands are converted to `uint64_t` (the second is an
`int32_t`), the product is formed modulo 2^64, shifted right by 16 and stored in a
`uint32_t`. -/
def FixedPoint_MultiplyU (num1 num2 : Int) : Int :=
  let product64bit := wrapU64 (wrapU64 num1 * wrapU64 num2)
  let product32bit := wrapU32 (product64bit >>> (16 : Nat))
  product32bit

/-- `FixedPoint_DivideU`: halts on a zero divisor; otherwise the dividend is widened to
`uint64_t`, shifted left by 16, divided by the divisor and stored in a `uint32_t`. -/
def FixedPoint_DivideU (dividend divisor : Int) : Option Int :=
  if divisor = 0 then PE_DEBUGHALT
  else
    let quotient := wrapU32 (wrapU64 (wrapU64 dividend * 65536) / divisor)
    some quotient

/-! ## Calc.c: RMS voltage and current -/

/-- The `static` variables of `Calc_Vrms` and the global `Vrms`. -/
structure VrmsState where
  /-- Value of `static uint32_t oldVrms`. -/
  oldVrms : Int
  /-- Value of `static uint8_t sampleCount`. -/
  sampleCount : Int
  /-- Value of `static int32_t sumSquaredVolts`. -/
  sumSquaredVolts : Int
  /-- Value of the global `uint32_t Vrms`. -/
  Vrms : Int
deriving DecidableEq

/-- Initial values: `oldVrms = 1<<16`, the rest zero. -/
def VrmsState.init : VrmsState where
  oldVrms := 65536
  sampleCount := 0
  sumSquaredVolts := 0
  Vrms := 0

/-- Lines 256-260 and 307-311: the number of square-root iterations chosen at a boundary
from the stored previous estimate. -/
def interationNb (oldRms : Int) : Nat :=
  if oldRms = 65536 then 15 else 1

/-- `Calc_Vrms`, one call: the state after it and the returned `oldVrms` (as `int32_t`),
or the halt of a division. -/
def Calc_Vrms (st : VrmsState) (instVoltage : Int) (risingEdgeDetected : Bool) :
    Option (VrmsState × Int) :=
  (FixedPoint_Divide instVoltage 655360).bind fun instVoltsScaledDown =>
    let boundary : Option VrmsState :=
      if risingEdgeDetected then
        (FixedPoint_Divide st.sumSquaredVolts (wrap32 (st.sampleCount * 65536))).bind
          fun ratio =>
            (FixedPoint_SquareRoot ratio (wrap32 st.oldVrms) (interationNb st.oldVrms)).map
              fun root =>
                { oldVrms := wrapU32 root
                  Vrms := wrapU32 (FixedPoint_Multiply (wrap32 (wrapU32 root)) 655360)
                  sampleCount := 0
                  sumSquaredVolts := 0 }
      else some st
    boundary.map fun s =>
      ({ s with
          sumSquaredVolts :=
            wrap32 (s.sumSquaredVolts
              + FixedPoint_Multiply instVoltsScaledDown instVoltsScaledDown)
          sampleCount := wrapU8 (s.sampleCount + 1) },
        wrap32 s.oldVrms)

/-- The `static` variables of `Calc_Irms` and the global `Irms`. -/
structure IrmsState where
  /-- Value of `static uint32_t oldIrms`. -/
  oldIrms : Int
  /-- Value of `static uint8_t sampleCount`. -/
  sampleCount : Int
  /-- Value of `static int32_t sumSquaredCurrents`. -/
  sumSquaredCurrents : Int
  /-- Value of the global `uint32_t Irms`. -/
  Irms : Int
deriving DecidableEq

/-- Initial values: `oldIrms = 1<<16`, the rest zero. -/
def IrmsState.init : IrmsState where
  oldIrms := 65536
  sampleCount := 0
  sumSquaredCurrents := 0
  Irms := 0

/-- `Calc_Irms`, one call: the state after it and the returned `oldIrms` (as `int32_t`),
or the halt of a division. -/
def Calc_Irms (st : IrmsState) (instCurrent : Int) (risingEdgeDetected : Bool) :
    Option (IrmsState × Int) :=
  let instCurrentScaledUp := FixedPoint_Multiply instCurrent 655360
  let boundary : Option IrmsState :=
    if risingEdgeDetected then
      (FixedPoint_Divide st.sumSquaredCurrents (wrap32 (st.sampleCount * 65536))).bind
        fun ratio =>
          (FixedPoint_SquareRoot ratio (wrap32 st.oldIrms) (interationNb st.oldIrms)).bind
            fun root =>
              (FixedPoint_Divide (wrap32 (wrapU32 root)) 655360).map fun scaledDown =>
                { oldIrms := wrapU32 root
                  Irms := wrapU32 scaledDown
                  sampleCount := 0
                  sumSquaredCurrents := 0 }
    else some st
  boundary.map fun s =>
    ({ s with
        sumSquaredCurrents :=
          wrap32 (s.sumSquaredCurrents
            + FixedPoint_Multiply instCurrentScaledUp instCurrentScaledUp)
        sampleCount := wrapU8 (s.sampleCount + 1) },
      wrap32 s.oldIrms)

/-- The square accumulated by `Calc_Vrms` for one voltage sample: the sample divided by
10.0 (for an `int32` sample `FixedPoint_Divide` by `10 << 16` is the division by 10 toward
zero) and multiplied by itself. -/
def squaredScaledVolts (instVoltage : Int) : Int :=
  FixedPoint_Multiply (Int.tdiv instVoltage 10) (Int.tdiv instVoltage 10)

/-- The square accumulated by `Calc_Irms` for one current sample: the sample multiplied by
10.0 and then by itself. -/
def squaredScaledCurrent (instCurrent : Int) : Int :=
  FixedPoint_Multiply (FixedPoint_Multiply instCurrent 655360)
    (FixedPoint_Multiply instCurrent 655360)

/-- Calls of `Calc_Vrms` without a boundary on each voltage sample of a list in turn. -/
def accumulateVolts (st : VrmsState) : List Int → Option VrmsState
  | [] => some st
  | v :: vs => (Calc_Vrms st v false).bind fun r => accumulateVolts r.1 vs

/-- Calls of `Calc_Irms` without a boundary on each current sample of a list in turn. -/
def accumulateCurrents (st : IrmsState) : List Int → Option IrmsState
  | [] => some st
  | i :: is => (Calc_Irms st i false).bind fun r => accumulateCurrents r.1 is

/-! ## Calc.c: energy -/

/-- The `static` variables of `Calc_TotalEnergy` and the global `TotalEnergykWh`. -/
structure EnergyState where
  /-- Value of `static int32_t summationInstPower`. -/
  summationInstPower : Int
  /-- Value of `static uint32_t tempAccumulatedEnergyWs`. -/
  tempAccumulatedEnergyWs : Int
  /-- Value of the global `uint32_t TotalEnergykWh`. -/
  TotalEnergykWh : Int
deriving DecidableEq

/-- Initial values: all zero. -/
def EnergyState.init : EnergyState where
  summationInstPower := 0
  tempAccumulatedEnergyWs := 0
  TotalEnergykWh := 0

/-- Lines 164-175: the energy of the completed cycle from the power sum, the sampling
period in nanoseconds and the test-mode flag. -/
def cycleEnergy (summationInstPower samplePeriod : Int) (TestModeEnabled : Bool) :
    Option Int :=
  let samplePeriod := samplePeriod / 100000
  let samplePeriod32Q16 := wrap32 (wrapU32 (samplePeriod * 65536))
  (FixedPoint_DivideU (wrapU32 samplePeriod32Q16) 655360000).map fun seconds =>
    let energyPerCycleWs := FixedPoint_MultiplyU (wrapU32 summationInstPower) (wrap32 seconds)
    if TestModeEnabled then FixedPoint_MultiplyU energyPerCycleWs 235929600
    else energyPerCycleWs

/-- Lines 178-192: the cycle energy is added to the carry accumulator; at 3600 Ws the
accumulator is converted to kWh, added to `TotalEnergykWh`, and cleared. -/
def carryEnergy (st : EnergyState) (energyPerCycleWs : Int) : Option EnergyState :=
  let temp := wrapU32 (st.tempAccumulatedEnergyWs + energyPerCycleWs)
  if temp ≥ 235929600 then
    (FixedPoint_Divide (wrap32 temp) 235929600).bind fun wattHours =>
      (FixedPoint_Divide wattHours 65536000).map fun kiloWattHours =>
        { st with
          TotalEnergykWh := wrapU32 (st.TotalEnergykWh + kiloWattHours)
          tempAccumulatedEnergyWs := 0 }
  else some { st with tempAccumulatedEnergyWs := temp }

/-- What a call of `Calc_TotalEnergy` leaves behind: the state and the returned
`energyPerCycleWs`; the local is returned uninitialised (`none`) when the call is not at a
boundary. -/
structure EnergyResult where
  /-- The state after the call. -/
  state : EnergyState
  /-- The returned value, `none` when the local was never assigned. -/
  energyPerCycleWs : Option Int
deriving DecidableEq

/-- `Calc_TotalEnergy`, one call, or the halt of a division. -/
def Calc_TotalEnergy (st : EnergyState) (instPower samplePeriod : Int)
    (risingEdgeDetected TestModeEnabled : Bool) : Option EnergyResult :=
  let boundary : Option EnergyResult :=
    if risingEdgeDetected then
      (cycleEnergy st.summationInstPower samplePeriod TestModeEnabled).bind
        fun energyPerCycleWs =>
          (carryEnergy st energyPerCycleWs).map fun s =>
            { state := { s with summationInstPower := 0 }
              energyPerCycleWs := some energyPerCycleWs }
    else some { state := st, energyPerCycleWs := none }
  boundary.map fun r =>
    { r with
      state :=
        { r.state with
          summationInstPower := wrap32 (r.state.summationInstPower + instPower) } }

/-- Lines 481 and 485 of `Calc_CalculationThread`: the flag and the period obtained from
`Calc_FrequencyTracking` are passed to `Calc_TotalEnergy`. -/
def trackThenIntegrate (fs : FreqState) (es : EnergyState) (instVoltage instPower : Int)
    (TestModeEnabled : Bool) : Option EnergyResult :=
  Calc_TotalEnergy es instPower (Calc_FrequencyTracking fs instVoltage).samplePeriod
    (Calc_FrequencyTracking fs instVoltage).risingEdgeDetected TestModeEnabled

/-- Boundary calls of `Calc_TotalEnergy`, `n` in a row, each with the same power sample
and sampling period, test mode off. -/
def repeatBoundary (instPower samplePeriod : Int) : Nat → EnergyState → Option EnergyState
  | 0, st => some st
  | n + 1, st =>
    (Calc_TotalEnergy st instPower samplePeriod true false).bind fun r =>
      repeatBoundary instPower samplePeriod n r.state

/-! ## RTC.c and the tariff of Calc.c -/

/-- The four values `RTC_Get` stores through its pointers. -/
structure RTCTime where
  /-- Value stored in `*days`. -/
  days : Int
  /-- Value stored in `*hours`. -/
  hours : Int
  /-- Value stored in `*minutes`. -/
  minutes : Int
  /-- Value stored in `*seconds`. -/
  seconds : Int
deriving DecidableEq

/-- `RTC_Get`, given the stable reading `time` of the seconds register `RTC_TSR`
(a `uint32_t`); each result is stored in a `uint8_t`. -/
def RTC_Get (time : Int) : RTCTime :=
  let days := wrapU8 ((time - time % 86400) / 86400)
  let time := time % 86400
  let hours := wrapU8 ((time - time % 3600) / 3600)
  let time := time % 3600
  let minutes := wrapU8 ((time - time % 60) / 60)
  let time := time % 60
  { days := days, hours := hours, minutes := minutes, seconds := wrapU8 time }

/-- `TTariff` of `Calc.h`. -/
structure TTariff where
  /-- Field `nonToUrate`. -/
  nonToUrate : Int
  /-- Field `peakRate`. -/
  peakRate : Int
  /-- Field `shoulderRate`. -/
  shoulderRate : Int
  /-- Field `offPeakRate`. -/
  offPeakRate : Int
deriving DecidableEq

/-- The global `TariffChart` before `Calc_Init`: static storage, all zero. -/
def TariffChart_zero : Fin 3 → TTariff :=
  fun _ => { nonToUrate := 0, peakRate := 0, shoulderRate := 0, offPeakRate := 0 }

/-- The local table `tariffChartLocal` of `Calc_Init` (lines 43-59); a field without a
designated initialiser is zero. -/
def tariffChartLocal : Fin 3 → TTariff
  | 0 => { nonToUrate := 0, peakRate := 1457193, shoulderRate := 288350, offPeakRate := 138216 }
  | 1 => { nonToUrate := 0, peakRate := 112264, shoulderRate := 0, offPeakRate := 0 }
  | 2 => { nonToUrate := 0, peakRate := 268698, shoulderRate := 0, offPeakRate := 0 }

/-- The effect of `Calc_Init` on `TariffChart`: line 61, `*TariffChart = *tariffChartLocal`,
assigns the first element of the local table to the first element of the global one. -/
def Calc_Init (TariffChart : Fin 3 → TTariff) : Fin 3 → TTariff :=
  Function.update TariffChart 0 (tariffChartLocal 0)

/-- Lines 107-129: the `switch` on `(uint8) NvTariffMode->l` that assigns `currentRate`.
There is no `default` case: for any other mode the local stays uninitialised and the model
has no value (`none`). -/
def currentRate (TariffChart : Fin 3 → TTariff) (NvTariffMode hours : Int) : Option Int :=
  if wrapU8 NvTariffMode = 1 then
    if hours ≥ 14 ∧ hours ≤ 20 then some (TariffChart 0).peakRate
    else if (hours ≥ 7 ∧ hours ≤ 14) ∨ (hours ≥ 20 ∧ hours ≤ 22) then
      some (TariffChart 0).shoulderRate
    else some (TariffChart 0).offPeakRate
  else if wrapU8 NvTariffMode = 2 then some (TariffChart 1).nonToUrate
  else if wrapU8 NvTariffMode = 3 then some (TariffChart 2).nonToUrate
  else none

/-- The `static` variables of `Calc_TotalCost` and the global `TotalCostDollars`. -/
structure CostState where
  /-- Value of `static uint32_t accumulatedCentsScaledUp`. -/
  accumulatedCentsScaledUp : Int
  /-- Value of `static uint32_t accumulatedCents`. -/
  accumulatedCents : Int
  /-- Value of the global `uint32_t TotalCostDollars`. -/
  TotalCostDollars : Int
deriving DecidableEq

/-- Initial values: all zero. -/
def CostState.init : CostState where
  accumulatedCentsScaledUp := 0
  accumulatedCents := 0
  TotalCostDollars := 0

/-- Lines 131-141: the cost of the cycle is added to the sub-cent accumulator, which is
carried into the cents accumulator at `1000 << 16`. -/
def accrueCents (st : CostState) (rate energyPerCycleWs : Int) : Option CostState :=
  (FixedPoint_Divide (FixedPoint_Multiply (wrap32 rate) (wrap32 energyPerCycleWs))
      235929600).bind fun cents =>
    let centsPerCycleScaledUp := wrapU32 cents
    let scaledUp := wrapU32 (st.accumulatedCentsScaledUp + centsPerCycleScaledUp)
    if scaledUp ≥ 65536000 then
      (FixedPoint_Divide (wrap32 scaledUp) 65536000).map fun carry =>
        { st with
          accumulatedCents := wrapU32 (st.accumulatedCents + carry)
          accumulatedCentsScaledUp := 0 }
    else some { st with accumulatedCentsScaledUp := scaledUp }

/-- Lines 143-147: the cents accumulator is carried into `TotalCostDollars` at
`1000 << 16`. -/
def carryDollars (st : CostState) : Option CostState :=
  if st.accumulatedCents ≥ 65536000 then
    (FixedPoint_Divide (wrap32 st.accumulatedCents) 6553600).map fun dollars =>
      { st with
        TotalCostDollars := wrapU32 (st.TotalCostDollars + dollars)
        accumulatedCents := 0 }
  else some st

/-- `Calc_TotalCost`, one call, given the tariff table, the stored tariff mode and the
reading of the clock; `none` is the halt of a division or the use of the unassigned
rate. -/
def Calc_TotalCost (st : CostState) (TariffChart : Fin 3 → TTariff)
    (NvTariffMode time energyPerCycleWs : Int) : Option CostState :=
  (currentRate TariffChart NvTariffMode (RTC_Get time).hours).bind fun rate =>
    (accrueCents st rate energyPerCycleWs).bind carryDollars

/-! ## Calc.c: conversion of the ADC codes -/

/-- `VOLTAGE_RAW_ADC_RATIO_32Q16 = (100<<16)`. -/
def VOLTAGE_RAW_ADC_RATIO_32Q16 : Int := 6553600

/-- `CURRENT_RAW_ADC_RATIO_32Q16 = (1<<16)`. -/
def CURRENT_RAW_ADC_RATIO_32Q16 : Int := 65536

/-- `MAX_ADC_OUTPUT_32Q16 = (1UL<<31)-(1UL<<16)`, which is `32767 << 16`. -/
def MAX_ADC_OUTPUT_32Q16 : Int := 2147418112

/-- `ADC_VOLTAGE_RANGE_32Q16 = 10 << 16`. -/
def ADC_VOLTAGE_RANGE_32Q16 : Int := 655360

/-- `Calc_ConvertADCtoVolts`, or the halt of the division. -/
def Calc_ConvertADCtoVolts (outputADC : Int) : Option Int :=
  let output32Q16 := FixedPoint_Convert32Q16 outputADC
  (FixedPoint_Divide output32Q16 MAX_ADC_OUTPUT_32Q16).map fun ratio32Q16 =>
    let volts32Q16 := FixedPoint_Multiply ADC_VOLTAGE_RANGE_32Q16 ratio32Q16
    volts32Q16

/-- The conversion as the spec words it: `ADC_VOLTAGE_RANGE * code / ADC_MAX` in Q16, that
is ten times the quotient of `65536 * code` by 32767, truncated toward zero. -/
def rawToVolts (code : Int) : Int := 10 * Int.tdiv (65536 * code) 32767

/-- Lines 469-471 of `Calc_CalculationThread`: the instantaneous voltage of a raw code. -/
def instVoltage (code : Int) : Option Int :=
  (Calc_ConvertADCtoVolts code).map fun volts32Q16 =>
    FixedPoint_Multiply volts32Q16 VOLTAGE_RAW_ADC_RATIO_32Q16

/-- Lines 473-475 of `Calc_CalculationThread`: the instantaneous current of a raw code. -/
def instCurrent (code : Int) : Option Int :=
  (Calc_ConvertADCtoVolts code).map fun volts32Q16 =>
    FixedPoint_Multiply volts32Q16 CURRENT_RAW_ADC_RATIO_32Q16

/-! ## Calc.c: power factor -/

/-- `Calc_PowerFactor`: the new value of the global `PowerFactor`, computed from the
globals `Vrms`, `Irms` and `AveragePowerW` (the three parameters of the function are not
used), or the halt of the division.  The product is stored in a `uint32_t` and passed to
`FixedPoint_Divide` as an `int32_t`. -/
def Calc_PowerFactor (Vrms Irms AveragePowerW PowerFactor : Int) : Option Int :=
  let vRMSiRMS := wrapU32 (FixedPoint_Multiply (wrap32 Vrms) (wrap32 Irms))
  if vRMSiRMS ≠ 0 then
    (FixedPoint_Divide (wrap32 AveragePowerW) (wrap32 vRMSiRMS)).map fun powerFactor =>
      wrapU32 powerFactor
  else some PowerFactor

/-! ## The unsigned variants as the spec words them -/

/-- The unsigned multiplication as the spec words it: `floor(a * b / 2^16) mod 2^32`. -/
def claimedMultiplyU (a b : Int) : Int := (a * b / 2 ^ 16) % 2 ^ 32

/-- The unsigned division as the spec words it: a halt for `b = 0`, otherwise
`floor(a * 2^16 / b) mod 2^32`. -/
def claimedDivideU (a b : Int) : Option Int :=
  if b = 0 then none else some ((a * 2 ^ 16 / b) % 2 ^ 32)

/-! ## Calc.c: rising crossings of a sample run -/

/-- The number of rising crossings (`previous < 0` and `current ≥ 0`) between consecutive
samples of `previous :: samples`. -/
def crossingsAfter : Int → List Int → Nat
  | _, [] => 0
  | previous, x :: xs =>
    (if previous < 0 ∧ x ≥ 0 then 1 else 0) + crossingsAfter x xs

/-- The number of rising crossings in a run of samples given to `Calc_FrequencyTracking`
from power-up; the first sample has no predecessor. -/
def risingCrossings : List Int → Nat
  | [] => 0
  | x :: xs => crossingsAfter x xs

/-! ## main.c and Calc.c: the sample window between `PITCallback` and the calculation loop -/

/-- The index update shared by both sides, `n++; if (n == ANALOG_WINDOW_SIZE) n = 0;` on a
`uint8_t` (lines 179-183 of main.c for `NbSamples`, lines 499-503 of Calc.c for
`sampleNb`). -/
def incrementAndWrap (n : Int) : Int :=
  let n := wrapU8 (n + 1)
  if n = 16 then 0 else n

/-- The two sample buffers, the write index of `PITCallback`, the read index of the
calculation loop, and the count of `AnalogGetSemaphore`.

Modelled from the spec: the semaphore of `OS.h` is a counting availability signal, created
with count 0 in `main`; a signal adds one, and a wait returns once the count is positive
and takes one. -/
structure SampleWindow where
  /-- Contents of `Voltage_ADC`, by index. -/
  Voltage_ADC : Int → Int
  /-- Contents of `Current_ADC`, by index. -/
  Current_ADC : Int → Int
  /-- Value of `static uint8_t NbSamples` of `PITCallback`. -/
  NbSamples : Int
  /-- Value of `static uint8_t sampleNb` of `Calc_CalculationThread`. -/
  sampleNb : Int
  /-- Count of `AnalogGetSemaphore`. -/
  AnalogGetSemaphore : Int

/-- The window at start-up: zeroed buffers, both indices 0, semaphore count 0. -/
def SampleWindow.init : SampleWindow where
  Voltage_ADC := fun _ => 0
  Current_ADC := fun _ => 0
  NbSamples := 0
  sampleNb := 0
  AnalogGetSemaphore := 0

/-- `PITCallback`, given the two codes `Analog_Get` delivers and the result of
`OS_SemaphoreSignal`: the codes are stored at `NbSamples`, the index advances, the
semaphore is signalled; an error halts. -/
def PITCallback (w : SampleWindow) (voltage current error : Int) : Option SampleWindow :=
  let w1 : SampleWindow :=
    { w with
      Voltage_ADC := Function.update w.Voltage_ADC w.NbSamples voltage
      Current_ADC := Function.update w.Current_ADC w.NbSamples current
      NbSamples := incrementAndWrap w.NbSamples }
  if error ≠ 0 then PE_DEBUGHALT
  else some { w1 with AnalogGetSemaphore := w1.AnalogGetSemaphore + 1 }

/-- The part of one iteration of the loop of `Calc_CalculationThread` that touches the
window (lines 464-476 and 499-503): the wait returns (which takes the count to be
positive; with count 0 the thread stays blocked and there is no step, `none`), an error
halts, the pair at `sampleNb` is read and the index advances. -/
def takeSample (w : SampleWindow) (error : Int) : Option (SampleWindow × (Int × Int)) :=
  if w.AnalogGetSemaphore ≤ 0 then none
  else if error ≠ 0 then PE_DEBUGHALT
  else
    some ({ w with
            AnalogGetSemaphore := w.AnalogGetSemaphore - 1
            sampleNb := incrementAndWrap w.sampleNb },
          (w.Voltage_ADC w.sampleNb, w.Current_ADC w.sampleNb))

/-- One step of an interleaving of the two sides. -/
inductive HandoffEvent where
  /-- A run of `PITCallback` with the two codes acquired and the result of the signal. -/
  | produce (voltage current error : Int)
  /-- An iteration of the calculation loop, with the result of the wait. -/
  | consume (error : Int)

/-- The window after an interleaving and the pairs read by the loop, in order; `none` when
a step halts or cannot occur. -/
def runHandoff (w : SampleWindow) : List HandoffEvent → Option (SampleWindow × List (Int × Int))
  | [] => some (w, [])
  | HandoffEvent.produce voltage current error :: rest =>
    (PITCallback w voltage current error).bind fun w1 => runHandoff w1 rest
  | HandoffEvent.consume error :: rest =>
    (takeSample w error).bind fun r =>
      (runHandoff r.1 rest).map fun out => (out.1, r.2 :: out.2)

/-- The pairs written by `PITCallback` in an interleaving, in order. -/
def samplesWritten : List HandoffEvent → List (Int × Int)
  | [] => []
  | HandoffEvent.produce voltage current _ :: rest => (voltage, current) :: samplesWritten rest
  | HandoffEvent.consume _ :: rest => samplesWritten rest

/-- The producer is never more than 16 samples ahead: starting `ahead` samples ahead, no
write of the interleaving brings the number of written and unread samples above 16. -/
def withinWindow (ahead : Int) : List HandoffEvent → Bool
  | [] => true
  | HandoffEvent.produce _ _ _ :: rest => decide (ahead + 1 ≤ 16) && withinWindow (ahead + 1) rest
  | HandoffEvent.consume _ :: rest => withinWindow (ahead - 1) rest

/-! ## Calc.c: one iteration of the calculation loop -/

/-- The `static` state of the functions called by the loop, the global `PowerFactor` and
the read index `sampleNb`. -/
structure MeterState where
  /-- State of `Calc_FrequencyTracking` (with `FrequencyTimes10`). -/
  freq : FreqState
  /-- State of `Calc_AveragePower` (with `AveragePowerW`). -/
  power : AvgPowerState
  /-- State of `Calc_TotalEnergy` (with `TotalEnergykWh`). -/
  energy : EnergyState
  /-- State of `Calc_TotalCost` (with `TotalCostDollars`). -/
  cost : CostState
  /-- State of `Calc_Vrms` (with `Vrms`). -/
  vrms : VrmsState
  /-- State of `Calc_Irms` (with `Irms`). -/
  irms : IrmsState
  /-- Value of the global `uint32_t PowerFactor`. -/
  PowerFactor : Int
  /-- Value of `static uint8_t sampleNb`. -/
  sampleNb : Int

/-- The state at start-up: every `static` at its initialiser, the globals zero. -/
def MeterState.init : MeterState where
  freq := FreqState.init
  power := AvgPowerState.init
  energy := EnergyState.init
  cost := CostState.init
  vrms := VrmsState.init
  irms := IrmsState.init
  PowerFactor := 0
  sampleNb := 0

/-- What one iteration reads from outside its own state: the result of the wait, the two
buffers, the tariff table, the stored tariff mode, the clock and the test-mode flag. -/
structure LoopInputs where
  /-- Result of `OS_SemaphoreWait`. -/
  error : Int
  /-- Contents of `Voltage_ADC`, by index. -/
  Voltage_ADC : Int → Int
  /-- Contents of `Current_ADC`, by index. -/
  Current_ADC : Int → Int
  /-- The global `TariffChart`. -/
  TariffChart : Fin 3 → TTariff
  /-- Value of `NvTariffMode->l`. -/
  NvTariffMode : Int
  /-- Reading of the seconds register used by `RTC_Get`. -/
  time : Int
  /-- Value of `TestModeEnabled`. -/
  TestModeEnabled : Bool

/-- What one iteration leaves behind: the state and the flag `risingEdgeDetected` it
obtained from `Calc_FrequencyTracking`. -/
structure LoopResult where
  /-- The state after the iteration. -/
  state : MeterState
  /-- The flag of the iteration. -/
  risingEdgeDetected : Bool

/-- One iteration of the `for (;;)` loop of `Calc_CalculationThread` (lines 461-504), or
the halt of a division or of the wait; `none` also when `Calc_TotalCost` is reached with
the unassigned rate. -/
def Calc_CalculationThread (st : MeterState) (inp : LoopInputs) : Option LoopResult :=
  if inp.error ≠ 0 then PE_DEBUGHALT
  else
    (instVoltage (inp.Voltage_ADC st.sampleNb)).bind fun instVoltage =>
    (instCurrent (inp.Current_ADC st.sampleNb)).bind fun instCurrent =>
    let instPower := FixedPoint_Multiply instVoltage instCurrent
    let tracked := Calc_FrequencyTracking st.freq instVoltage
    let risingEdgeDetected := tracked.risingEdgeDetected
    let samplePeriod := tracked.samplePeriod
    (Calc_AveragePower st.power instPower risingEdgeDetected).bind fun avg =>
    (Calc_TotalEnergy st.energy instPower samplePeriod risingEdgeDetected
        inp.TestModeEnabled).bind fun energy =>
    (if risingEdgeDetected then
        energy.energyPerCycleWs.bind fun energyPerCycleWs =>
          Calc_TotalCost st.cost inp.TariffChart inp.NvTariffMode inp.time energyPerCycleWs
      else some st.cost).bind fun cost =>
    (Calc_Vrms st.vrms instVoltage risingEdgeDetected).bind fun v =>
    (Calc_Irms st.irms instCurrent risingEdgeDetected).bind fun i =>
    (if v.2 ≠ 0 ∧ i.2 ≠ 0 then
        Calc_PowerFactor v.1.Vrms i.1.Irms avg.1.AveragePowerW st.PowerFactor
      else some st.PowerFactor).map fun powerFactor =>
    { state :=
        { freq := tracked.state
          power := avg.1
          energy := energy.state
          cost := cost
          vrms := v.1
          irms := i.1
          PowerFactor := powerFactor
          sampleNb := incrementAndWrap st.sampleNb }
      risingEdgeDetected := risingEdgeDetected }

/-- The state after the iterations on a list of inputs, in turn. -/
def runLoop (st : MeterState) : List LoopInputs → Option MeterState
  | [] => some st
  | inp :: rest => (Calc_CalculationThread st inp).bind fun r => runLoop r.state rest

/-- What ties a window to the pairs written so far and the number read so far: the
indices are the two counts modulo 16, the semaphore counts the unread pairs, of which
there are at most 16, and every unread pair is still in its slot. -/
def WindowInv (w : SampleWindow) (written : List (Int × Int)) (read : Nat) : Prop :=
  w.NbSamples = (written.length : Int) % 16 ∧
  w.sampleNb = (read : Int) % 16 ∧
  w.AnalogGetSemaphore = (written.length : Int) - (read : Int) ∧
  read ≤ written.length ∧ written.length ≤ read + 16 ∧
  ∀ j : Nat, read ≤ j → j < written.length →
    written[j]? = some (w.Voltage_ADC ((j : Int) % 16), w.Current_ADC ((j : Int) % 16))

/-- Facts that hold of the state of the calculation loop after any number of iterations
from start-up: the reset flag of the tracker is set exactly while its counter has not been
started, and, when both stored RMS estimates are nonzero, `PowerFactor` is the value
`Calc_PowerFactor` computes from the current globals. -/
def MeterInv (st : MeterState) : Prop :=
  st.freq.resetCounter = (!st.freq.startCounter) ∧
  ((wrap32 st.vrms.oldVrms ≠ 0 ∧ wrap32 st.irms.oldIrms ≠ 0) →
    Calc_PowerFactor st.vrms.Vrms st.irms.Irms st.power.AveragePowerW st.PowerFactor
      = some st.PowerFactor)

/-! ## Calc.c: sequences of calls of `Calc_TotalEnergy` -/

/-- One call of `Calc_TotalEnergy`: the power sample, the sampling period and the flag. -/
structure EnergyCall where
  /-- The argument `instPower`. -/
  instPower : Int
  /-- The argument `samplePeriod`. -/
  samplePeriod : Int
  /-- The argument `risingEdgeDetected`. -/
  risingEdgeDetected : Bool

/-- The state after the calls of a list, in turn, with `TestModeEnabled` false, or the halt
of a division. -/
def runEnergy (st : EnergyState) : List EnergyCall → Option EnergyState
  | [] => some st
  | c :: rest =>
    (Calc_TotalEnergy st c.instPower c.samplePeriod c.risingEdgeDetected false).bind fun r =>
      runEnergy r.state rest

/-! ## Flash.c: allocation of the eight bytes of the data phrase -/

/-- What a call of `Flash_AllocateVar` leaves behind: the returned flag, the offset from
`FLASH_DATA_START` stored through `variable` (`none` when nothing is stored) and the
`static uint8_t memoryIndex`, the map of allocated bytes (bit `i` for byte `i`). -/
structure FlashAllocation where
  /-- The returned flag. -/
  success : Bool
  /-- The offset stored through `variable`, or `none`. -/
  offset : Option Nat
  /-- Value of `memoryIndex` after the call. -/
  memoryIndex : Nat
deriving DecidableEq

/-- Lines 177-195, `case 1`: the loop `for (count = 0; count < 8; count++)`, run from
`count` with a bound on the iterations left. -/
def allocateByte (memoryIndex : Nat) : Nat → Nat → FlashAllocation
  | 0, _ => { success := false, offset := none, memoryIndex := memoryIndex }
  | fuel + 1, count =>
    if count < 8 then
      if memoryIndex &&& (1 <<< count) = 0 then
        { success := true
          offset := some count
          memoryIndex := (memoryIndex ||| (1 <<< count)) % 256 }
      else allocateByte memoryIndex fuel (count + 1)
    else { success := false, offset := none, memoryIndex := memoryIndex }

/-- Lines 198-218, `case 2`: the loop `for (count = 0; count < 8; count+=2)`. -/
def allocateHalfWord (memoryIndex : Nat) : Nat → Nat → FlashAllocation
  | 0, _ => { success := false, offset := none, memoryIndex := memoryIndex }
  | fuel + 1, count =>
    if count < 8 then
      if memoryIndex &&& (1 <<< count) = 0 ∧ memoryIndex &&& (1 <<< (count + 1)) = 0 then
        { success := true
          offset := some count
          memoryIndex :=
            (((memoryIndex ||| (1 <<< count)) % 256) ||| (1 <<< (count + 1))) % 256 }
      else allocateHalfWord memoryIndex fuel (count + 2)
    else { success := false, offset := none, memoryIndex := memoryIndex }

/-- Lines 221-245, `case 4`: the loop `for (count = 0; count < 8; count+=4)`. -/
def allocateWord (memoryIndex : Nat) : Nat → Nat → FlashAllocation
  | 0, _ => { success := false, offset := none, memoryIndex := memoryIndex }
  | fuel + 1, count =>
    if count < 8 then
      if memoryIndex &&& (1 <<< count) = 0 ∧ memoryIndex &&& (1 <<< (count + 1)) = 0 ∧
          memoryIndex &&& (1 <<< (count + 2)) = 0 ∧
          memoryIndex &&& (1 <<< (count + 3)) = 0 then
        { success := true
          offset := some count
          memoryIndex :=
            (((((((memoryIndex ||| (1 <<< count)) % 256) ||| (1 <<< (count + 1))) % 256)
              ||| (1 <<< (count + 2))) % 256) ||| (1 <<< (count + 3))) % 256 }
      else allocateWord memoryIndex fuel (count + 4)
    else { success := false, offset := none, memoryIndex := memoryIndex }

/-- `Flash_AllocateVar`, given the value of `memoryIndex`, whether the pointer `variable`
is non-null, and `size`.  Each loop makes at most 8 passes. -/
def Flash_AllocateVar (memoryIndex : Nat) (variableNonNull : Bool) (size : Nat) :
    FlashAllocation :=
  if variableNonNull = false then { success := false, offset := none, memoryIndex := memoryIndex }
  else if size = 1 then allocateByte memoryIndex 9 0
  else if size = 2 then allocateHalfWord memoryIndex 9 0
  else if size = 4 then allocateWord memoryIndex 9 0
  else { success := false, offset := none, memoryIndex := memoryIndex }

/-- The success case of the allocation as the spec words it, for a call with a non-null
pointer from the map `memoryIndex`: the stored offset is below 8, a multiple of `size`, its
`size` bytes lie within the phrase and were all unallocated before the call, and the new
map has exactly those bytes marked in addition. -/
def claimedSuccess (memoryIndex size : Nat) : Prop :=
  (Flash_AllocateVar memoryIndex true size).success = true →
    ∃ offset < 8, (Flash_AllocateVar memoryIndex true size).offset = some offset ∧
      offset % size = 0 ∧ offset + size ≤ 8 ∧
      (∀ i < 8, offset ≤ i → i < offset + size → memoryIndex.testBit i = false) ∧
      (∀ i < 8, (Flash_AllocateVar memoryIndex true size).memoryIndex.testBit i
        = (memoryIndex.testBit i || (decide (offset ≤ i) && decide (i < offset + size))))

instance claimedSuccess_decidable (memoryIndex size : Nat) :
    Decidable (claimedSuccess memoryIndex size) := by
  unfold claimedSuccess
  infer_instance

/-- The failure case of the allocation as the spec words it: nothing is stored, the map is
unchanged and no aligned slot of `size` unallocated bytes exists. -/
def claimedFailure (memoryIndex size : Nat) : Prop :=
  (Flash_AllocateVar memoryIndex true size).success = false →
    (Flash_AllocateVar memoryIndex true size).offset = none ∧
    (Flash_AllocateVar memoryIndex true size).memoryIndex = memoryIndex ∧
    ¬ ∃ offset < 8, offset % size = 0 ∧ offset + size ≤ 8 ∧
      ∀ i < 8, offset ≤ i → i < offset + size → memoryIndex.testBit i = false

instance claimedFailure_decidable (memoryIndex size : Nat) :
    Decidable (claimedFailure memoryIndex size) := by
  unfold claimedFailure
  infer_instance

/-- The allocation as the spec words it: the new map is a `uint8_t` and the call meets
`claimedSuccess` and `claimedFailure`. -/
def claimedAllocation (memoryIndex size : Nat) : Prop :=
  (Flash_AllocateVar memoryIndex true size).memoryIndex < 256 ∧
  claimedSuccess memoryIndex size ∧ claimedFailure memoryIndex size

instance claimedAllocation_decidable (memoryIndex size : Nat) :
    Decidable (claimedAllocation memoryIndex size) := by
  unfold claimedAllocation
  infer_instance

/-- The pairs (offset, size) of the successful allocations when `Flash_AllocateVar` is
called with the sizes of a list in turn, each time with a non-null pointer. -/
def allocations (memoryIndex : Nat) : List Nat → List (Nat × Nat)
  | [] => []
  | size :: rest =>
    match (Flash_AllocateVar memoryIndex true size).success,
        (Flash_AllocateVar memoryIndex true size).offset with
    | true, some offset =>
      (offset, size) :: allocations (Flash_AllocateVar memoryIndex true size).memoryIndex rest
    | _, _ => allocations (Flash_AllocateVar memoryIndex true size).memoryIndex rest

/-! ## packet.c: the 5-byte packets -/

/-- The bytes of the global `Packet`, as named by the macros `Packet_Command`, ...,
`Packet_Checksum`. -/
structure TPacket where
  /-- Value of `Packet_Command`. -/
  Packet_Command : Nat
  /-- Value of `Packet_Parameter1`. -/
  Packet_Parameter1 : Nat
  /-- Value of `Packet_Parameter2`. -/
  Packet_Parameter2 : Nat
  /-- Value of `Packet_Parameter3`. -/
  Packet_Parameter3 : Nat
  /-- Value of `Packet_Checksum`. -/
  Packet_Checksum : Nat
deriving DecidableEq

/-- The `static` variables of `Packet_Get`. -/
structure PacketGetState where
  /-- Value of `static uint8_t state`. -/
  state : Nat
  /-- Contents of `static uint8_t packetBuffer[5]`, by index. -/
  packetBuffer : Nat → Nat

/-- The initial values: state 0 and a zeroed buffer. -/
def PacketGetState.init : PacketGetState where
  state := 0
  packetBuffer := fun _ => 0

/-- `UART_InChar`, given the bytes that reach the receive FIFO, oldest first: the flag and
the byte stored through `dataPtr`, and the bytes left.

Modelled from the spec: `FIFO_Get` waits on the counting semaphore `NbBytesSemaphore`
(`OS.h` is not among the sources), so with no byte the caller stays blocked and there is
no result (`none`); with a byte the call returns true. -/
def UART_InChar : List Nat → Option (Bool × Nat × List Nat)
  | [] => none
  | data :: rest => some (true, data, rest)

/-- `UART_OutChar`, given the bytes put in the transmit FIFO so far: `FIFO_Put` waits for
space, stores the byte and returns true. -/
def UART_OutChar (TxFIFO : List Nat) (data : Nat) : Bool × List Nat :=
  (true, TxFIFO ++ [data])

/-- Lines 105-114: the checksum of the first four bytes of the buffer,
`for (index = 0; index < 4; index++) checksum ^= packetBuffer[index]` on `uint8_t`. -/
def bufferChecksum (packetBuffer : Nat → Nat) : Nat :=
  [0, 1, 2, 3].foldl (fun checksum index => (checksum ^^^ packetBuffer index) % 256) 0

/-- Lines 129-133: `for (index = 0; index < 4; index++)
packetBuffer[index] = packetBuffer[index+1]`. -/
def slideBuffer (packetBuffer : Nat → Nat) : Nat → Nat :=
  [0, 1, 2, 3].foldl
    (fun buffer index => Function.update buffer index (buffer (index + 1))) packetBuffer

/-- What a call of `Packet_Get` leaves behind when it returns. -/
structure PacketGetResult where
  /-- The returned flag. -/
  returned : Bool
  /-- The `static` variables after the call. -/
  state : PacketGetState
  /-- The global `Packet` after the call. -/
  Packet : TPacket
  /-- The bytes left in the receive FIFO. -/
  RxFIFO : List Nat

/-- `Packet_Get`: the loop `while (!validPacket)`, with a bound on the number of passes.
`none`: the call has not returned, because it is blocked in `UART_InChar` or because the
bound on the passes is reached. -/
def Packet_Get : Nat → PacketGetState → TPacket → List Nat → Option PacketGetResult
  | 0, _, _, _ => none
  | fuel + 1, st, Packet, RxFIFO =>
    if st.state = 0 ∨ st.state = 1 ∨ st.state = 2 ∨ st.state = 3 ∨ st.state = 4 then
      (UART_InChar RxFIFO).bind fun r =>
        if r.1 = false then
          some { returned := false, state := st, Packet := Packet, RxFIFO := r.2.2 }
        else
          Packet_Get fuel
            { state := st.state + 1
              packetBuffer := Function.update st.packetBuffer st.state r.2.1 }
            Packet r.2.2
    else if st.state = 5 then
      if bufferChecksum st.packetBuffer = st.packetBuffer 4 then
        some
          { returned := true
            state := { st with state := 0 }
            Packet :=
              { Packet_Command := st.packetBuffer 0
                Packet_Parameter1 := st.packetBuffer 1
                Packet_Parameter2 := st.packetBuffer 2
                Packet_Parameter3 := st.packetBuffer 3
                Packet_Checksum := st.packetBuffer 4 }
            RxFIFO := RxFIFO }
      else
        Packet_Get fuel { state := 4, packetBuffer := slideBuffer st.packetBuffer } Packet RxFIFO
    else Packet_Get fuel { st with state := 0 } Packet RxFIFO

/-- Lines 186-196 of `Packet_Put`: the bytes are put in the transmit FIFO in turn; the
first failure ends the loop. -/
def putBytes (TxFIFO : List Nat) : List Nat → Bool × List Nat
  | [] => (true, TxFIFO)
  | data :: rest =>
    if (UART_OutChar TxFIFO data).1 = false then (false, (UART_OutChar TxFIFO data).2)
    else putBytes (UART_OutChar TxFIFO data).2 rest

/-- `Packet_Put`, given the bytes put in the transmit FIFO so far and the results of the
wait and of the signal on `PacketPutSemaphore`: the returned flag and the bytes put in the
FIFO, or the halt on an error. -/
def Packet_Put (TxFIFO : List Nat) (command parameter1 parameter2 parameter3 : Nat)
    (waitError signalError : Int) : Option (Bool × List Nat) :=
  if waitError ≠ 0 then PE_DEBUGHALT
  else
    let checksum := (command ^^^ parameter1 ^^^ parameter2 ^^^ parameter3) % 256
    let packetBuffer := [command, parameter1, parameter2, parameter3, checksum]
    let sent := putBytes TxFIFO packetBuffer
    if signalError ≠ 0 then PE_DEBUGHALT else some sent

/-! ## Inputs of the calculation loop with no load connected -/

/-- The inputs of one iteration with the given voltage code in every slot of the voltage
buffer and the code 0 in every slot of the current buffer (no load), the wait successful,
the tariff table as `Calc_Init` leaves it, tariff mode 1, the clock at 20:00:00 and test
mode off. -/
def noLoadInput (code : Int) : LoopInputs where
  error := 0
  Voltage_ADC := fun _ => code
  Current_ADC := fun _ => 0
  TariffChart := Calc_Init TariffChart_zero
  NvTariffMode := 1
  time := 72000
  TestModeEnabled := false

/-- The inputs of the 16 iterations of one cycle of a square wave of amplitude 1000 codes
(about 0.31 V at the converter): 8 negative samples, then 8 positive ones. -/
def noLoadCycle : List LoopInputs :=
  List.replicate 8 (noLoadInput (-1000)) ++ List.replicate 8 (noLoadInput 1000)

/-! ## Conversions that do not change the value -/

theorem wrap32_of_inInt32 {x : Int} (h : InInt32 x) : wrap32 x = x := by
  unfold InInt32 at h
  unfold wrap32
  omega

theorem wrap32_inInt32 (x : Int) : InInt32 (wrap32 x) := by
  unfold InInt32 wrap32
  omega

theorem wrap32_emod (x : Int) : wrap32 x % 4294967296 = x % 4294967296 := by
  unfold wrap32
  omega

theorem wrap64_of_bounds {x : Int} (h1 : -9223372036854775808 ≤ x)
    (h2 : x ≤ 9223372036854775807) : wrap64 x = x := by
  unfold wrap64
  omega

theorem wrap64_of_inInt32 {x : Int} (h : InInt32 x) : wrap64 x = x := by
  unfold InInt32 at h
  exact wrap64_of_bounds (by omega) (by omega)

theorem mul_bounds_of_inInt32 {a b : Int} (ha : InInt32 a) (hb : InInt32 b) :
    -4611686018427387904 ≤ a * b ∧ a * b ≤ 4611686018427387904 := by
  unfold InInt32 at ha hb
  have h : |a * b| ≤ 2147483648 * 2147483648 := by
    rw [abs_mul]
    exact mul_le_mul (abs_le.mpr ⟨by omega, by omega⟩) (abs_le.mpr ⟨by omega, by omega⟩)
      (abs_nonneg b) (by norm_num)
  have h2 := abs_le.mp h
  constructor <;> omega

/-! ## FixedPoint_Divide and FixedPoint_Multiply -/

theorem shifted_dividend_fits {a : Int} (ha : InInt32 a) :
    wrap64 (wrap64 a * 65536) = a * 2 ^ 16 := by
  rw [wrap64_of_inInt32 ha]
  unfold InInt32 at ha
  exact wrap64_of_bounds (by omega) (by omega)

theorem divide_of_fits (a b : Int) (ha : InInt32 a) (hb : InInt32 b) (hne : b ≠ 0)
    (hq : InInt32 (Int.tdiv (a * 2 ^ 16) b)) :
    FixedPoint_Divide a b = some (Int.tdiv (a * 2 ^ 16) b) := by
  unfold FixedPoint_Divide
  rw [if_neg hne, shifted_dividend_fits ha, wrap64_of_inInt32 hb, wrap64_of_inInt32 hq,
    wrap32_of_inInt32 hq]

theorem product_fits {a b : Int} (ha : InInt32 a) (hb : InInt32 b) :
    wrap64 (wrap64 a * wrap64 b) = a * b := by
  have hp := mul_bounds_of_inInt32 ha hb
  rw [wrap64_of_inInt32 ha, wrap64_of_inInt32 hb]
  exact wrap64_of_bounds (by omega) (by omega)

theorem multiply_value (a b : Int) (ha : InInt32 a) (hb : InInt32 b) :
    FixedPoint_Multiply a b = wrap32 (Int.fdiv (a * b) (2 ^ 16)) := by
  unfold FixedPoint_Multiply
  simp only [product_fits ha hb]
  rw [Int.shiftRight_eq_div_pow, Int.fdiv_eq_ediv _ (by norm_num)]
  norm_num

/-- C1. For all `int32` operands, `FixedPoint_Divide` halts exactly when the divisor is
zero; the shifted dividend `a * 2^16` fits the 64-bit intermediate; and when the divisor is
nonzero and the quotient fits in `int32`, the result is `(a * 2^16) / b` rounded toward
zero. -/
theorem FixedPoint_Divide_contract (a b : Int) (ha : InInt32 a) (hb : InInt32 b) :
    (FixedPoint_Divide a b = none ↔ b = 0) ∧
    wrap64 (wrap64 a * 65536) = a * 2 ^ 16 ∧
    (b ≠ 0 → InInt32 (Int.tdiv (a * 2 ^ 16) b) →
      FixedPoint_Divide a b = some (Int.tdiv (a * 2 ^ 16) b)) := by
  refine ⟨?_, shifted_dividend_fits ha, divide_of_fits a b ha hb⟩
  unfold FixedPoint_Divide PE_DEBUGHALT
  by_cases h : b = 0 <;> simp [h]

theorem FixedPoint_Divide_contract_witness :
    InInt32 196608 ∧ InInt32 131072 ∧
    ((FixedPoint_Divide 196608 131072 = none ↔ (131072 : Int) = 0) ∧
      wrap64 (wrap64 196608 * 65536) = 196608 * 2 ^ 16 ∧
      ((131072 : Int) ≠ 0 → InInt32 (Int.tdiv (196608 * 2 ^ 16) 131072) →
        FixedPoint_Divide 196608 131072 = some (Int.tdiv (196608 * 2 ^ 16) 131072))) ∧
    FixedPoint_Divide 196608 131072 = some 98304 ∧
    FixedPoint_Divide (-196608) 131072 = some (-98304) ∧
    FixedPoint_Divide (-7) 131072 = some (-3) ∧
    FixedPoint_Divide 196608 0 = none :=
  ⟨by decide, by decide, FixedPoint_Divide_contract 196608 131072 (by decide) (by decide),
    by decide, by decide, by decide, by decide⟩

/-- C2. For all `int32` operands, the product fits the 64-bit intermediate, the result of
`FixedPoint_Multiply` is the `int32` holding the low 32 bits of `(a * b) >> 16` (the floor
of `a * b / 2^16`), and it equals that floor whenever the floor fits in `int32`. -/
theorem FixedPoint_Multiply_contract (a b : Int) (ha : InInt32 a) (hb : InInt32 b) :
    wrap64 (wrap64 a * wrap64 b) = a * b ∧
    InInt32 (FixedPoint_Multiply a b) ∧
    FixedPoint_Multiply a b % 2 ^ 32 = Int.fdiv (a * b) (2 ^ 16) % 2 ^ 32 ∧
    (InInt32 (Int.fdiv (a * b) (2 ^ 16)) →
      FixedPoint_Multiply a b = Int.fdiv (a * b) (2 ^ 16)) := by
  have hval := multiply_value a b ha hb
  refine ⟨product_fits ha hb, ?_, ?_, ?_⟩
  · rw [hval]
    exact wrap32_inInt32 _
  · rw [hval]
    exact wrap32_emod _
  · intro hfit
    rw [hval, wrap32_of_inInt32 hfit]

theorem FixedPoint_Multiply_contract_witness :
    InInt32 (-196608) ∧ InInt32 98305 ∧
    (wrap64 (wrap64 (-196608) * wrap64 98305) = -196608 * 98305 ∧
      InInt32 (FixedPoint_Multiply (-196608) 98305) ∧
      FixedPoint_Multiply (-196608) 98305 % 2 ^ 32
        = Int.fdiv (-196608 * 98305) (2 ^ 16) % 2 ^ 32 ∧
      (InInt32 (Int.fdiv (-196608 * 98305) (2 ^ 16)) →
        FixedPoint_Multiply (-196608) 98305 = Int.fdiv (-196608 * 98305) (2 ^ 16))) ∧
    FixedPoint_Multiply (-196608) 98305 = -294915 ∧
    FixedPoint_Multiply (-1) 1 = -1 ∧
    FixedPoint_Multiply 2147483647 2147483647 = -65536 :=
  ⟨by decide, by decide, FixedPoint_Multiply_contract (-196608) 98305 (by decide) (by decide),
    by decide, by decide, by decide⟩

/-! ## FixedPoint_SquareRoot -/

theorem sqrtLoop_succ (radicand : Int) (n : Nat) (x : Int) :
    sqrtLoop radicand (n + 1) x =
      (sqrtLoop radicand n x).bind fun y =>
        (FixedPoint_Divide radicand y).map fun q => wrap32 (wrap32 (q + y) >>> (1 : Nat)) := by
  induction n generalizing x with
  | zero =>
    simp only [sqrtLoop, Option.some_bind]
    cases FixedPoint_Divide radicand x <;> rfl
  | succ k ih =>
    rw [sqrtLoop]
    conv_rhs => rw [sqrtLoop]
    rw [Option.bind_assoc]
    congr 1
    funext q
    exact ih _

theorem halve_int32 (s : Int) : wrap32 (wrap32 s >>> (1 : Nat)) = wrap32 s / 2 := by
  have h := wrap32_inInt32 s
  rw [Int.shiftRight_eq_div_pow]
  apply wrap32_of_inInt32
  unfold InInt32 at h ⊢
  norm_num
  omega

/-- C3. `FixedPoint_SquareRoot` performs exactly `n` Newton-Raphson steps: with no
iteration it returns the initial guess unchanged, and one more iteration applies the step
`x ↦ (FixedPoint_Divide(r, x) + x) / 2` to the result of `n` iterations (a halt of the
division is a halt of the square root).  The sum is the `int32` sum and the halving is the
shift `>> 1`, which rounds toward minus infinity as the integer division written here
does; for a non-negative sum it is also the C division by 2. -/
theorem FixedPoint_SquareRoot_steps (r g : Int) :
    FixedPoint_SquareRoot r g 0 = some g ∧
    (∀ n : Nat, FixedPoint_SquareRoot r g (n + 1) =
      (FixedPoint_SquareRoot r g n).bind fun x =>
        (FixedPoint_Divide r x).map fun q => wrap32 (q + x) / 2) ∧
    (∀ s : Int, 0 ≤ wrap32 s → wrap32 s / 2 = Int.tdiv (wrap32 s) 2) := by
  refine ⟨rfl, ?_, ?_⟩
  · intro n
    unfold FixedPoint_SquareRoot
    rw [sqrtLoop_succ]
    congr 1
    funext x
    congr 1
    funext q
    exact halve_int32 _
  · intro s hs
    exact (Int.tdiv_eq_ediv hs (by norm_num)).symm

set_option maxRecDepth 100000 in
set_option maxHeartbeats 0 in
theorem sqrtWithinOneLsb_from_1 : ∀ w < 100, sqrtWithinOneLsb (w + 1) = true := by
  decide

set_option maxRecDepth 100000 in
set_option maxHeartbeats 0 in
theorem sqrtWithinOneLsb_from_101 : ∀ w < 100, sqrtWithinOneLsb (w + 101) = true := by
  decide

set_option maxRecDepth 100000 in
set_option maxHeartbeats 0 in
theorem sqrtWithinOneLsb_from_201 : ∀ w < 100, sqrtWithinOneLsb (w + 201) = true := by
  decide

set_option maxRecDepth 100000 in
set_option maxHeartbeats 0 in
theorem sqrtWithinOneLsb_from_301 : ∀ w < 100, sqrtWithinOneLsb (w + 301) = true := by
  decide

set_option maxRecDepth 100000 in
set_option maxHeartbeats 0 in
theorem sqrtWithinOneLsb_from_401 : ∀ w < 100, sqrtWithinOneLsb (w + 401) = true := by
  decide

set_option maxRecDepth 100000 in
set_option maxHeartbeats 0 in
theorem sqrtWithinOneLsb_from_501 : ∀ w < 100, sqrtWithinOneLsb (w + 501) = true := by
  decide

set_option maxRecDepth 100000 in
set_option maxHeartbeats 0 in
theorem sqrtWithinOneLsb_from_601 : ∀ w < 100, sqrtWithinOneLsb (w + 601) = true := by
  decide

set_option maxRecDepth 100000 in
set_option maxHeartbeats 0 in
theorem sqrtWithinOneLsb_from_701 : ∀ w < 100, sqrtWithinOneLsb (w + 701) = true := by
  decide

set_option maxRecDepth 100000 in
set_option maxHeartbeats 0 in
theorem sqrtWithinOneLsb_from_801 : ∀ w < 100, sqrtWithinOneLsb (w + 801) = true := by
  decide

set_option maxRecDepth 100000 in
set_option maxHeartbeats 0 in
theorem sqrtWithinOneLsb_from_901 : ∀ w < 100, sqrtWithinOneLsb (w + 901) = true := by
  decide

theorem sqrtWithinOneLsb_all (v : Nat) (h1 : 1 ≤ v) (h2 : v ≤ 1000) :
    sqrtWithinOneLsb v = true := by
  rcases Nat.lt_or_ge v 101 with h | h
  · have e : v = (v - 1) + 1 := by omega
    rw [e]
    exact sqrtWithinOneLsb_from_1 _ (by omega)
  rcases Nat.lt_or_ge v 201 with h | h
  · have e : v = (v - 101) + 101 := by omega
    rw [e]
    exact sqrtWithinOneLsb_from_101 _ (by omega)
  rcases Nat.lt_or_ge v 301 with h | h
  · have e : v = (v - 201) + 201 := by omega
    rw [e]
    exact sqrtWithinOneLsb_from_201 _ (by omega)
  rcases Nat.lt_or_ge v 401 with h | h
  · have e : v = (v - 301) + 301 := by omega
    rw [e]
    exact sqrtWithinOneLsb_from_301 _ (by omega)
  rcases Nat.lt_or_ge v 501 with h | h
  · have e : v = (v - 401) + 401 := by omega
    rw [e]
    exact sqrtWithinOneLsb_from_401 _ (by omega)
  rcases Nat.lt_or_ge v 601 with h | h
  · have e : v = (v - 501) + 501 := by omega
    rw [e]
    exact sqrtWithinOneLsb_from_501 _ (by omega)
  rcases Nat.lt_or_ge v 701 with h | h
  · have e : v = (v - 601) + 601 := by omega
    rw [e]
    exact sqrtWithinOneLsb_from_601 _ (by omega)
  rcases Nat.lt_or_ge v 801 with h | h
  · have e : v = (v - 701) + 701 := by omega
    rw [e]
    exact sqrtWithinOneLsb_from_701 _ (by omega)
  rcases Nat.lt_or_ge v 901 with h | h
  · have e : v = (v - 801) + 801 := by omega
    rw [e]
    exact sqrtWithinOneLsb_from_801 _ (by omega)
  have e : v = (v - 901) + 901 := by omega
  rw [e]
  exact sqrtWithinOneLsb_from_901 _ (by omega)

/-- C4. For every integer `v` with `1 ≤ v ≤ 1000` and `x = v * 2^16`, the square root
`FixedPoint_SquareRoot(x, x, 15)` returns a value `r` within one least-significant bit of
the true square root of `v` in Q16: `(r - 1)^2 ≤ v * 2^32 ≤ (r + 1)^2`. -/
theorem FixedPoint_SquareRoot_within_one_lsb (v : Int) (h1 : 1 ≤ v) (h2 : v ≤ 1000) :
    ∃ r : Int, FixedPoint_SquareRoot (v * 2 ^ 16) (v * 2 ^ 16) 15 = some r ∧
      (r - 1) ^ 2 ≤ v * 2 ^ 32 ∧ v * 2 ^ 32 ≤ (r + 1) ^ 2 := by
  obtain ⟨k, rfl⟩ := Int.eq_ofNat_of_zero_le (by omega : 0 ≤ v)
  have hk := sqrtWithinOneLsb_all k (by omega) (by omega)
  unfold sqrtWithinOneLsb at hk
  have e : ((2 : Int) ^ 16) = 65536 := by norm_num
  rw [e]
  cases hr : FixedPoint_SquareRoot ((k : Int) * 65536) ((k : Int) * 65536) 15 with
  | none => simp [hr] at hk
  | some r =>
    rw [hr] at hk
    exact ⟨r, rfl, of_decide_eq_true hk⟩

theorem FixedPoint_SquareRoot_within_one_lsb_witness :
    (1 : Int) ≤ 2 ∧ (2 : Int) ≤ 1000 ∧
    FixedPoint_SquareRoot (2 * 2 ^ 16) (2 * 2 ^ 16) 15 = some 92681 ∧
    ∃ r : Int, FixedPoint_SquareRoot (2 * 2 ^ 16) (2 * 2 ^ 16) 15 = some r ∧
      (r - 1) ^ 2 ≤ 2 * 2 ^ 32 ∧ 2 * 2 ^ 32 ≤ (r + 1) ^ 2 :=
  ⟨by decide, by decide, by decide,
    FixedPoint_SquareRoot_within_one_lsb 2 (by decide) (by decide)⟩


/-! ## Round trip of division and multiplication -/

theorem tmod_pos_divisor_bounds (N c : Int) (hc : 0 < c) :
    (0 ≤ N → 0 ≤ N.tmod c ∧ N.tmod c < c) ∧ (N ≤ 0 → -c < N.tmod c ∧ N.tmod c ≤ 0) := by
  constructor
  · intro hN
    exact ⟨Int.tmod_nonneg c hN, Int.tmod_lt_of_pos N hc⟩
  · intro hN
    have e : N.tmod c = -((-N).tmod c) := by
      rw [Int.tmod_def, Int.tmod_def, Int.neg_tdiv]
      ring
    have h1 := Int.tmod_nonneg c (by omega : 0 ≤ -N)
    have h2 := Int.tmod_lt_of_pos (-N) hc
    omega

theorem tmod_bounds (N b : Int) (hb : b ≠ 0) :
    (0 ≤ N → 0 ≤ N.tmod b ∧ N.tmod b < |b|) ∧ (N ≤ 0 → -|b| < N.tmod b ∧ N.tmod b ≤ 0) := by
  rcases lt_or_gt_of_ne hb with h | h
  · have e : N.tmod b = N.tmod (-b) := (Int.tmod_neg N b).symm
    rw [e, abs_of_neg h]
    exact tmod_pos_divisor_bounds N (-b) (by omega)
  · rw [abs_of_pos h]
    exact tmod_pos_divisor_bounds N b h

/-- C5 (as the code has it). For `int32` operands with a nonzero divisor `b` and a quotient
that fits in `int32`, `FixedPoint_Divide(a, b)` returns a value `q` and
`FixedPoint_Multiply(q, b)` differs from `a` by less than `|b| / 2^16 + 1` least-significant
bits; in particular by at most 1 least-significant bit when `|b| ≤ 2^16` (a divisor of
magnitude at most 1.0). -/
theorem FixedPoint_divide_multiply_error (a b : Int) (ha : InInt32 a) (hb : InInt32 b)
    (hne : b ≠ 0) (hq : InInt32 (Int.tdiv (a * 2 ^ 16) b)) :
    ∃ q : Int, FixedPoint_Divide a b = some q ∧
      |FixedPoint_Multiply q b - a| * 2 ^ 16 < |b| + 2 ^ 16 ∧
      (|b| ≤ 2 ^ 16 → |FixedPoint_Multiply q b - a| ≤ 1) := by
  have hdiv := divide_of_fits a b ha hb hne hq
  refine ⟨_, hdiv, ?_⟩
  have hval := multiply_value (Int.tdiv (a * 2 ^ 16) b) b hq hb
  have hr := tmod_bounds (a * 2 ^ 16) b hne
  have hsplit : Int.tdiv (a * 2 ^ 16) b * b = a * 2 ^ 16 - Int.tmod (a * 2 ^ 16) b := by
    have := Int.tdiv_add_tmod (a * 2 ^ 16) b
    linarith
  rw [hval, hsplit, Int.fdiv_eq_ediv _ (by norm_num)]
  generalize Int.tmod (a * 2 ^ 16) b = r at hr ⊢
  have e16 : ((2 : Int) ^ 16) = 65536 := by norm_num
  rw [e16] at hr ⊢
  unfold InInt32 at ha hb
  have habs : |b| ≤ 2147483648 := abs_le.mpr ⟨by omega, by omega⟩
  have habs0 : 0 < |b| := abs_pos.mpr hne
  generalize |b| = B at hr habs habs0 ⊢
  have hr1 := hr.1
  have hr2 := hr.2
  unfold wrap32
  generalize hd : ((a * 65536 - r) / 65536 + 2147483648) % 4294967296 - 2147483648 - a = d
  rcases le_total 0 a with h0 | h0
  · have hr3 := hr1 (by omega)
    have hd1 : d ≤ 0 := by omega
    have hd2 : -(r + 65535) ≤ d * 65536 := by omega
    rw [abs_of_nonpos hd1]
    constructor
    · omega
    · intro hB
      omega
  · have hr3 := hr2 (by omega)
    have hd1 : 0 ≤ d := by omega
    have hd2 : d * 65536 ≤ -r := by omega
    rw [abs_of_nonneg hd1]
    constructor
    · omega
    · intro hB
      omega

theorem FixedPoint_divide_multiply_counterexample :
    InInt32 100 ∧ InInt32 65536000 ∧ (100 : Int) ≠ 0 ∧ (65536000 : Int) ≠ 0 ∧
    FixedPoint_Divide 100 65536000 = some 0 ∧
    FixedPoint_Multiply 0 65536000 = 0 ∧
    ¬ (|FixedPoint_Multiply 0 65536000 - 100| ≤ 1) := by
  decide

theorem FixedPoint_divide_multiply_error_witness :
    InInt32 100 ∧ InInt32 3 ∧ (3 : Int) ≠ 0 ∧ InInt32 (Int.tdiv (100 * 2 ^ 16) 3) ∧
    FixedPoint_Divide 100 3 = some 2184533 ∧
    FixedPoint_Multiply 2184533 3 = 99 ∧
    ∃ q : Int, FixedPoint_Divide 100 3 = some q ∧
      |FixedPoint_Multiply q 3 - 100| * 2 ^ 16 < |(3 : Int)| + 2 ^ 16 ∧
      (|(3 : Int)| ≤ 2 ^ 16 → |FixedPoint_Multiply q 3 - 100| ≤ 1) :=
  ⟨by decide, by decide, by decide, by decide, by decide, by decide,
    FixedPoint_divide_multiply_error 100 3 (by decide) (by decide) (by decide) (by decide)⟩

/-! ## Calc_FrequencyTracking: the boundary flag and the reported period -/

theorem trackFrom_append (st : FreqState) (xs ys : List Int) :
    trackFrom st (xs ++ ys) = trackFrom (trackFrom st xs) ys := by
  unfold trackFrom
  rw [List.foldl_append]

theorem trackFrom_concat (st : FreqState) (xs : List Int) (x : Int) :
    trackFrom st (xs ++ [x]) = (Calc_FrequencyTracking (trackFrom st xs) x).state := by
  rw [trackFrom_append]
  rfl

theorem trackFrom_cons (st : FreqState) (x : Int) (xs : List Int) :
    trackFrom st (x :: xs) = trackFrom (Calc_FrequencyTracking st x).state xs := rfl

theorem step_captured (st : FreqState) (x : Int) :
    (Calc_FrequencyTracking st x).state.firstSampleCaptured = true ∧
    (Calc_FrequencyTracking st x).state.sampleOld = x := ⟨rfl, rfl⟩

theorem trackFrom_last (st : FreqState) (xs : List Int) (x : Int)
    (h : xs.getLast? = some x) :
    (trackFrom st xs).firstSampleCaptured = true ∧ (trackFrom st xs).sampleOld = x := by
  rcases xs.eq_nil_or_concat with rfl | ⟨ys, y, rfl⟩
  · simp at h
  · rw [List.concat_eq_append] at h ⊢
    rw [List.getLast?_concat] at h
    cases h
    rw [trackFrom_concat]
    exact step_captured _ _

theorem flag_of_captured (st : FreqState) (x : Int) (h : st.firstSampleCaptured = true) :
    (Calc_FrequencyTracking st x).risingEdgeDetected = true ↔ st.sampleOld < 0 ∧ x ≥ 0 := by
  simp only [Calc_FrequencyTracking, h, if_true, trackSample]
  by_cases hc : st.sampleOld < 0 ∧ x ≥ 0
  · simp [hc]
  · simp [hc]

/-- C6. The flag returned by `Calc_FrequencyTracking` on a sample, after any sequence of
earlier calls, is true exactly when there was an earlier call, the sample of the previous
call is negative and the current sample is non-negative; the first call ever made returns
false for every sample. -/
theorem Calc_FrequencyTracking_flag (prev : List Int) (sample : Int) :
    ((Calc_FrequencyTracking (trackFrom FreqState.init prev) sample).risingEdgeDetected = true
      ↔ ∃ previous, prev.getLast? = some previous ∧ previous < 0 ∧ sample ≥ 0) ∧
    (Calc_FrequencyTracking FreqState.init sample).risingEdgeDetected = false := by
  refine ⟨?_, rfl⟩
  cases hl : prev.getLast? with
  | none =>
    rw [List.getLast?_eq_none_iff] at hl
    subst hl
    simp [trackFrom, Calc_FrequencyTracking, FreqState.init]
  | some y =>
    obtain ⟨h1, h2⟩ := trackFrom_last FreqState.init prev y hl
    rw [flag_of_captured _ _ h1, h2]
    simp


theorem wrapU32_bounds (x : Int) : 0 ≤ wrapU32 x ∧ wrapU32 x < 4294967296 := by
  unfold wrapU32
  omega

theorem crossingFraction_nonneg (p x : Int) : 0 ≤ crossingFraction p x :=
  (wrapU32_bounds _).1

theorem FreqInv_init : FreqInv FreqState.init := by
  unfold FreqInv FreqState.init installedPeriod
  simp

theorem FreqInv_step (st : FreqState) (x : Int) (h : FreqInv st) :
    FreqInv (Calc_FrequencyTracking st x).state := by
  obtain ⟨fsc, sc, rc, cnt, so, osp, zc, fzc, szc, f10, pit⟩ := st
  have hw := fun y => wrapU32_bounds y
  have hf := crossingFraction_nonneg so x
  simp only [FreqInv, installedPeriod] at h
  obtain ⟨h1, h2, h3, h4, h5⟩ := h
  by_cases hc : so < 0 ∧ x ≥ 0 <;> cases fsc <;> cases sc <;> cases rc <;>
    simp only [FreqInv, installedPeriod, Calc_FrequencyTracking, trackSample, countSample,
      onRisingEdge, recomputePeriod, hc, if_true, if_false, Bool.not_true, Bool.not_false,
      Bool.false_eq_true, and_self, and_true, true_and] <;>
    first
      | (split_ifs <;> simp_all)
      | simp_all

theorem FreqInv_trackFrom (st : FreqState) (xs : List Int) (h : FreqInv st) :
    FreqInv (trackFrom st xs) := by
  induction xs generalizing st with
  | nil => exact h
  | cons x xs ih =>
    rw [trackFrom_cons]
    exact ih _ (FreqInv_step st x h)

theorem step_pitSet (st : FreqState) (x : Int) :
    ((Calc_FrequencyTracking st x).state.pitSet = st.pitSet ∧
      (Calc_FrequencyTracking st x).state.oldSamplePeriod = st.oldSamplePeriod ∧
      (Calc_FrequencyTracking st x).state.FrequencyTimes10 = st.FrequencyTimes10) ∨
    ((Calc_FrequencyTracking st x).state.pitSet =
        ((Calc_FrequencyTracking st x).state.oldSamplePeriod, true) :: st.pitSet ∧
      (Calc_FrequencyTracking st x).state.FrequencyTimes10 =
        frequencyTimes10 (Calc_FrequencyTracking st x).state.oldSamplePeriod ∧
      0 ≤ (Calc_FrequencyTracking st x).state.oldSamplePeriod ∧
      (Calc_FrequencyTracking st x).state.oldSamplePeriod < 4294967296) := by
  obtain ⟨fsc, sc, rc, cnt, so, osp, zc, fzc, szc, f10, pit⟩ := st
  have hw := fun y => wrapU32_bounds y
  by_cases hc : so < 0 ∧ x ≥ 0 <;> cases fsc <;> cases sc <;> cases rc <;>
    simp only [Calc_FrequencyTracking, trackSample, countSample,
      onRisingEdge, recomputePeriod, hc, if_true, if_false, Bool.not_true, Bool.not_false,
      Bool.false_eq_true, and_self, and_true, true_and] <;>
    first
      | (split_ifs <;> simp_all)
      | simp_all

/-- C8. After any sequence of earlier calls, the period `Calc_FrequencyTracking` writes to
`*samplePeriod` is the period most recently installed with `PIT_Set` by an earlier call, or
the initial 1,315,790 ns if there was none.  A call that recomputes the period installs the
new one with `PIT_Set (newPeriod, true)` and still reports the old one; the new period is
what the following call reports.  On the first recomputation of the sample run
`-1.0, 1.0, -1.0, 0` the call installs 164,502 ns and reports 1,315,790 ns. -/
theorem Calc_FrequencyTracking_reports_period_in_effect (prev : List Int) (sample : Int) :
    (Calc_FrequencyTracking (trackFrom FreqState.init prev) sample).samplePeriod
      = installedPeriod (trackFrom FreqState.init prev) ∧
    (∀ newPeriod restart,
      (Calc_FrequencyTracking (trackFrom FreqState.init prev) sample).state.pitSet
          = (newPeriod, restart) :: (trackFrom FreqState.init prev).pitSet →
        restart = true ∧
        (Calc_FrequencyTracking (trackFrom FreqState.init prev) sample).samplePeriod
          = installedPeriod (trackFrom FreqState.init prev) ∧
        ∀ next, (Calc_FrequencyTracking
            (Calc_FrequencyTracking (trackFrom FreqState.init prev) sample).state next).samplePeriod
          = newPeriod) ∧
    ((Calc_FrequencyTracking (trackFrom FreqState.init [-65536, 65536, -65536]) 0).samplePeriod
        = 1315790 ∧
      (Calc_FrequencyTracking (trackFrom FreqState.init [-65536, 65536, -65536]) 0).state.pitSet
        = [(164502, true)]) := by
  have hinv := FreqInv_trackFrom FreqState.init prev FreqInv_init
  have hper : (Calc_FrequencyTracking (trackFrom FreqState.init prev) sample).samplePeriod
      = installedPeriod (trackFrom FreqState.init prev) := hinv.2.2.2.2
  refine ⟨hper, ?_, by decide⟩
  intro newPeriod restart hset
  have hinv2 := FreqInv_step _ sample hinv
  have hnext : (Calc_FrequencyTracking (trackFrom FreqState.init prev) sample).state.oldSamplePeriod
      = newPeriod := by
    rw [hinv2.2.2.2.2]
    unfold installedPeriod
    rw [hset]
    rfl
  refine ⟨?_, hper, fun _ => hnext⟩
  rcases step_pitSet (trackFrom FreqState.init prev) sample with h | h
  · rw [h.1] at hset
    exact absurd hset (by simp)
  · rw [h.1] at hset
    simp at hset
    exact hset.2

/-- C9. Whenever a call of `Calc_FrequencyTracking` recomputes the period (it calls
`PIT_Set` with the new period), it sets `FrequencyTimes10` to
`1e9 / (16 * (newPeriod / 10))` with truncating divisions: the divisor is the 32-bit
unsigned product (the value is stated where it is nonzero), and for a new period from 10 ns
to below 2,684,354,560 ns that product is not reduced.  For a new period of 1,250,000 ns
the value is 500. -/
theorem Calc_FrequencyTracking_frequency (st : FreqState) (sample : Int)
    (h : (Calc_FrequencyTracking st sample).state.pitSet ≠ st.pitSet) :
    ∃ newPeriod,
      (Calc_FrequencyTracking st sample).state.pitSet = (newPeriod, true) :: st.pitSet ∧
      (Calc_FrequencyTracking st sample).state.oldSamplePeriod = newPeriod ∧
      ((16 * (newPeriod / 10)) % 2 ^ 32 ≠ 0 →
        (Calc_FrequencyTracking st sample).state.FrequencyTimes10
          = 1000000000 / ((16 * (newPeriod / 10)) % 2 ^ 32)) ∧
      (10 ≤ newPeriod → newPeriod < 2684354560 →
        (Calc_FrequencyTracking st sample).state.FrequencyTimes10
          = 1000000000 / (16 * (newPeriod / 10))) ∧
      frequencyTimes10 1250000 = 500 := by
  rcases step_pitSet st sample with h' | h'
  · exact absurd h'.1 h
  · refine ⟨_, h'.1, rfl, ?_, ?_, by decide⟩
    · intro _
      rw [h'.2.1]
      rfl
    · intro h0 h1
      rw [h'.2.1]
      unfold frequencyTimes10 wrapU32
      congr 1
      omega

theorem Calc_FrequencyTracking_frequency_witness :
    (Calc_FrequencyTracking (trackFrom FreqState.init [-65536, 65536, -65536]) 0).state.pitSet
      ≠ (trackFrom FreqState.init [-65536, 65536, -65536]).pitSet ∧
    (Calc_FrequencyTracking (trackFrom FreqState.init [-65536, 65536, -65536]) 0).state.FrequencyTimes10
      = 3799 ∧
    ∃ newPeriod,
      (Calc_FrequencyTracking (trackFrom FreqState.init [-65536, 65536, -65536]) 0).state.pitSet
        = (newPeriod, true) :: (trackFrom FreqState.init [-65536, 65536, -65536]).pitSet ∧
      (Calc_FrequencyTracking (trackFrom FreqState.init [-65536, 65536, -65536]) 0).state.oldSamplePeriod
        = newPeriod ∧
      ((16 * (newPeriod / 10)) % 2 ^ 32 ≠ 0 →
        (Calc_FrequencyTracking (trackFrom FreqState.init [-65536, 65536, -65536]) 0).state.FrequencyTimes10
          = 1000000000 / ((16 * (newPeriod / 10)) % 2 ^ 32)) ∧
      (10 ≤ newPeriod → newPeriod < 2684354560 →
        (Calc_FrequencyTracking (trackFrom FreqState.init [-65536, 65536, -65536]) 0).state.FrequencyTimes10
          = 1000000000 / (16 * (newPeriod / 10))) ∧
      frequencyTimes10 1250000 = 500 :=
  ⟨by decide, by decide,
    Calc_FrequencyTracking_frequency (trackFrom FreqState.init [-65536, 65536, -65536]) 0
      (by decide)⟩


/-! ## Calc_FrequencyTracking: the recomputed period -/

theorem open_step (st : FreqState) (x0 : Int) (hinv : FreqInv st)
    (hcap : st.firstSampleCaptured = true) (hc : st.sampleOld < 0 ∧ x0 ≥ 0) :
    (Calc_FrequencyTracking st x0).state.startCounter = true ∧
    (Calc_FrequencyTracking st x0).state.resetCounter = false ∧
    (Calc_FrequencyTracking st x0).state.periodSampleCount = 1 ∧
    (Calc_FrequencyTracking st x0).state.zeroCrossing = crossingFraction st.sampleOld x0 ∧
    (Calc_FrequencyTracking st x0).state.firstZeroCrossing
      = (if crossingFraction st.sampleOld x0 ≤ 1000 then crossingFraction st.sampleOld x0
          else st.firstZeroCrossing) := by
  obtain ⟨fsc, sc, rc, cnt, so, osp, zc, fzc, szc, f10, pit⟩ := st
  simp only [FreqInv, installedPeriod] at hinv
  obtain ⟨h1, h2, h3, h4, h5⟩ := hinv
  simp only at hcap hc
  subst hcap
  have hw1 : wrapU8 (0 + 1) = 1 := by decide
  cases sc <;> cases rc <;>
    simp only [Calc_FrequencyTracking, trackSample, countSample,
      onRisingEdge, recomputePeriod, hc, if_true, if_false, Bool.not_true, Bool.not_false,
      Bool.false_eq_true, and_self, and_true, true_and] <;>
    (split_ifs <;> simp_all)

theorem quiet_step (st : FreqState) (x : Int) (hcap : st.firstSampleCaptured = true)
    (hsc : st.startCounter = true) (hrc : st.resetCounter = false)
    (hfz : st.zeroCrossing ≤ 1000 → st.firstZeroCrossing = st.zeroCrossing)
    (hnc : ¬ (st.sampleOld < 0 ∧ x ≥ 0)) :
    (Calc_FrequencyTracking st x).state =
      { st with periodSampleCount := wrapU8 (st.periodSampleCount + 1), sampleOld := x } := by
  obtain ⟨fsc, sc, rc, cnt, so, osp, zc, fzc, szc, f10, pit⟩ := st
  simp only at hcap hsc hrc hfz hnc
  subst hcap hsc hrc
  simp only [Calc_FrequencyTracking, trackSample, countSample, hnc, if_true, if_false,
    Bool.false_eq_true]
  split_ifs with hz
  · simp [hfz hz]
  · rfl

theorem quiet_run (mid : List Int) (st : FreqState) (hcap : st.firstSampleCaptured = true)
    (hsc : st.startCounter = true) (hrc : st.resetCounter = false)
    (hfz : st.zeroCrossing ≤ 1000 → st.firstZeroCrossing = st.zeroCrossing)
    (hcnt : 0 ≤ st.periodSampleCount ∧ st.periodSampleCount < 256)
    (hq : noRisingCrossing st.sampleOld mid) :
    trackFrom st mid =
      { st with
        periodSampleCount := wrapU8 (st.periodSampleCount + mid.length)
        sampleOld := (mid.getLast?).getD st.sampleOld } := by
  induction mid generalizing st with
  | nil =>
    obtain ⟨fsc, sc, rc, cnt, so, osp, zc, fzc, szc, f10, pit⟩ := st
    simp only [trackFrom, List.foldl_nil, List.length_nil, Nat.cast_zero, add_zero,
      List.getLast?_nil, Option.getD_none, FreqState.mk.injEq, true_and, and_true]
    simp only at hcnt
    unfold wrapU8
    omega
  | cons y ys ih =>
    obtain ⟨hq1, hq2⟩ := hq
    rw [trackFrom_cons, quiet_step st y hcap hsc hrc hfz hq1]
    have hw : 0 ≤ wrapU8 (st.periodSampleCount + 1) ∧ wrapU8 (st.periodSampleCount + 1) < 256 := by
      unfold wrapU8
      omega
    rw [ih { st with periodSampleCount := wrapU8 (st.periodSampleCount + 1), sampleOld := y }
      hcap hsc hrc hfz hw hq2]
    obtain ⟨fsc, sc, rc, cnt, so, osp, zc, fzc, szc, f10, pit⟩ := st
    simp only [List.length_cons, Nat.cast_add, Nat.cast_one, FreqState.mk.injEq, true_and,
      and_true]
    constructor
    · unfold wrapU8
      omega
    · cases ys with
      | nil => rfl
      | cons z zs =>
        simp only [List.getLast?_cons_cons]
        rw [List.getLast?_eq_getLast _ (List.cons_ne_nil z zs)]
        rfl

theorem shiftRight16_bounds (t : Int) (h0 : 0 ≤ t) (h1 : t < 4294967296) :
    0 ≤ t >>> (16 : Nat) ∧ t >>> (16 : Nat) ≤ 65535 := by
  rw [Int.shiftRight_eq_div_pow]
  norm_num
  omega

theorem close_step (st : FreqState) (x : Int) (hinv : FreqInv st)
    (hcap : st.firstSampleCaptured = true) (hsc : st.startCounter = true)
    (hrc : st.resetCounter = false) (hc : st.sampleOld < 0 ∧ x ≥ 0) :
    (Calc_FrequencyTracking st x).state.oldSamplePeriod
      = wrapU32 (claimedNewPeriod st.oldSamplePeriod st.periodSampleCount st.firstZeroCrossing
          (wrapU32 (1000 - crossingFraction st.sampleOld x))) ∧
    (Calc_FrequencyTracking st x).state.pitSet
      = ((Calc_FrequencyTracking st x).state.oldSamplePeriod, true) :: st.pitSet := by
  obtain ⟨fsc, sc, rc, cnt, so, osp, zc, fzc, szc, f10, pit⟩ := st
  simp only [FreqInv, installedPeriod] at hinv
  obtain ⟨h1, h2, h3, h4, h5⟩ := hinv
  simp only at hcap hsc hrc hc h3 h4
  subst hcap hsc hrc
  have hk := shiftRight16_bounds osp h4.1 h4.2
  have hw := wrapU32_bounds (1000 - crossingFraction so x)
  simp only [Calc_FrequencyTracking, trackSample, countSample,
      onRisingEdge, recomputePeriod, claimedNewPeriod, hc, if_true, if_false, Bool.not_true,
      Bool.not_false, Bool.false_eq_true, and_self, and_true, true_and]
  generalize wrapU32 (1000 - crossingFraction so x) = e at hw ⊢
  generalize osp >>> (16 : Nat) = k at hk ⊢
  generalize osp >>> (4 : Nat) * cnt = A
  have hval : (if fzc ≤ 1000 ∧ e ≤ 1000 then wrapU32 (wrapU32 A + wrapU32 ((fzc + e) * k) / 1000)
        else wrapU32 A)
      = wrapU32 (A + if (0 ≤ fzc ∧ fzc ≤ 1000) ∧ 0 ≤ e ∧ e ≤ 1000
          then (fzc + e) * k / 1000 else 0) := by
    by_cases he : e ≤ 1000
    · have hP : 0 ≤ (fzc + e) * k ∧ (fzc + e) * k ≤ 131070000 := by
        constructor
        · exact mul_nonneg (by omega) hk.1
        · have := mul_le_mul (by omega : fzc + e ≤ 2000) hk.2 hk.1 (by norm_num)
          omega
      simp only [h3, he, hw.1, and_self, if_true]
      generalize (fzc + e) * k = P at hP ⊢
      unfold wrapU32
      omega
    · simp only [he, and_false, if_false, add_zero]
  by_cases hz : crossingFraction so x ≤ 1000
  · simp only [hz, if_true, hval, and_self]
  · simp only [hz, if_false, hval, and_self]

/-- C7 (as the code has it). Take any run of calls whose last sample `p` is negative, an
opening crossing sample `x0 ≥ 0`, further samples `mid` without a rising crossing (at most
255 samples in all from `x0` on) ending in a negative sample `l`, and a closing crossing
sample `x ≥ 0`.  The closing call recomputes the period and installs it with `PIT_Set`:
in 32-bit unsigned arithmetic the new period is `(oldPeriod >> 4) * samplesThisCycle`,
plus `((entryFraction + exitFraction) * (oldPeriod >> 16)) / 1000` exactly when both
fractions lie in `[0, 1000]`.  Here `oldPeriod` is the period the call reports,
`samplesThisCycle` is the number of samples from `x0` to `l`, `exitFraction` is 1000 minus
the interpolated fraction of the closing crossing, and `entryFraction` is the stored
fraction: the interpolated fraction of the opening crossing when that lies in `[0, 1000]`,
the previously stored one otherwise. -/
theorem Calc_FrequencyTracking_new_period (prev : List Int) (p x0 : Int) (mid : List Int)
    (l x : Int) (hp : prev.getLast? = some p) (hopen : p < 0 ∧ x0 ≥ 0)
    (hquiet : noRisingCrossing x0 mid) (hl : (x0 :: mid).getLast? = some l)
    (hclose : l < 0 ∧ x ≥ 0) (hn : mid.length + 1 ≤ 255) :
    ∃ entryFraction exitFraction oldPeriod newPeriod,
      exitFraction = wrapU32 (1000 - crossingFraction l x) ∧
      entryFraction = (if crossingFraction p x0 ≤ 1000 then crossingFraction p x0
        else (trackFrom FreqState.init prev).firstZeroCrossing) ∧
      (0 ≤ entryFraction ∧ entryFraction ≤ 1000) ∧
      oldPeriod
        = (Calc_FrequencyTracking (trackFrom FreqState.init (prev ++ x0 :: mid)) x).samplePeriod ∧
      (Calc_FrequencyTracking (trackFrom FreqState.init (prev ++ x0 :: mid)) x).state.pitSet
        = (newPeriod, true) :: (trackFrom FreqState.init (prev ++ x0 :: mid)).pitSet ∧
      (Calc_FrequencyTracking (trackFrom FreqState.init (prev ++ x0 :: mid)) x).state.oldSamplePeriod
        = newPeriod ∧
      newPeriod = wrapU32 (claimedNewPeriod oldPeriod ((mid.length : Int) + 1)
        entryFraction exitFraction) := by
  have hinv0 := FreqInv_trackFrom FreqState.init prev FreqInv_init
  obtain ⟨hcap0, hold0⟩ := trackFrom_last FreqState.init prev p hp
  have hc0 : (trackFrom FreqState.init prev).sampleOld < 0 ∧ x0 ≥ 0 := by
    rw [hold0]
    exact hopen
  obtain ⟨o1, o2, o3, o4, o5⟩ := open_step _ x0 hinv0 hcap0 hc0
  rw [hold0] at o4 o5
  obtain ⟨c1, c2⟩ := step_captured (trackFrom FreqState.init prev) x0
  have hrun := quiet_run mid (Calc_FrequencyTracking (trackFrom FreqState.init prev) x0).state
    c1 o1 o2
    (by
      intro hz
      rw [o5, o4]
      rw [o4] at hz
      rw [if_pos hz])
    (by rw [o3]; omega)
    (by rw [c2]; exact hquiet)
  have hst : trackFrom FreqState.init (prev ++ x0 :: mid)
      = trackFrom (Calc_FrequencyTracking (trackFrom FreqState.init prev) x0).state mid := by
    rw [trackFrom_append, trackFrom_cons]
  have hinv2 := FreqInv_trackFrom FreqState.init (prev ++ x0 :: mid) FreqInv_init
  have hlast : (mid.getLast?).getD x0 = l := by
    cases mid with
    | nil =>
      simp only [List.getLast?_singleton, Option.some.injEq] at hl
      simpa using hl
    | cons z zs =>
      rw [List.getLast?_cons_cons] at hl
      rw [hl]
      rfl
  rw [hst] at hinv2 ⊢
  have f1 : (trackFrom (Calc_FrequencyTracking (trackFrom FreqState.init prev) x0).state
      mid).firstSampleCaptured = true := by rw [hrun]; exact c1
  have f2 : (trackFrom (Calc_FrequencyTracking (trackFrom FreqState.init prev) x0).state
      mid).startCounter = true := by rw [hrun]; exact o1
  have f3 : (trackFrom (Calc_FrequencyTracking (trackFrom FreqState.init prev) x0).state
      mid).resetCounter = false := by rw [hrun]; exact o2
  have f4 : (trackFrom (Calc_FrequencyTracking (trackFrom FreqState.init prev) x0).state
      mid).sampleOld = l := by rw [hrun]; exact hlast
  have f5 : (trackFrom (Calc_FrequencyTracking (trackFrom FreqState.init prev) x0).state
      mid).periodSampleCount = (mid.length : Int) + 1 := by
    rw [hrun]
    show wrapU8 (_ + _) = _
    rw [o3]
    unfold wrapU8
    omega
  have f6 : (trackFrom (Calc_FrequencyTracking (trackFrom FreqState.init prev) x0).state
      mid).firstZeroCrossing = (if crossingFraction p x0 ≤ 1000 then crossingFraction p x0
        else (trackFrom FreqState.init prev).firstZeroCrossing) := by rw [hrun]; exact o5
  obtain ⟨k1, k2⟩ := close_step _ x hinv2 f1 f2 f3 (by rw [f4]; exact hclose)
  rw [f4, f5, f6] at k1
  refine ⟨_, _, _, _, rfl, rfl, ?_, rfl, k2, rfl, k1⟩
  rw [← f6]
  exact hinv2.2.2.1

theorem Calc_FrequencyTracking_new_period_witness :
    ([-65536] : List Int).getLast? = some (-65536) ∧
    ((-65536 : Int) < 0 ∧ (65536 : Int) ≥ 0) ∧
    noRisingCrossing 65536 [-65536] ∧
    ((65536 : Int) :: [-65536]).getLast? = some (-65536) ∧
    ((-65536 : Int) < 0 ∧ (0 : Int) ≥ 0) ∧
    ([-65536] : List Int).length + 1 ≤ 255 ∧
    ∃ entryFraction exitFraction oldPeriod newPeriod,
      exitFraction = wrapU32 (1000 - crossingFraction (-65536) 0) ∧
      entryFraction = (if crossingFraction (-65536) 65536 ≤ 1000
        then crossingFraction (-65536) 65536
        else (trackFrom FreqState.init [-65536]).firstZeroCrossing) ∧
      (0 ≤ entryFraction ∧ entryFraction ≤ 1000) ∧
      oldPeriod
        = (Calc_FrequencyTracking
            (trackFrom FreqState.init ([-65536] ++ 65536 :: [-65536])) 0).samplePeriod ∧
      (Calc_FrequencyTracking
          (trackFrom FreqState.init ([-65536] ++ 65536 :: [-65536])) 0).state.pitSet
        = (newPeriod, true)
          :: (trackFrom FreqState.init ([-65536] ++ 65536 :: [-65536])).pitSet ∧
      (Calc_FrequencyTracking
          (trackFrom FreqState.init ([-65536] ++ 65536 :: [-65536])) 0).state.oldSamplePeriod
        = newPeriod ∧
      newPeriod = wrapU32 (claimedNewPeriod oldPeriod ((([-65536] : List Int).length : Int) + 1)
        entryFraction exitFraction) :=
  ⟨by decide, by decide, by unfold noRisingCrossing noRisingCrossing; decide, by decide,
    by decide, by decide,
    Calc_FrequencyTracking_new_period [-65536] (-65536) 65536 [-65536] (-65536) 0
      (by decide) (by decide) (by unfold noRisingCrossing noRisingCrossing; decide) (by decide)
      (by decide) (by decide)⟩

/-- The run `-1.0, 1.0, -1.0, 0` in Q16: the opening crossing has the fraction 500, the
closing crossing the fraction 0, the cycle has 2 samples and the period in effect is
1,315,790 ns.  The call on the closing sample installs 164,502 ns, whereas the formula with
the two interpolated fractions themselves gives 164,482 ns. -/
theorem Calc_FrequencyTracking_new_period_counterexample :
    crossingFraction (-65536) 65536 = 500 ∧
    crossingFraction (-65536) 0 = 0 ∧
    (trackFrom FreqState.init [-65536, 65536, -65536]).periodSampleCount = 2 ∧
    (Calc_FrequencyTracking (trackFrom FreqState.init [-65536, 65536, -65536]) 0).samplePeriod
      = 1315790 ∧
    (Calc_FrequencyTracking (trackFrom FreqState.init [-65536, 65536, -65536]) 0).state.pitSet
      = [(164502, true)] ∧
    (Calc_FrequencyTracking (trackFrom FreqState.init [-65536, 65536, -65536]) 0).state.oldSamplePeriod
      = 164502 ∧
    claimedNewPeriod 1315790 2 500 0 = 164482 ∧
    (Calc_FrequencyTracking (trackFrom FreqState.init [-65536, 65536, -65536]) 0).state.oldSamplePeriod
      ≠ claimedNewPeriod 1315790 2 500 0 := by
  decide


/-! ## Calc_AveragePower -/

theorem tdiv_pos_bounds (s n : Int) (hn : 0 < n) :
    (0 ≤ s → 0 ≤ Int.tdiv s n ∧ Int.tdiv s n ≤ s) ∧
    (s ≤ 0 → s ≤ Int.tdiv s n ∧ Int.tdiv s n ≤ 0) := by
  constructor
  · intro hs
    rw [Int.tdiv_eq_ediv hs (le_of_lt hn)]
    exact ⟨Int.ediv_nonneg hs (le_of_lt hn), Int.ediv_le_self n hs⟩
  · intro hs
    have e : Int.tdiv s n = -Int.tdiv (-s) n := by
      rw [Int.neg_tdiv]
      ring
    have h0 : 0 ≤ -s := by omega
    rw [e, Int.tdiv_eq_ediv h0 (le_of_lt hn)]
    have h1 := Int.ediv_nonneg h0 (le_of_lt hn)
    have h2 := Int.ediv_le_self n h0
    omega

theorem mul_tdiv_mul_right_pos (s n c : Int) (hn : 0 < n) (hc : 0 < c) :
    Int.tdiv (s * c) (n * c) = Int.tdiv s n := by
  have hnc : 0 < n * c := mul_pos hn hc
  rcases le_total 0 s with hs | hs
  · rw [Int.tdiv_eq_ediv (mul_nonneg hs (le_of_lt hc)) (le_of_lt hnc),
      Int.tdiv_eq_ediv hs (le_of_lt hn)]
    exact Int.mul_ediv_mul_of_pos_left s n hc
  · have e1 : Int.tdiv (s * c) (n * c) = -Int.tdiv (-s * c) (n * c) := by
      rw [neg_mul, Int.neg_tdiv]
      ring
    have e2 : Int.tdiv s n = -Int.tdiv (-s) n := by
      rw [Int.neg_tdiv]
      ring
    have h0 : 0 ≤ -s := by omega
    rw [e1, e2, Int.tdiv_eq_ediv (mul_nonneg h0 (le_of_lt hc)) (le_of_lt hnc),
      Int.tdiv_eq_ediv h0 (le_of_lt hn), Int.mul_ediv_mul_of_pos_left (-s) n hc]

theorem FixedPoint_Divide_by_count (s n : Int) (hs : InInt32 s) (h1 : 1 ≤ n) (h2 : n ≤ 255) :
    FixedPoint_Divide s (wrap32 (wrap32 n * 65536)) = some (Int.tdiv s n) := by
  have hn : InInt32 n := by
    unfold InInt32
    omega
  have hd : wrap32 (wrap32 n * 65536) = n * 2 ^ 16 := by
    rw [wrap32_of_inInt32 hn]
    apply wrap32_of_inInt32
    unfold InInt32
    omega
  have hd32 : InInt32 (n * 2 ^ 16) := by
    unfold InInt32
    omega
  have hq : Int.tdiv (s * 2 ^ 16) (n * 2 ^ 16) = Int.tdiv s n :=
    mul_tdiv_mul_right_pos s n (2 ^ 16) (by omega) (by norm_num)
  have hb := tdiv_pos_bounds s n (by omega)
  have hq32 : InInt32 (Int.tdiv s n) := by
    unfold InInt32 at hs ⊢
    rcases le_total 0 s with h | h
    · have := hb.1 h
      omega
    · have := hb.2 h
      omega
  rw [hd]
  have hc := divide_of_fits s (n * 2 ^ 16) hs hd32 (by omega)
  rw [hq] at hc
  exact hc hq32

theorem AveragePower_no_boundary (st : AvgPowerState) (p : Int) :
    Calc_AveragePower st p false =
      some ({ st with
                sumInstPower := wrap32 (st.sumInstPower + p)
                counter := wrapU8 (st.counter + 1) }, 0) := rfl

theorem accumulatePower_spec (ps : List Int) (st : AvgPowerState)
    (hc : 0 ≤ st.counter ∧ st.counter < 256) (hs : InInt32 st.sumInstPower) :
    ∃ s2, accumulatePower st ps = some s2 ∧
      s2.counter = wrapU8 (st.counter + ps.length) ∧
      s2.sumInstPower = wrap32 (st.sumInstPower + ps.sum) ∧
      s2.AveragePowerW = st.AveragePowerW := by
  induction ps generalizing st with
  | nil =>
    refine ⟨st, rfl, ?_, ?_, rfl⟩
    · unfold wrapU8
      simp only [List.length_nil, Nat.cast_zero, add_zero]
      omega
    · simp only [List.sum_nil, add_zero]
      exact (wrap32_of_inInt32 hs).symm
  | cons p ps ih =>
    have hstep : accumulatePower st (p :: ps)
        = accumulatePower { st with
            sumInstPower := wrap32 (st.sumInstPower + p)
            counter := wrapU8 (st.counter + 1) } ps := rfl
    obtain ⟨s2, h1, h2, h3, h4⟩ := ih
      { st with
        sumInstPower := wrap32 (st.sumInstPower + p)
        counter := wrapU8 (st.counter + 1) }
      (by unfold wrapU8; simp only; omega) (wrap32_inInt32 _)
    refine ⟨s2, hstep.trans h1, ?_, ?_, h4⟩
    · rw [h2]
      simp only [List.length_cons, Nat.cast_add, Nat.cast_one]
      unfold wrapU8
      omega
    · rw [h3]
      simp only [List.sum_cons]
      unfold wrap32
      omega

theorem AveragePower_boundary_state (st s1 : AvgPowerState) (p a : Int)
    (h : Calc_AveragePower st p true = some (s1, a)) :
    s1.counter = 1 ∧ s1.sumInstPower = wrap32 p := by
  unfold Calc_AveragePower at h
  simp only [if_true, Option.map_map] at h
  cases hd : FixedPoint_Divide st.sumInstPower (wrap32 (wrap32 st.counter * 65536)) with
  | none => simp [hd] at h
  | some v =>
    simp only [hd, Option.map_some', Function.comp_apply, Option.some.injEq,
      Prod.mk.injEq] at h
    obtain ⟨h1, _⟩ := h
    subst h1
    exact ⟨by show wrapU8 (0 + 1) = 1; decide, by simp⟩

theorem sum_of_all_equal (l : List Int) (p : Int) (h : ∀ x ∈ l, x = p) :
    l.sum = (l.length : Int) * p := by
  induction l with
  | nil => simp
  | cons y ys ih =>
    have hy : y = p := h y (List.mem_cons_self y ys)
    have hys := ih fun x hx => h x (List.mem_cons_of_mem y hx)
    simp only [List.sum_cons, List.length_cons, Nat.cast_add, Nat.cast_one]
    rw [hys, hy]
    ring

/-- C10 (amended). After a boundary call of `Calc_AveragePower` on a power sample `p0` and calls
without boundary on the samples `ps` (at most 255 samples in all), the next boundary call
returns the `int32` sum of these samples divided by their actual number `n`, toward zero:
it is the value of `FixedPoint_Divide(sum, n << 16)`, it is returned and it is stored
(as `uint32_t`) in `AveragePowerW`.  When the sum of the samples fits in `int32` the
dividend is that sum, and for samples all equal to `p` with `n * p` fitting in `int32` the
result is exactly `p`. -/
theorem Calc_AveragePower_boundary (st s1 : AvgPowerState) (a0 p0 : Int) (ps : List Int)
    (q : Int) (hstart : Calc_AveragePower st p0 true = some (s1, a0))
    (hn : ps.length + 1 ≤ 255) :
    ∃ s2 s3 sum,
      accumulatePower s1 ps = some s2 ∧
      sum = wrap32 (p0 :: ps).sum ∧
      (InInt32 (p0 :: ps).sum → sum = (p0 :: ps).sum) ∧
      FixedPoint_Divide sum (wrap32 (wrap32 ((ps.length : Int) + 1) * 65536))
        = some (Int.tdiv sum ((ps.length : Int) + 1)) ∧
      Calc_AveragePower s2 q true = some (s3, Int.tdiv sum ((ps.length : Int) + 1)) ∧
      s3.AveragePowerW = wrapU32 (Int.tdiv sum ((ps.length : Int) + 1)) ∧
      (∀ p, (∀ x ∈ p0 :: ps, x = p) → InInt32 (((ps.length : Int) + 1) * p) →
        Int.tdiv sum ((ps.length : Int) + 1) = p) := by
  obtain ⟨hc1, hs1⟩ := AveragePower_boundary_state st s1 p0 a0 hstart
  obtain ⟨s2, h2, hc2, hs2, _⟩ := accumulatePower_spec ps s1 (by omega)
    (by rw [hs1]; exact wrap32_inInt32 _)
  have hcount : s2.counter = (ps.length : Int) + 1 := by
    rw [hc2, hc1]
    unfold wrapU8
    omega
  have hsum : s2.sumInstPower = wrap32 (p0 :: ps).sum := by
    rw [hs2, hs1]
    simp only [List.sum_cons]
    unfold wrap32
    omega
  have hdiv := FixedPoint_Divide_by_count (wrap32 (p0 :: ps).sum) ((ps.length : Int) + 1)
    (wrap32_inInt32 _) (by omega) (by omega)
  have hcall : Calc_AveragePower s2 q true
      = some ({ counter := wrapU8 (0 + 1)
                sumInstPower := wrap32 (0 + q)
                AveragePowerW :=
                  wrapU32 (Int.tdiv (wrap32 (p0 :: ps).sum) ((ps.length : Int) + 1)) },
              Int.tdiv (wrap32 (p0 :: ps).sum) ((ps.length : Int) + 1)) := by
    unfold Calc_AveragePower
    simp only [if_true, hcount, hsum, hdiv, Option.map_some']
  refine ⟨s2, _, wrap32 (p0 :: ps).sum, h2, rfl, wrap32_of_inInt32, hdiv, hcall, rfl, ?_⟩
  intro p hall hfit
  have hlen : (p0 :: ps).sum = ((ps.length : Int) + 1) * p := by
    rw [sum_of_all_equal (p0 :: ps) p hall]
    simp
  rw [hlen, wrap32_of_inInt32 hfit]
  exact Int.mul_tdiv_cancel_left p (by omega)

theorem Calc_AveragePower_boundary_witness :
    Calc_AveragePower ⟨1, 5, 0⟩ (-7) true = some (⟨1, -7, 5⟩, 5) ∧
    ([-7, -7] : List Int).length + 1 ≤ 255 ∧
    ∃ s2 s3 sum,
      accumulatePower ⟨1, -7, 5⟩ [-7, -7] = some s2 ∧
      sum = wrap32 ((-7 : Int) :: [-7, -7]).sum ∧
      (InInt32 ((-7 : Int) :: [-7, -7]).sum → sum = ((-7 : Int) :: [-7, -7]).sum) ∧
      FixedPoint_Divide sum (wrap32 (wrap32 ((([-7, -7] : List Int).length : Int) + 1) * 65536))
        = some (Int.tdiv sum ((([-7, -7] : List Int).length : Int) + 1)) ∧
      Calc_AveragePower s2 9 true
        = some (s3, Int.tdiv sum ((([-7, -7] : List Int).length : Int) + 1)) ∧
      s3.AveragePowerW = wrapU32 (Int.tdiv sum ((([-7, -7] : List Int).length : Int) + 1)) ∧
      (∀ p, (∀ x ∈ (-7 : Int) :: [-7, -7], x = p) →
        InInt32 (((([-7, -7] : List Int).length : Int) + 1) * p) →
        Int.tdiv sum ((([-7, -7] : List Int).length : Int) + 1) = p) :=
  ⟨by decide, by decide,
    Calc_AveragePower_boundary ⟨1, 5, 0⟩ ⟨1, -7, 5⟩ 5 (-7) [-7, -7] 9
      (by decide) (by decide)⟩


/-! ## Calc_TotalCost: the rate -/

theorem RTC_Get_hours_range (time : Int) :
    0 ≤ (RTC_Get time).hours ∧ (RTC_Get time).hours ≤ 23 := by
  simp only [RTC_Get, wrapU8]
  omega

theorem RTC_Get_hours_of_hour (h : Int) (h0 : 0 ≤ h) (h1 : h ≤ 23) :
    (RTC_Get (3600 * h)).hours = h := by
  simp only [RTC_Get, wrapU8]
  omega

theorem currentRate_mode1 (TariffChart : Fin 3 → TTariff) (h : Int) :
    currentRate TariffChart 1 h =
      some (if 14 ≤ h ∧ h ≤ 20 then (TariffChart 0).peakRate
        else if (7 ≤ h ∧ h ≤ 13) ∨ h = 21 ∨ h = 22 then (TariffChart 0).shoulderRate
        else (TariffChart 0).offPeakRate) := by
  have hm : wrapU8 1 = 1 := by decide
  simp only [currentRate, hm, if_true, ge_iff_le]
  by_cases hp : 14 ≤ h ∧ h ≤ 20
  · simp only [hp, and_self, if_true]
  · simp only [hp, if_false]
    by_cases hs : (7 ≤ h ∧ h ≤ 14) ∨ (20 ≤ h ∧ h ≤ 22)
    · have hs2 : (7 ≤ h ∧ h ≤ 13) ∨ h = 21 ∨ h = 22 := by omega
      simp only [hs, hs2, if_true]
    · have hs2 : ¬ ((7 ≤ h ∧ h ≤ 13) ∨ h = 21 ∨ h = 22) := by omega
      simp only [hs, hs2, if_false]

/-- C17 (as the code has it). In tariff mode 1 the rate used by `Calc_TotalCost` is chosen
by the hour `h` that `RTC_Get` derives from the clock, which lies in 0..23: the peak rate
for `14 ≤ h ≤ 20`, the shoulder rate for `7 ≤ h ≤ 13` and for `h = 21` and `h = 22`, and
the off-peak rate for every other hour (0..6 and 23).  Every hour 0..23 is the hour of
some clock reading. -/
theorem Calc_TotalCost_mode1_rate (TariffChart : Fin 3 → TTariff) (st : CostState)
    (time energyPerCycleWs : Int) :
    (0 ≤ (RTC_Get time).hours ∧ (RTC_Get time).hours ≤ 23) ∧
    Calc_TotalCost st TariffChart 1 time energyPerCycleWs =
      (accrueCents st
        (if 14 ≤ (RTC_Get time).hours ∧ (RTC_Get time).hours ≤ 20 then
          (TariffChart 0).peakRate
        else if (7 ≤ (RTC_Get time).hours ∧ (RTC_Get time).hours ≤ 13)
            ∨ (RTC_Get time).hours = 21 ∨ (RTC_Get time).hours = 22 then
          (TariffChart 0).shoulderRate
        else (TariffChart 0).offPeakRate)
        energyPerCycleWs).bind carryDollars ∧
    (∀ h : Int, 0 ≤ h → h ≤ 23 → (RTC_Get (3600 * h)).hours = h) := by
  refine ⟨RTC_Get_hours_range time, ?_, RTC_Get_hours_of_hour⟩
  unfold Calc_TotalCost
  rw [currentRate_mode1]
  rfl

/-- At 22:00:00 (clock reading 79200 s) in tariff mode 1, with the table of `Calc_Init`, the
rate selected is the shoulder rate 288350, not the off-peak rate 138216. -/
theorem Calc_TotalCost_mode1_rate_counterexample :
    (RTC_Get 79200).hours = 22 ∧
    (Calc_Init TariffChart_zero 0).shoulderRate = 288350 ∧
    (Calc_Init TariffChart_zero 0).offPeakRate = 138216 ∧
    currentRate (Calc_Init TariffChart_zero) 1 (RTC_Get 79200).hours = some 288350 ∧
    currentRate (Calc_Init TariffChart_zero) 1 (RTC_Get 79200).hours
      ≠ some (Calc_Init TariffChart_zero 0).offPeakRate ∧
    Calc_TotalCost CostState.init (Calc_Init TariffChart_zero) 1 79200 235929600
      = (accrueCents CostState.init 288350 235929600).bind carryDollars ∧
    Calc_TotalCost CostState.init (Calc_Init TariffChart_zero) 1 79200 235929600
      ≠ (accrueCents CostState.init 138216 235929600).bind carryDollars := by
  decide

/-- C18 (what the code does). After `Calc_Init`, for every hour, the rate `Calc_TotalCost`
selects in tariff mode 2 and in tariff mode 3 is `TariffChart[1].nonToUrate` and
`TariffChart[2].nonToUrate`, both 0: `Calc_Init` assigns only the first element of the
table, and the local table holds the flat rates 112264 and 268698 in `peakRate`, leaving
`nonToUrate` zero. -/
theorem Calc_TotalCost_flat_rate_after_init (hours : Int) :
    currentRate (Calc_Init TariffChart_zero) 2 hours = some 0 ∧
    currentRate (Calc_Init TariffChart_zero) 3 hours = some 0 ∧
    (∀ chart : Fin 3 → TTariff, Calc_Init chart 1 = chart 1 ∧ Calc_Init chart 2 = chart 2) ∧
    (tariffChartLocal 1).nonToUrate = 0 ∧ (tariffChartLocal 1).peakRate = 112264 ∧
    (tariffChartLocal 2).nonToUrate = 0 ∧ (tariffChartLocal 2).peakRate = 268698 := by
  refine ⟨rfl, rfl, ?_, rfl, rfl, rfl, rfl⟩
  intro chart
  constructor <;> rfl

/-- C19. In tariff mode 1 at hour 20 both the peak test (`hours >= 14 && hours <= 20`) and
the shoulder test (`hours >= 20 && hours <= 22`) hold, and `Calc_TotalCost` uses the peak
rate: the peak test is the first branch. -/
theorem Calc_TotalCost_hour20_peak (TariffChart : Fin 3 → TTariff) (st : CostState)
    (time energyPerCycleWs : Int) (h20 : (RTC_Get time).hours = 20) :
    ((RTC_Get time).hours ≥ 14 ∧ (RTC_Get time).hours ≤ 20) ∧
    (((RTC_Get time).hours ≥ 7 ∧ (RTC_Get time).hours ≤ 14)
      ∨ ((RTC_Get time).hours ≥ 20 ∧ (RTC_Get time).hours ≤ 22)) ∧
    currentRate TariffChart 1 (RTC_Get time).hours = some (TariffChart 0).peakRate ∧
    Calc_TotalCost st TariffChart 1 time energyPerCycleWs
      = (accrueCents st (TariffChart 0).peakRate energyPerCycleWs).bind carryDollars := by
  have hr : currentRate TariffChart 1 (RTC_Get time).hours = some (TariffChart 0).peakRate := by
    rw [currentRate_mode1, h20]
    rfl
  refine ⟨by omega, by omega, hr, ?_⟩
  unfold Calc_TotalCost
  rw [hr]
  rfl

theorem Calc_TotalCost_hour20_peak_witness :
    (RTC_Get 72000).hours = 20 ∧
    (((RTC_Get 72000).hours ≥ 14 ∧ (RTC_Get 72000).hours ≤ 20) ∧
    (((RTC_Get 72000).hours ≥ 7 ∧ (RTC_Get 72000).hours ≤ 14)
      ∨ ((RTC_Get 72000).hours ≥ 20 ∧ (RTC_Get 72000).hours ≤ 22)) ∧
    currentRate (Calc_Init TariffChart_zero) 1 (RTC_Get 72000).hours
      = some (Calc_Init TariffChart_zero 0).peakRate ∧
    Calc_TotalCost CostState.init (Calc_Init TariffChart_zero) 1 72000 235929600
      = (accrueCents CostState.init (Calc_Init TariffChart_zero 0).peakRate
          235929600).bind carryDollars) :=
  ⟨by decide, Calc_TotalCost_hour20_peak (Calc_Init TariffChart_zero) CostState.init 72000
    235929600 (by decide)⟩


/-! ## Calc_TotalCost: the carry chain -/

theorem divide_by_whole (s n : Int) (hs : InInt32 s) (h1 : 1 ≤ n) (h2 : n ≤ 32767) :
    FixedPoint_Divide s (n * 65536) = some (Int.tdiv s n) := by
  have hd32 : InInt32 (n * 65536) := by
    unfold InInt32
    omega
  have hq : Int.tdiv (s * 2 ^ 16) (n * 65536) = Int.tdiv s n :=
    mul_tdiv_mul_right_pos s n 65536 (by omega) (by norm_num)
  have hb := tdiv_pos_bounds s n (by omega)
  have hq32 : InInt32 (Int.tdiv s n) := by
    unfold InInt32 at hs ⊢
    rcases le_total 0 s with h | h
    · have := hb.1 h
      omega
    · have := hb.2 h
      omega
  have hc := divide_of_fits s (n * 65536) hs hd32 (by omega)
  rw [hq] at hc
  exact hc hq32

theorem divide_by_whole_nonneg (s n : Int) (h0 : 0 ≤ s) (hs : s ≤ 2147483647) (h1 : 1 ≤ n)
    (h2 : n ≤ 32767) : FixedPoint_Divide s (n * 65536) = some (s / n) := by
  rw [divide_by_whole s n ⟨by omega, hs⟩ h1 h2, Int.tdiv_eq_ediv h0 (by omega)]

theorem multiply_nonneg_value (a b : Int) (ha : 0 ≤ a ∧ a ≤ 2147483647)
    (hb : 0 ≤ b ∧ b ≤ 2147483647) (hp : a * b < 2 ^ 47) :
    FixedPoint_Multiply a b = a * b / 65536 ∧ 0 ≤ a * b / 65536 ∧
      a * b / 65536 ≤ 2147483647 := by
  have h0 : 0 ≤ a * b := mul_nonneg ha.1 hb.1
  have hv := multiply_value a b ⟨by omega, ha.2⟩ ⟨by omega, hb.2⟩
  rw [Int.fdiv_eq_ediv _ (by norm_num)] at hv
  have e : ((2 : Int) ^ 16) = 65536 := by norm_num
  have e47 : ((2 : Int) ^ 47) = 140737488355328 := by norm_num
  rw [e] at hv
  rw [e47] at hp
  generalize a * b = P at hv h0 hp ⊢
  refine ⟨?_, by omega, by omega⟩
  rw [hv]
  apply wrap32_of_inInt32
  unfold InInt32
  omega

theorem carryDollars_below (st : CostState) (h : st.accumulatedCents < 65536000) :
    carryDollars st = some st := by
  unfold carryDollars
  rw [if_neg (by omega)]

/-- C20 (amended). With the selected rate `R` and the cycle energy `E` (both non-negative as `int32`,
their Q16 product fitting in `int32`) and accumulators within the range every call leaves
them in, a call of `Calc_TotalCost` adds
`FixedPoint_Divide(FixedPoint_Multiply(R, E), 3600 << 16)` to the sub-cent accumulator.
While the sum is below `1000 << 16` no carry occurs: the cents accumulator and
`TotalCostDollars` are unchanged.  When the sum reaches `1000 << 16` the carry occurs once:
the cents accumulator grows by the sum divided by 1000 and the sub-cent accumulator is
cleared (the carry into dollars of lines 143-147 then sees the new cents).  The call leaves
both accumulators in range again. -/
theorem Calc_TotalCost_accrual (st : CostState) (TariffChart : Fin 3 → TTariff)
    (NvTariffMode time R E : Int)
    (hrate : currentRate TariffChart NvTariffMode (RTC_Get time).hours = some R)
    (hR : 0 ≤ R ∧ R ≤ 2147483647) (hE : 0 ≤ E ∧ E ≤ 2147483647) (hRE : R * E < 2 ^ 47)
    (hacc : 0 ≤ st.accumulatedCentsScaledUp ∧ st.accumulatedCentsScaledUp < 1000 * 2 ^ 16)
    (hcents : 0 ≤ st.accumulatedCents ∧ st.accumulatedCents < 1000 * 2 ^ 16) :
    ∃ cents : Int,
      FixedPoint_Divide (FixedPoint_Multiply R E) (3600 * 2 ^ 16) = some cents ∧
      0 ≤ cents ∧
      (st.accumulatedCentsScaledUp + cents < 1000 * 2 ^ 16 →
        Calc_TotalCost st TariffChart NvTariffMode time E
          = some { st with accumulatedCentsScaledUp := st.accumulatedCentsScaledUp + cents }) ∧
      (st.accumulatedCentsScaledUp + cents ≥ 1000 * 2 ^ 16 →
        accrueCents st R E
          = some { st with
                    accumulatedCents :=
                      st.accumulatedCents + (st.accumulatedCentsScaledUp + cents) / 1000
                    accumulatedCentsScaledUp := 0 } ∧
        Calc_TotalCost st TariffChart NvTariffMode time E
          = carryDollars { st with
                    accumulatedCents :=
                      st.accumulatedCents + (st.accumulatedCentsScaledUp + cents) / 1000
                    accumulatedCentsScaledUp := 0 }) ∧
      (∃ s, Calc_TotalCost st TariffChart NvTariffMode time E = some s ∧
        (0 ≤ s.accumulatedCentsScaledUp ∧ s.accumulatedCentsScaledUp < 1000 * 2 ^ 16) ∧
        (0 ≤ s.accumulatedCents ∧ s.accumulatedCents < 1000 * 2 ^ 16)) := by
  have e16 : ((2 : Int) ^ 16) = 65536 := by norm_num
  rw [e16] at hacc hcents ⊢
  norm_num only at hacc hcents ⊢
  obtain ⟨hM, hM0, hM1⟩ := multiply_nonneg_value R E hR hE hRE
  have hdiv : FixedPoint_Divide (FixedPoint_Multiply R E) 235929600
      = some (R * E / 65536 / 3600) := by
    rw [hM]
    exact divide_by_whole_nonneg (R * E / 65536) 3600 hM0 hM1 (by norm_num) (by norm_num)
  have hw : FixedPoint_Multiply (wrap32 R) (wrap32 E) = FixedPoint_Multiply R E := by
    rw [wrap32_of_inInt32 ⟨by omega, hR.2⟩, wrap32_of_inInt32 ⟨by omega, hE.2⟩]
  generalize R * E / 65536 = M at hdiv hM0 hM1
  have hc0 : 0 ≤ M / 3600 := by omega
  have hc1 : M / 3600 ≤ 596523 := by omega
  generalize M / 3600 = cents at hdiv hc0 hc1
  have hsum : wrapU32 (st.accumulatedCentsScaledUp + wrapU32 cents)
      = st.accumulatedCentsScaledUp + cents := by
    unfold wrapU32
    omega
  have hlow : st.accumulatedCentsScaledUp + cents < 65536000 →
      accrueCents st R E
        = some { st with accumulatedCentsScaledUp := st.accumulatedCentsScaledUp + cents } := by
    intro hlt
    unfold accrueCents
    rw [hw, hdiv]
    simp only [Option.some_bind, hsum]
    rw [if_neg (by omega)]
  have hhigh : st.accumulatedCentsScaledUp + cents ≥ 65536000 →
      accrueCents st R E
        = some { st with
                  accumulatedCents :=
                    st.accumulatedCents + (st.accumulatedCentsScaledUp + cents) / 1000
                  accumulatedCentsScaledUp := 0 } := by
    intro hge
    have hcarry : FixedPoint_Divide (wrap32 (st.accumulatedCentsScaledUp + cents)) 65536000
        = some ((st.accumulatedCentsScaledUp + cents) / 1000) := by
      rw [wrap32_of_inInt32 ⟨by omega, by omega⟩]
      exact divide_by_whole_nonneg _ 1000 (by omega) (by omega) (by norm_num) (by norm_num)
    unfold accrueCents
    rw [hw, hdiv]
    simp only [Option.some_bind, hsum]
    rw [if_pos hge, hcarry]
    simp only [Option.map_some']
    congr 2
    unfold wrapU32
    omega
  have hcall : Calc_TotalCost st TariffChart NvTariffMode time E
      = (accrueCents st R E).bind carryDollars := by
    unfold Calc_TotalCost
    rw [hrate]
    rfl
  refine ⟨cents, hdiv, hc0, ?_, ?_, ?_⟩
  · intro hlt
    rw [hcall, hlow hlt]
    exact carryDollars_below _ hcents.2
  · intro hge
    refine ⟨hhigh hge, ?_⟩
    rw [hcall, hhigh hge]
    rfl
  · rcases lt_or_ge (st.accumulatedCentsScaledUp + cents) 65536000 with hlt | hge
    · refine ⟨{ st with accumulatedCentsScaledUp := st.accumulatedCentsScaledUp + cents },
        ?_, ⟨?_, ?_⟩, hcents⟩
      · rw [hcall, hlow hlt]
        exact carryDollars_below _ hcents.2
      · show 0 ≤ st.accumulatedCentsScaledUp + cents
        omega
      · exact hlt
    · rw [hcall, hhigh hge]
      simp only [Option.some_bind, carryDollars]
      split_ifs with hd
      · cases hdd : FixedPoint_Divide
            (wrap32 (st.accumulatedCents + (st.accumulatedCentsScaledUp + cents) / 1000))
            6553600 with
        | none =>
          have hne : (6553600 : Int) ≠ 0 := by norm_num
          simp [FixedPoint_Divide, PE_DEBUGHALT, hne] at hdd
        | some d =>
          exact ⟨_, rfl, ⟨le_refl _, by norm_num⟩, ⟨le_refl _, by norm_num⟩⟩
      · refine ⟨_, rfl, ⟨le_refl _, by norm_num⟩, ⟨?_, ?_⟩⟩
        · show 0 ≤ st.accumulatedCents + (st.accumulatedCentsScaledUp + cents) / 1000
          omega
        · show st.accumulatedCents + (st.accumulatedCentsScaledUp + cents) / 1000 < 65536000
          omega

theorem Calc_TotalCost_accrual_witness :
    currentRate (Calc_Init TariffChart_zero) 1 (RTC_Get 72000).hours = some 1457193 ∧
    ((0 : Int) ≤ 1457193 ∧ (1457193 : Int) ≤ 2147483647) ∧
    ((0 : Int) ≤ 65536000 ∧ (65536000 : Int) ≤ 2147483647) ∧
    (1457193 : Int) * 65536000 < 2 ^ 47 ∧
    (∃ cents : Int,
      FixedPoint_Divide (FixedPoint_Multiply 1457193 65536000) (3600 * 2 ^ 16) = some cents ∧
      0 ≤ cents ∧
      (CostState.init.accumulatedCentsScaledUp + cents < 1000 * 2 ^ 16 →
        Calc_TotalCost CostState.init (Calc_Init TariffChart_zero) 1 72000 65536000
          = some { CostState.init with
                    accumulatedCentsScaledUp :=
                      CostState.init.accumulatedCentsScaledUp + cents }) ∧
      (CostState.init.accumulatedCentsScaledUp + cents ≥ 1000 * 2 ^ 16 →
        accrueCents CostState.init 1457193 65536000
          = some { CostState.init with
                    accumulatedCents :=
                      CostState.init.accumulatedCents
                        + (CostState.init.accumulatedCentsScaledUp + cents) / 1000
                    accumulatedCentsScaledUp := 0 } ∧
        Calc_TotalCost CostState.init (Calc_Init TariffChart_zero) 1 72000 65536000
          = carryDollars { CostState.init with
                    accumulatedCents :=
                      CostState.init.accumulatedCents
                        + (CostState.init.accumulatedCentsScaledUp + cents) / 1000
                    accumulatedCentsScaledUp := 0 }) ∧
      (∃ s, Calc_TotalCost CostState.init (Calc_Init TariffChart_zero) 1 72000 65536000
          = some s ∧
        (0 ≤ s.accumulatedCentsScaledUp ∧ s.accumulatedCentsScaledUp < 1000 * 2 ^ 16) ∧
        (0 ≤ s.accumulatedCents ∧ s.accumulatedCents < 1000 * 2 ^ 16))) ∧
    Calc_TotalCost CostState.init (Calc_Init TariffChart_zero) 1 72000 65536000
      = some ⟨404775, 0, 0⟩ ∧
    Calc_TotalCost ⟨65535000, 7, 3⟩ (Calc_Init TariffChart_zero) 1 72000 65536000
      = some ⟨0, 65946, 3⟩ :=
  ⟨by decide, by decide, by decide, by decide,
    Calc_TotalCost_accrual CostState.init (Calc_Init TariffChart_zero) 1 72000 1457193
      65536000 (by decide) (by decide) (by decide) (by decide) (by decide) (by decide),
    by decide, by decide⟩


/-! ## Calc_TotalEnergy -/

theorem cycleEnergy_returns (S Ts : Int) (test : Bool) :
    ∃ E, cycleEnergy S Ts test = some E := by
  have hne : (655360000 : Int) ≠ 0 := by norm_num
  simp only [cycleEnergy, FixedPoint_DivideU, hne, if_false, Option.map_some']
  exact ⟨_, rfl⟩

theorem carryEnergy_value (st : EnergyState) (E : Int) :
    carryEnergy st E =
      if wrapU32 (st.tempAccumulatedEnergyWs + E) ≥ 235929600 then
        some { st with
          TotalEnergykWh := wrapU32 (st.TotalEnergykWh
            + Int.tdiv (Int.tdiv (wrap32 (wrapU32 (st.tempAccumulatedEnergyWs + E))) 3600) 1000)
          tempAccumulatedEnergyWs := 0 }
      else some { st with tempAccumulatedEnergyWs := wrapU32 (st.tempAccumulatedEnergyWs + E) } := by
  unfold carryEnergy
  have h1 := divide_by_whole (wrap32 (wrapU32 (st.tempAccumulatedEnergyWs + E))) 3600
    (wrap32_inInt32 _) (by norm_num) (by norm_num)
  have hb := tdiv_pos_bounds (wrap32 (wrapU32 (st.tempAccumulatedEnergyWs + E))) 3600
    (by norm_num)
  have h32 := wrap32_inInt32 (wrapU32 (st.tempAccumulatedEnergyWs + E))
  have hq : InInt32 (Int.tdiv (wrap32 (wrapU32 (st.tempAccumulatedEnergyWs + E))) 3600) := by
    unfold InInt32 at h32 ⊢
    rcases le_total 0 (wrap32 (wrapU32 (st.tempAccumulatedEnergyWs + E))) with h | h
    · have := hb.1 h
      omega
    · have := hb.2 h
      omega
  have h2 := divide_by_whole _ 1000 hq (by norm_num) (by norm_num)
  norm_num only at h1 h2
  simp only [h1, h2, Option.some_bind, Option.map_some']

/-- C15 (as the code has it). At a boundary `Calc_TotalEnergy` computes the cycle energy
`E` and adds it (modulo 2^32) to the carry accumulator.  If the sum is below 3600 Ws
(`3600 << 16`), `TotalEnergykWh` is unchanged and the accumulator keeps the sum.  If it has
reached 3600 Ws, `TotalEnergykWh` is incremented by the accumulator converted to kWh,
`FixedPoint_Divide(FixedPoint_Divide(acc, 3600 << 16), 1000 << 16)`, which is
`acc / 3600 / 1000` for an accumulator below 2^31 (65/65536 kWh when the accumulator is
exactly 3600 Ws), and the accumulator is reset to zero. -/
theorem Calc_TotalEnergy_carry (st : EnergyState) (instPower samplePeriod : Int)
    (TestModeEnabled : Bool) :
    ∃ E acc : Int,
      cycleEnergy st.summationInstPower samplePeriod TestModeEnabled = some E ∧
      acc = wrapU32 (st.tempAccumulatedEnergyWs + E) ∧
      (acc < 3600 * 2 ^ 16 →
        Calc_TotalEnergy st instPower samplePeriod true TestModeEnabled
          = some { state := { summationInstPower := wrap32 (0 + instPower)
                              tempAccumulatedEnergyWs := acc
                              TotalEnergykWh := st.TotalEnergykWh }
                   energyPerCycleWs := some E }) ∧
      (acc ≥ 3600 * 2 ^ 16 →
        FixedPoint_Divide (wrap32 acc) (3600 * 2 ^ 16)
          = some (Int.tdiv (wrap32 acc) 3600) ∧
        FixedPoint_Divide (Int.tdiv (wrap32 acc) 3600) (1000 * 2 ^ 16)
          = some (Int.tdiv (Int.tdiv (wrap32 acc) 3600) 1000) ∧
        (acc < 2 ^ 31 → Int.tdiv (Int.tdiv (wrap32 acc) 3600) 1000 = acc / 3600 / 1000) ∧
        Calc_TotalEnergy st instPower samplePeriod true TestModeEnabled
          = some { state := { summationInstPower := wrap32 (0 + instPower)
                              tempAccumulatedEnergyWs := 0
                              TotalEnergykWh := wrapU32 (st.TotalEnergykWh
                                + Int.tdiv (Int.tdiv (wrap32 acc) 3600) 1000) }
                   energyPerCycleWs := some E }) ∧
      ((3600 * 2 ^ 16 : Int) / 3600 / 1000 = 65) := by
  obtain ⟨E, hE⟩ := cycleEnergy_returns st.summationInstPower samplePeriod TestModeEnabled
  have hcarry := carryEnergy_value st E
  have e16 : ((2 : Int) ^ 16) = 65536 := by norm_num
  have e31 : ((2 : Int) ^ 31) = 2147483648 := by norm_num
  rw [e16, e31]
  norm_num only
  have hw := wrapU32_bounds (st.tempAccumulatedEnergyWs + E)
  refine ⟨E, _, hE, rfl, ?_, ?_, trivial⟩
  · intro hlt
    unfold Calc_TotalEnergy
    rw [hE]
    simp only [if_true, Option.some_bind, hcarry]
    rw [if_neg (by omega)]
    rfl
  · intro hge
    have h32 := wrap32_inInt32 (wrapU32 (st.tempAccumulatedEnergyWs + E))
    have hb := tdiv_pos_bounds (wrap32 (wrapU32 (st.tempAccumulatedEnergyWs + E))) 3600
      (by norm_num)
    have hq : InInt32 (Int.tdiv (wrap32 (wrapU32 (st.tempAccumulatedEnergyWs + E))) 3600) := by
      unfold InInt32 at h32 ⊢
      rcases le_total 0 (wrap32 (wrapU32 (st.tempAccumulatedEnergyWs + E))) with h | h
      · have := hb.1 h
        omega
      · have := hb.2 h
        omega
    have h1 := divide_by_whole (wrap32 (wrapU32 (st.tempAccumulatedEnergyWs + E))) 3600
      h32 (by norm_num) (by norm_num)
    have h2 := divide_by_whole _ 1000 hq (by norm_num) (by norm_num)
    norm_num only at h1 h2
    refine ⟨h1, h2, ?_, ?_⟩
    · intro hlt
      have hid : wrap32 (wrapU32 (st.tempAccumulatedEnergyWs + E))
          = wrapU32 (st.tempAccumulatedEnergyWs + E) :=
        wrap32_of_inInt32 ⟨by omega, by omega⟩
      rw [hid, Int.tdiv_eq_ediv hw.1 (by norm_num),
        Int.tdiv_eq_ediv (Int.ediv_nonneg hw.1 (by norm_num)) (by norm_num)]
    · unfold Calc_TotalEnergy
      rw [hE]
      simp only [if_true, Option.some_bind, hcarry]
      rw [if_pos hge]
      rfl

/-- With a power sum of 7200 W and a period of one second the cycle energy is 7200 Ws, the
empty accumulator reaches 3600 Ws, and `TotalEnergykWh` grows by 131/65536 kWh (0.002 kWh),
more than one least-significant bit away from 0.001 kWh (65.536/65536). -/
theorem Calc_TotalEnergy_carry_counterexample :
    cycleEnergy 471859200 1000000000 false = some 471859200 ∧
    (471859200 : Int) = 7200 * 2 ^ 16 ∧
    Calc_TotalEnergy ⟨471859200, 0, 0⟩ 0 1000000000 true false
      = some ⟨⟨0, 0, 131⟩, some 471859200⟩ ∧
    ¬ (|(131 : Int) * 1000 - 65536| ≤ 1000) := by
  decide


theorem boundary_3600Ws (T : Int) (h0 : 0 ≤ T) (h1 : T + 65 < 4294967296) :
    Calc_TotalEnergy ⟨235929600, 0, T⟩ 235929600 1000000000 true false
      = some ⟨⟨235929600, 0, T + 65⟩, some 235929600⟩ := by
  have hE : cycleEnergy 235929600 1000000000 false = some 235929600 := by decide
  have hc := carryEnergy_value ⟨235929600, 0, T⟩ 235929600
  have ht : wrapU32 ((0 : Int) + 235929600) = 235929600 := by decide
  have hq : Int.tdiv (Int.tdiv (wrap32 235929600) 3600) 1000 = 65 := by decide
  have hw : wrap32 ((0 : Int) + 235929600) = 235929600 := by decide
  simp only [ht, hq, ge_iff_le, le_refl, if_true] at hc
  unfold Calc_TotalEnergy
  simp only [if_true, hE, Option.some_bind, hc, Option.map_some', hw]
  congr 3
  unfold wrapU32
  omega

theorem repeatBoundary_3600Ws (n : Nat) (T : Int) (h0 : 0 ≤ T)
    (h1 : T + 65 * (n : Int) < 4294967296) :
    repeatBoundary 235929600 1000000000 n ⟨235929600, 0, T⟩
      = some ⟨235929600, 0, T + 65 * (n : Int)⟩ := by
  induction n generalizing T with
  | zero => simp [repeatBoundary]
  | succ k ih =>
    have hstep := boundary_3600Ws T h0 (by push_cast at h1; omega)
    rw [repeatBoundary, hstep]
    simp only [Option.some_bind]
    rw [ih (T + 65) (by omega) (by push_cast at h1 ⊢; omega)]
    congr 2
    push_cast
    ring

/-- C16 (as the code has it). From zero totals, a first boundary call loads the power sum
3600 W for a period of one second; each of the following `n` boundary calls then has a
cycle energy of exactly 3600 Ws (`3600 * 2^16`), resets the accumulator and increments
`TotalEnergykWh` by exactly 65 (65/65536 kWh, 0.001 kWh truncated to Q16).  After `n`
repetitions `TotalEnergykWh` is `65 * n`: 65000 after 1000 repetitions, not 65536. -/
theorem Calc_TotalEnergy_repeated_3600Ws (n : Nat) (hn : 65 * (n : Int) < 2 ^ 32) :
    Calc_TotalEnergy EnergyState.init 235929600 1000000000 true false
      = some ⟨⟨235929600, 0, 0⟩, some 0⟩ ∧
    cycleEnergy 235929600 1000000000 false = some (3600 * 2 ^ 16) ∧
    repeatBoundary 235929600 1000000000 n ⟨235929600, 0, 0⟩
      = some ⟨235929600, 0, 65 * (n : Int)⟩ ∧
    (∀ T : Int, 0 ≤ T → T + 65 < 2 ^ 32 →
      Calc_TotalEnergy ⟨235929600, 0, T⟩ 235929600 1000000000 true false
        = some ⟨⟨235929600, 0, T + 65⟩, some 235929600⟩) ∧
    (65 : Int) * 1000 = 65000 := by
  have e32 : ((2 : Int) ^ 32) = 4294967296 := by norm_num
  rw [e32] at hn ⊢
  refine ⟨by decide, by decide, ?_, boundary_3600Ws, by norm_num⟩
  have h := repeatBoundary_3600Ws n 0 (le_refl 0) (by omega)
  simpa using h

theorem Calc_TotalEnergy_repeated_3600Ws_witness :
    65 * ((1000 : Nat) : Int) < 2 ^ 32 ∧
    (Calc_TotalEnergy EnergyState.init 235929600 1000000000 true false
      = some ⟨⟨235929600, 0, 0⟩, some 0⟩ ∧
    cycleEnergy 235929600 1000000000 false = some (3600 * 2 ^ 16) ∧
    repeatBoundary 235929600 1000000000 1000 ⟨235929600, 0, 0⟩
      = some ⟨235929600, 0, 65 * ((1000 : Nat) : Int)⟩ ∧
    (∀ T : Int, 0 ≤ T → T + 65 < 2 ^ 32 →
      Calc_TotalEnergy ⟨235929600, 0, T⟩ 235929600 1000000000 true false
        = some ⟨⟨235929600, 0, T + 65⟩, some 235929600⟩) ∧
    (65 : Int) * 1000 = 65000) :=
  ⟨by decide, Calc_TotalEnergy_repeated_3600Ws 1000 (by decide)⟩

/-- After 1000 boundaries with a cycle energy of exactly 3600 Ws each, starting from zero
totals, `TotalEnergykWh` is 65000 in Q16 (about 0.9918 kWh), not 65536 (1 kWh). -/
theorem Calc_TotalEnergy_repeated_3600Ws_counterexample :
    Calc_TotalEnergy EnergyState.init 235929600 1000000000 true false
      = some ⟨⟨235929600, 0, 0⟩, some 0⟩ ∧
    cycleEnergy 235929600 1000000000 false = some (3600 * 2 ^ 16) ∧
    repeatBoundary 235929600 1000000000 1000 ⟨235929600, 0, 0⟩
      = some ⟨235929600, 0, 65000⟩ ∧
    (65000 : Int) ≠ 65536 := by
  refine ⟨by decide, by decide, ?_, by decide⟩
  have h := repeatBoundary_3600Ws 1000 0 (le_refl 0) (by norm_num)
  simpa using h

theorem multiplyU_small (S k : Int) (hS : 0 ≤ S ∧ S ≤ 2147483647) (hk : 0 ≤ k ∧ k ≤ 65535) :
    FixedPoint_MultiplyU S k = S * k / 65536 ∧ 0 ≤ S * k / 65536 ∧
      S * k / 65536 ≤ 2147483647 := by
  have h0 : 0 ≤ S * k := mul_nonneg hS.1 hk.1
  have h1 : S * k ≤ 2147483647 * 65535 := mul_le_mul hS.2 hk.2 hk.1 (by norm_num)
  have hS64 : wrapU64 S = S := by
    unfold wrapU64
    omega
  have hk64 : wrapU64 k = k := by
    unfold wrapU64
    omega
  unfold FixedPoint_MultiplyU
  simp only [hS64, hk64]
  rw [Int.shiftRight_eq_div_pow]
  norm_num only at h1 ⊢
  generalize S * k = P at h0 h1 ⊢
  unfold wrapU64 wrapU32
  omega

theorem cycleEnergy_value (S Ts : Int) (hS : 0 ≤ S ∧ S ≤ 2147483647)
    (hT : 0 ≤ Ts ∧ Ts < 1000000000) :
    cycleEnergy S Ts false
      = some (S * (Ts / 100000 * 4294967296 / 655360000) / 65536) ∧
    0 ≤ Ts / 100000 * 4294967296 / 655360000 ∧
    Ts / 100000 * 4294967296 / 655360000 ≤ 65535 := by
  have hne : (655360000 : Int) ≠ 0 := by norm_num
  have hm : wrapU32 (wrap32 (wrapU32 (Ts / 100000 * 65536))) = Ts / 100000 * 65536 := by
    unfold wrapU32 wrap32
    omega
  have hk0 : 0 ≤ Ts / 100000 * 4294967296 / 655360000 := by omega
  have hk1 : Ts / 100000 * 4294967296 / 655360000 ≤ 65535 := by omega
  have hd : wrapU32 (wrapU64 (wrapU64 (Ts / 100000 * 65536) * 65536) / 655360000)
      = Ts / 100000 * 4294967296 / 655360000 := by
    have hm0 : 0 ≤ Ts / 100000 ∧ Ts / 100000 ≤ 9999 := by omega
    generalize Ts / 100000 = m at hm0 hk0 hk1 ⊢
    have i1 : wrapU64 (m * 65536) = m * 65536 := by
      unfold wrapU64
      omega
    have i2 : wrapU64 (m * 65536 * 65536) = m * 4294967296 := by
      unfold wrapU64
      omega
    rw [i1, i2]
    unfold wrapU32
    omega
  refine ⟨?_, hk0, hk1⟩
  simp only [cycleEnergy, FixedPoint_DivideU, hne, if_false, Option.map_some', hm, hd,
    Bool.false_eq_true]
  have hk32 : wrap32 (Ts / 100000 * 4294967296 / 655360000)
      = Ts / 100000 * 4294967296 / 655360000 := wrap32_of_inInt32 ⟨by omega, by omega⟩
  have hSU : wrapU32 S = S := by
    unfold wrapU32
    omega
  rw [hk32, hSU, (multiplyU_small S _ hS ⟨hk0, hk1⟩).1]

theorem cycleEnergy_bounds (S Ts : Int) (hS : 0 ≤ S ∧ S ≤ 2147483647)
    (hT : 0 ≤ Ts ∧ Ts < 1000000000) :
    ∃ E, cycleEnergy S Ts false = some E ∧ 0 ≤ E ∧
      E * 1000000000 ≤ S * Ts ∧ S * Ts < (E + 1) * 1000000000 + 115257 * S := by
  obtain ⟨hv, hk0, hk1⟩ := cycleEnergy_value S Ts hS hT
  refine ⟨_, hv, ?_, ?_, ?_⟩
  · exact Int.ediv_nonneg (mul_nonneg hS.1 hk0) (by norm_num)
  · have hlin : 1000000000 * (Ts / 100000 * 4294967296 / 655360000) ≤ 65536 * Ts := by omega
    generalize Ts / 100000 * 4294967296 / 655360000 = k at hk0 hk1 hlin ⊢
    have h1 := mul_le_mul_of_nonneg_left hlin hS.1
    have hE : 65536 * (S * k / 65536) ≤ S * k := by
      generalize S * k = P
      omega
    nlinarith [h1, hE]
  · have hlin : 65536 * Ts - 7553434464
        ≤ 1000000000 * (Ts / 100000 * 4294967296 / 655360000) := by omega
    generalize Ts / 100000 * 4294967296 / 655360000 = k at hk0 hk1 hlin ⊢
    have h1 := mul_le_mul_of_nonneg_left hlin hS.1
    have hE : S * k < 65536 * (S * k / 65536) + 65536 := by
      generalize S * k = P
      omega
    nlinarith [h1, hE]

/-- C14 (as the code has it). At a boundary reported by `Calc_FrequencyTracking`, with test
mode off, a non-negative power sum `S` and the reported period `Ts` below one second, the
energy `E` that `Calc_TotalEnergy` computes for the completed cycle is `S * Ts * 1e-9`
truncated: it never exceeds `S * Ts * 1e-9` and falls short of it by less than
`S * 115257e-9` plus one least-significant bit (the period is truncated to whole 100 µs and
the Q16 factor to an integer, a relative error of about 115257 / Ts).  For
`Ts = 1,250,000` ns and 16 samples of 1000 W it gives 1248000/65536 Ws, about 19.04 Ws. -/
theorem Calc_TotalEnergy_cycle_energy (fs : FreqState) (es : EnergyState)
    (instVoltage instPower : Int)
    (hedge : (Calc_FrequencyTracking fs instVoltage).risingEdgeDetected = true)
    (hS : 0 ≤ es.summationInstPower ∧ es.summationInstPower ≤ 2147483647)
    (hT : 0 ≤ (Calc_FrequencyTracking fs instVoltage).samplePeriod ∧
      (Calc_FrequencyTracking fs instVoltage).samplePeriod < 1000000000) :
    ∃ (E : Int) (r : EnergyResult),
      cycleEnergy es.summationInstPower
        (Calc_FrequencyTracking fs instVoltage).samplePeriod false = some E ∧
      trackThenIntegrate fs es instVoltage instPower false = some r ∧
      r.energyPerCycleWs = some E ∧
      0 ≤ E ∧
      E * 10 ^ 9 ≤ es.summationInstPower * (Calc_FrequencyTracking fs instVoltage).samplePeriod ∧
      es.summationInstPower * (Calc_FrequencyTracking fs instVoltage).samplePeriod
        < (E + 1) * 10 ^ 9 + 115257 * es.summationInstPower ∧
      cycleEnergy (16 * (1000 * 2 ^ 16)) 1250000 false = some 1248000 := by
  obtain ⟨E, hE, hE0, hlo, hhi⟩ := cycleEnergy_bounds es.summationInstPower
    (Calc_FrequencyTracking fs instVoltage).samplePeriod hS hT
  have hcarry := carryEnergy_value es E
  have hr : ∃ r, trackThenIntegrate fs es instVoltage instPower false = some r ∧
      r.energyPerCycleWs = some E := by
    unfold trackThenIntegrate Calc_TotalEnergy
    rw [hedge]
    simp only [if_true, hE, Option.some_bind, hcarry]
    split_ifs
    · exact ⟨_, rfl, rfl⟩
    · exact ⟨_, rfl, rfl⟩
  obtain ⟨r, hr1, hr2⟩ := hr
  refine ⟨E, r, hE, hr1, hr2, hE0, ?_, ?_, by decide⟩
  · norm_num only
    exact hlo
  · norm_num only
    exact hhi

theorem Calc_TotalEnergy_cycle_energy_witness :
    (Calc_FrequencyTracking (trackFrom FreqState.init [-65536]) 65536).risingEdgeDetected
      = true ∧
    ((0 : Int) ≤ 1048576000 ∧ (1048576000 : Int) ≤ 2147483647) ∧
    (0 ≤ (Calc_FrequencyTracking (trackFrom FreqState.init [-65536]) 65536).samplePeriod ∧
      (Calc_FrequencyTracking (trackFrom FreqState.init [-65536]) 65536).samplePeriod
        < 1000000000) ∧
    cycleEnergy 1048576000 1315790 false = some 1360000 ∧
    ∃ (E : Int) (r : EnergyResult),
      cycleEnergy (⟨1048576000, 0, 0⟩ : EnergyState).summationInstPower
        (Calc_FrequencyTracking (trackFrom FreqState.init [-65536]) 65536).samplePeriod false
          = some E ∧
      trackThenIntegrate (trackFrom FreqState.init [-65536]) ⟨1048576000, 0, 0⟩ 65536 0 false
        = some r ∧
      r.energyPerCycleWs = some E ∧
      0 ≤ E ∧
      E * 10 ^ 9 ≤ (⟨1048576000, 0, 0⟩ : EnergyState).summationInstPower
        * (Calc_FrequencyTracking (trackFrom FreqState.init [-65536]) 65536).samplePeriod ∧
      (⟨1048576000, 0, 0⟩ : EnergyState).summationInstPower
          * (Calc_FrequencyTracking (trackFrom FreqState.init [-65536]) 65536).samplePeriod
        < (E + 1) * 10 ^ 9 + 115257 * (⟨1048576000, 0, 0⟩ : EnergyState).summationInstPower ∧
      cycleEnergy (16 * (1000 * 2 ^ 16)) 1250000 false = some 1248000 :=
  ⟨by decide, by decide, by decide, by decide,
    Calc_TotalEnergy_cycle_energy (trackFrom FreqState.init [-65536]) ⟨1048576000, 0, 0⟩
      65536 0 (by decide) (by decide) (by decide)⟩

/-- For `Ts = 1,250,000` ns and a power sum of 16 samples of 1000 W, `Calc_TotalEnergy`
computes 1248000/65536 Ws (about 19.04 Ws), whereas `sum * Ts * 1e-9` is exactly 20 Ws
(1310720 in Q16): the relative error is about 4.8 %, not below 1 %. -/
theorem Calc_TotalEnergy_cycle_energy_counterexample :
    (1048576000 : Int) = 16 * (1000 * 2 ^ 16) ∧
    cycleEnergy 1048576000 1250000 false = some 1248000 ∧
    Calc_TotalEnergy ⟨1048576000, 0, 0⟩ 0 1250000 true false
      = some ⟨⟨0, 1248000, 0⟩, some 1248000⟩ ∧
    (1048576000 : Int) * 1250000 = (20 * 2 ^ 16) * 10 ^ 9 ∧
    ¬ (|(1248000 : Int) - 20 * 2 ^ 16| * 100 < 20 * 2 ^ 16) := by
  decide


/-! ## Calc_Vrms and Calc_Irms -/

theorem sqrtLoop_inInt32 (r : Int) (n : Nat) (x y : Int)
    (h : sqrtLoop r (n + 1) x = some y) : InInt32 y := by
  rw [sqrtLoop_succ] at h
  cases h1 : sqrtLoop r n x with
  | none => simp [h1] at h
  | some z =>
    rw [h1] at h
    simp only [Option.some_bind] at h
    cases h2 : FixedPoint_Divide r z with
    | none => simp [h2] at h
    | some q =>
      rw [h2] at h
      simp only [Option.map_some', Option.some.injEq] at h
      rw [← h]
      exact wrap32_inInt32 _

theorem squareRoot_inInt32 (r seed old y : Int)
    (h : FixedPoint_SquareRoot r seed (interationNb old) = some y) : InInt32 y := by
  unfold FixedPoint_SquareRoot interationNb at h
  split_ifs at h
  · exact sqrtLoop_inInt32 r 14 seed y h
  · exact sqrtLoop_inInt32 r 0 seed y h

theorem wrap32_wrapU32 (x : Int) : wrap32 (wrapU32 x) = wrap32 x := by
  unfold wrap32 wrapU32
  omega

theorem divide_by_ten (v : Int) (hv : InInt32 v) :
    FixedPoint_Divide v 655360 = some (Int.tdiv v 10) :=
  divide_by_whole v 10 hv (by norm_num) (by norm_num)

theorem Calc_Vrms_no_boundary (st : VrmsState) (v : Int) (hv : InInt32 v) :
    Calc_Vrms st v false =
      some ({ st with
                sumSquaredVolts := wrap32 (st.sumSquaredVolts + squaredScaledVolts v)
                sampleCount := wrapU8 (st.sampleCount + 1) }, wrap32 st.oldVrms) := by
  unfold Calc_Vrms
  rw [divide_by_ten v hv]
  rfl

theorem accumulateVolts_spec (vs : List Int) (st : VrmsState) (hv : ∀ v ∈ vs, InInt32 v)
    (hc : 0 ≤ st.sampleCount ∧ st.sampleCount < 256) (hs : InInt32 st.sumSquaredVolts) :
    ∃ s2, accumulateVolts st vs = some s2 ∧
      s2.sampleCount = wrapU8 (st.sampleCount + vs.length) ∧
      s2.sumSquaredVolts = wrap32 (st.sumSquaredVolts + (vs.map squaredScaledVolts).sum) ∧
      s2.oldVrms = st.oldVrms ∧ s2.Vrms = st.Vrms := by
  induction vs generalizing st with
  | nil =>
    refine ⟨st, rfl, ?_, ?_, rfl, rfl⟩
    · unfold wrapU8
      simp only [List.length_nil, Nat.cast_zero, add_zero]
      omega
    · simp only [List.map_nil, List.sum_nil, add_zero]
      exact (wrap32_of_inInt32 hs).symm
  | cons v vs ih =>
    have hv0 : InInt32 v := hv v (List.mem_cons_self v vs)
    have hstep : accumulateVolts st (v :: vs)
        = accumulateVolts { st with
            sumSquaredVolts := wrap32 (st.sumSquaredVolts + squaredScaledVolts v)
            sampleCount := wrapU8 (st.sampleCount + 1) } vs := by
      rw [accumulateVolts, Calc_Vrms_no_boundary st v hv0]
      rfl
    obtain ⟨s2, h1, h2, h3, h4, h5⟩ := ih
      { st with
        sumSquaredVolts := wrap32 (st.sumSquaredVolts + squaredScaledVolts v)
        sampleCount := wrapU8 (st.sampleCount + 1) }
      (fun x hx => hv x (List.mem_cons_of_mem v hx))
      (by unfold wrapU8; simp only; omega) (wrap32_inInt32 _)
    refine ⟨s2, hstep.trans h1, ?_, ?_, h4, h5⟩
    · rw [h2]
      simp only [List.length_cons, Nat.cast_add, Nat.cast_one]
      unfold wrapU8
      omega
    · rw [h3]
      simp only [List.map_cons, List.sum_cons]
      unfold wrap32
      omega

theorem Calc_Vrms_boundary_state (st s1 : VrmsState) (v r : Int) (hv : InInt32 v)
    (h : Calc_Vrms st v true = some (s1, r)) :
    s1.sampleCount = 1 ∧ s1.sumSquaredVolts = wrap32 (squaredScaledVolts v) := by
  unfold Calc_Vrms at h
  rw [divide_by_ten v hv] at h
  simp only [if_true, Option.some_bind] at h
  cases hd : FixedPoint_Divide st.sumSquaredVolts (wrap32 (st.sampleCount * 65536)) with
  | none => simp [hd] at h
  | some ratio =>
    rw [hd] at h
    simp only [Option.some_bind] at h
    cases hq : FixedPoint_SquareRoot ratio (wrap32 st.oldVrms) (interationNb st.oldVrms) with
    | none => simp [hq] at h
    | some root =>
      rw [hq] at h
      simp only [Option.map_some', Option.some.injEq, Prod.mk.injEq] at h
      obtain ⟨h1, _⟩ := h
      subst h1
      refine ⟨by show wrapU8 (0 + 1) = 1; decide, ?_⟩
      show wrap32 (0 + squaredScaledVolts v) = wrap32 (squaredScaledVolts v)
      rw [zero_add]

theorem Calc_Irms_no_boundary (st : IrmsState) (i : Int) :
    Calc_Irms st i false =
      some ({ st with
                sumSquaredCurrents := wrap32 (st.sumSquaredCurrents + squaredScaledCurrent i)
                sampleCount := wrapU8 (st.sampleCount + 1) }, wrap32 st.oldIrms) := rfl

theorem accumulateCurrents_spec (cs : List Int) (st : IrmsState)
    (hc : 0 ≤ st.sampleCount ∧ st.sampleCount < 256) (hs : InInt32 st.sumSquaredCurrents) :
    ∃ s2, accumulateCurrents st cs = some s2 ∧
      s2.sampleCount = wrapU8 (st.sampleCount + cs.length) ∧
      s2.sumSquaredCurrents
        = wrap32 (st.sumSquaredCurrents + (cs.map squaredScaledCurrent).sum) ∧
      s2.oldIrms = st.oldIrms ∧ s2.Irms = st.Irms := by
  induction cs generalizing st with
  | nil =>
    refine ⟨st, rfl, ?_, ?_, rfl, rfl⟩
    · unfold wrapU8
      simp only [List.length_nil, Nat.cast_zero, add_zero]
      omega
    · simp only [List.map_nil, List.sum_nil, add_zero]
      exact (wrap32_of_inInt32 hs).symm
  | cons v vs ih =>
    have hstep : accumulateCurrents st (v :: vs)
        = accumulateCurrents { st with
            sumSquaredCurrents := wrap32 (st.sumSquaredCurrents + squaredScaledCurrent v)
            sampleCount := wrapU8 (st.sampleCount + 1) } vs := rfl
    obtain ⟨s2, h1, h2, h3, h4, h5⟩ := ih
      { st with
        sumSquaredCurrents := wrap32 (st.sumSquaredCurrents + squaredScaledCurrent v)
        sampleCount := wrapU8 (st.sampleCount + 1) }
      (by unfold wrapU8; simp only; omega) (wrap32_inInt32 _)
    refine ⟨s2, hstep.trans h1, ?_, ?_, h4, h5⟩
    · rw [h2]
      simp only [List.length_cons, Nat.cast_add, Nat.cast_one]
      unfold wrapU8
      omega
    · rw [h3]
      simp only [List.map_cons, List.sum_cons]
      unfold wrap32
      omega

theorem Calc_Irms_boundary_state (st s1 : IrmsState) (i r : Int)
    (h : Calc_Irms st i true = some (s1, r)) :
    s1.sampleCount = 1 ∧ s1.sumSquaredCurrents = wrap32 (squaredScaledCurrent i) := by
  unfold Calc_Irms at h
  simp only [if_true] at h
  cases hd : FixedPoint_Divide st.sumSquaredCurrents (wrap32 (st.sampleCount * 65536)) with
  | none => simp [hd] at h
  | some ratio =>
    rw [hd] at h
    simp only [Option.some_bind] at h
    cases hq : FixedPoint_SquareRoot ratio (wrap32 st.oldIrms) (interationNb st.oldIrms) with
    | none => simp [hq] at h
    | some root =>
      rw [hq] at h
      simp only [Option.some_bind] at h
      cases hx : FixedPoint_Divide (wrap32 (wrapU32 root)) 655360 with
      | none => simp [hx] at h
      | some d =>
        rw [hx] at h
        simp only [Option.map_some', Option.some.injEq, Prod.mk.injEq] at h
        obtain ⟨h1, _⟩ := h
        subst h1
        refine ⟨by show wrapU8 (0 + 1) = 1; decide, ?_⟩
        show wrap32 (0 + squaredScaledCurrent i) = wrap32 (squaredScaledCurrent i)
        rw [zero_add]

theorem divide_by_count_value (s : Int) (n : Nat) (hs : InInt32 s) (hn : n + 1 ≤ 255) :
    FixedPoint_Divide s (wrap32 (((n : Int) + 1) * 65536))
      = some (Int.tdiv s ((n : Int) + 1)) := by
  have hw : wrap32 (((n : Int) + 1) * 65536) = ((n : Int) + 1) * 65536 := by
    apply wrap32_of_inInt32
    unfold InInt32
    omega
  rw [hw]
  exact divide_by_whole s ((n : Int) + 1) hs (by omega) (by omega)


theorem Calc_Vrms_next_boundary (st s1 : VrmsState) (r0 v0 : Int) (vs : List Int) (q : Int)
    (hv : ∀ v ∈ q :: v0 :: vs, InInt32 v)
    (hstart : Calc_Vrms st v0 true = some (s1, r0)) (hn : vs.length + 1 ≤ 255) :
    ∃ s2, accumulateVolts s1 vs = some s2 ∧
      Calc_Vrms s2 q true =
        (FixedPoint_SquareRoot
          (Int.tdiv (wrap32 ((v0 :: vs).map squaredScaledVolts).sum) ((vs.length : Int) + 1))
          (wrap32 s1.oldVrms) (interationNb s1.oldVrms)).map fun root =>
            ({ oldVrms := wrapU32 root
               sampleCount := 1
               sumSquaredVolts := wrap32 (squaredScaledVolts q)
               Vrms := wrapU32 (FixedPoint_Multiply root 655360) }, root) := by
  have hq : InInt32 q := hv q (List.mem_cons_self _ _)
  have hv0 : InInt32 v0 := hv v0 (List.mem_cons_of_mem _ (List.mem_cons_self _ _))
  have hvs : ∀ v ∈ vs, InInt32 v := fun v hin =>
    hv v (List.mem_cons_of_mem _ (List.mem_cons_of_mem _ hin))
  obtain ⟨hc1, hs1⟩ := Calc_Vrms_boundary_state st s1 v0 r0 hv0 hstart
  obtain ⟨s2, h2, hc2, hs2, ho2, _⟩ := accumulateVolts_spec vs s1 hvs (by omega)
    (by rw [hs1]; exact wrap32_inInt32 _)
  have hcount : s2.sampleCount = (vs.length : Int) + 1 := by
    rw [hc2, hc1]
    unfold wrapU8
    omega
  have hsum : s2.sumSquaredVolts = wrap32 ((v0 :: vs).map squaredScaledVolts).sum := by
    rw [hs2, hs1]
    simp only [List.map_cons, List.sum_cons]
    unfold wrap32
    omega
  have hdiv := divide_by_count_value (wrap32 ((v0 :: vs).map squaredScaledVolts).sum)
    vs.length (wrap32_inInt32 _) hn
  refine ⟨s2, h2, ?_⟩
  unfold Calc_Vrms
  rw [divide_by_ten q hq]
  simp only [if_true, Option.some_bind, hcount, hsum, hdiv, ho2]
  cases hr : FixedPoint_SquareRoot
      (Int.tdiv (wrap32 ((v0 :: vs).map squaredScaledVolts).sum) ((vs.length : Int) + 1))
      (wrap32 s1.oldVrms) (interationNb s1.oldVrms) with
  | none => rfl
  | some root =>
    have h32 := squareRoot_inInt32 _ _ _ _ hr
    have hid : wrap32 (wrapU32 root) = root := by
      rw [wrap32_wrapU32]
      exact wrap32_of_inInt32 h32
    simp only [Option.map_some', hid, zero_add]
    have h1 : wrapU8 1 = 1 := by decide
    rw [h1]
    rfl

theorem Calc_Irms_next_boundary (st s1 : IrmsState) (r0 i0 : Int) (cs : List Int) (q : Int)
    (hstart : Calc_Irms st i0 true = some (s1, r0)) (hn : cs.length + 1 ≤ 255) :
    ∃ s2, accumulateCurrents s1 cs = some s2 ∧
      Calc_Irms s2 q true =
        (FixedPoint_SquareRoot
          (Int.tdiv (wrap32 ((i0 :: cs).map squaredScaledCurrent).sum) ((cs.length : Int) + 1))
          (wrap32 s1.oldIrms) (interationNb s1.oldIrms)).map fun root =>
            ({ oldIrms := wrapU32 root
               sampleCount := 1
               sumSquaredCurrents := wrap32 (squaredScaledCurrent q)
               Irms := wrapU32 (Int.tdiv root 10) }, root) := by
  obtain ⟨hc1, hs1⟩ := Calc_Irms_boundary_state st s1 i0 r0 hstart
  obtain ⟨s2, h2, hc2, hs2, ho2, _⟩ := accumulateCurrents_spec cs s1 (by omega)
    (by rw [hs1]; exact wrap32_inInt32 _)
  have hcount : s2.sampleCount = (cs.length : Int) + 1 := by
    rw [hc2, hc1]
    unfold wrapU8
    omega
  have hsum : s2.sumSquaredCurrents = wrap32 ((i0 :: cs).map squaredScaledCurrent).sum := by
    rw [hs2, hs1]
    simp only [List.map_cons, List.sum_cons]
    unfold wrap32
    omega
  have hdiv := divide_by_count_value (wrap32 ((i0 :: cs).map squaredScaledCurrent).sum)
    cs.length (wrap32_inInt32 _) hn
  refine ⟨s2, h2, ?_⟩
  unfold Calc_Irms
  simp only [if_true, Option.some_bind, hcount, hsum, hdiv, ho2]
  cases hr : FixedPoint_SquareRoot
      (Int.tdiv (wrap32 ((i0 :: cs).map squaredScaledCurrent).sum) ((cs.length : Int) + 1))
      (wrap32 s1.oldIrms) (interationNb s1.oldIrms) with
  | none => rfl
  | some root =>
    have h32 := squareRoot_inInt32 _ _ _ _ hr
    have hid : wrap32 (wrapU32 root) = root := by
      rw [wrap32_wrapU32]
      exact wrap32_of_inInt32 h32
    simp only [Option.some_bind, Option.map_some', hid, divide_by_ten root h32, zero_add]
    have h1 : wrapU8 1 = 1 := by decide
    rw [h1]
    rfl

theorem multiply_by_ten (root : Int) (h0 : 0 ≤ root) (h1 : 10 * root ≤ 2147483647) :
    FixedPoint_Multiply root 655360 = 10 * root := by
  rw [multiply_value root 655360 ⟨by omega, by omega⟩ (by decide),
    Int.fdiv_eq_ediv _ (by norm_num)]
  have e : root * 655360 / 2 ^ 16 = 10 * root := by
    norm_num
    omega
  rw [e]
  exact wrap32_of_inInt32 ⟨by omega, h1⟩

/-- C11 (amended). After a boundary call and further calls without boundary, `n` samples in all (at
most 255), the next boundary call of `Calc_Vrms` runs
`FixedPoint_SquareRoot(ratio, previousEstimate, iterations)` with
`ratio = (int32 sum of the squares of the samples divided by 10.0) / n`, stores the root
as the new estimate and publishes `Vrms = FixedPoint_Multiply(root, 10.0)`, which is
`10 * root`; `Calc_Irms` does the same with the squares of the samples multiplied by 10.0
and publishes `Irms = FixedPoint_Divide(root, 10.0)`, which is `root / 10`.  A halt of the
square root is a halt of the call. -/
theorem Calc_rms_boundary (sv s1v : VrmsState) (rv v0 : Int) (vs : List Int) (qv : Int)
    (si s1i : IrmsState) (ri i0 : Int) (cs : List Int) (qi : Int)
    (hv : ∀ v ∈ qv :: v0 :: vs, InInt32 v)
    (hstartv : Calc_Vrms sv v0 true = some (s1v, rv)) (hnv : vs.length + 1 ≤ 255)
    (hstarti : Calc_Irms si i0 true = some (s1i, ri)) (hni : cs.length + 1 ≤ 255) :
    (∃ s2, accumulateVolts s1v vs = some s2 ∧
      Calc_Vrms s2 qv true =
        (FixedPoint_SquareRoot
          (Int.tdiv (wrap32 ((v0 :: vs).map squaredScaledVolts).sum) ((vs.length : Int) + 1))
          (wrap32 s1v.oldVrms) (interationNb s1v.oldVrms)).map fun root =>
            ({ oldVrms := wrapU32 root
               sampleCount := 1
               sumSquaredVolts := wrap32 (squaredScaledVolts qv)
               Vrms := wrapU32 (FixedPoint_Multiply root 655360) }, root)) ∧
    (∃ s2, accumulateCurrents s1i cs = some s2 ∧
      Calc_Irms s2 qi true =
        (FixedPoint_SquareRoot
          (Int.tdiv (wrap32 ((i0 :: cs).map squaredScaledCurrent).sum) ((cs.length : Int) + 1))
          (wrap32 s1i.oldIrms) (interationNb s1i.oldIrms)).map fun root =>
            ({ oldIrms := wrapU32 root
               sampleCount := 1
               sumSquaredCurrents := wrap32 (squaredScaledCurrent qi)
               Irms := wrapU32 (Int.tdiv root 10) }, root)) ∧
    (∀ root : Int, 0 ≤ root → 10 * root ≤ 2147483647 →
      FixedPoint_Multiply root 655360 = 10 * root) ∧
    (∀ root : Int, InInt32 root → FixedPoint_Divide root 655360 = some (Int.tdiv root 10)) ∧
    (∀ v : Int, InInt32 v → FixedPoint_Divide v 655360 = some (Int.tdiv v 10)) :=
  ⟨Calc_Vrms_next_boundary sv s1v rv v0 vs qv hv hstartv hnv,
    Calc_Irms_next_boundary si s1i ri i0 cs qi hstarti hni,
    multiply_by_ten, divide_by_ten, divide_by_ten⟩

theorem Calc_rms_boundary_witness :
    (∀ v ∈ (0 : Int) :: 1310720 :: [1310720], InInt32 v) ∧
    Calc_Vrms ⟨65536, 1, 65536, 0⟩ 1310720 true = some (⟨65536, 1, 262144, 655360⟩, 65536) ∧
    ([1310720] : List Int).length + 1 ≤ 255 ∧
    Calc_Irms ⟨65536, 1, 65536, 0⟩ 6554 true = some (⟨65536, 1, 65544, 6553⟩, 65536) ∧
    ([6554] : List Int).length + 1 ≤ 255 ∧
    ((accumulateVolts ⟨65536, 1, 262144, 655360⟩ [1310720]).bind fun s => Calc_Vrms s 0 true)
      = some (⟨131072, 1, 0, 1310720⟩, 131072) ∧
    ((accumulateCurrents ⟨65536, 1, 65544, 6553⟩ [6554]).bind fun s => Calc_Irms s 0 true)
      = some (⟨65539, 1, 0, 6553⟩, 65539) ∧
    ((∃ s2, accumulateVolts ⟨65536, 1, 262144, 655360⟩ [1310720] = some s2 ∧
      Calc_Vrms s2 0 true =
        (FixedPoint_SquareRoot
          (Int.tdiv (wrap32 (((1310720 : Int) :: [1310720]).map squaredScaledVolts).sum)
            ((([1310720] : List Int).length : Int) + 1))
          (wrap32 (⟨65536, 1, 262144, 655360⟩ : VrmsState).oldVrms)
          (interationNb (⟨65536, 1, 262144, 655360⟩ : VrmsState).oldVrms)).map fun root =>
            ({ oldVrms := wrapU32 root
               sampleCount := 1
               sumSquaredVolts := wrap32 (squaredScaledVolts 0)
               Vrms := wrapU32 (FixedPoint_Multiply root 655360) }, root)) ∧
    (∃ s2, accumulateCurrents ⟨65536, 1, 65544, 6553⟩ [6554] = some s2 ∧
      Calc_Irms s2 0 true =
        (FixedPoint_SquareRoot
          (Int.tdiv (wrap32 (((6554 : Int) :: [6554]).map squaredScaledCurrent).sum)
            ((([6554] : List Int).length : Int) + 1))
          (wrap32 (⟨65536, 1, 65544, 6553⟩ : IrmsState).oldIrms)
          (interationNb (⟨65536, 1, 65544, 6553⟩ : IrmsState).oldIrms)).map fun root =>
            ({ oldIrms := wrapU32 root
               sampleCount := 1
               sumSquaredCurrents := wrap32 (squaredScaledCurrent 0)
               Irms := wrapU32 (Int.tdiv root 10) }, root)) ∧
    (∀ root : Int, 0 ≤ root → 10 * root ≤ 2147483647 →
      FixedPoint_Multiply root 655360 = 10 * root) ∧
    (∀ root : Int, InInt32 root → FixedPoint_Divide root 655360 = some (Int.tdiv root 10)) ∧
    (∀ v : Int, InInt32 v → FixedPoint_Divide v 655360 = some (Int.tdiv v 10))) :=
  ⟨by decide, by decide, by decide, by decide, by decide, by decide, by decide,
    Calc_rms_boundary ⟨65536, 1, 65536, 0⟩ ⟨65536, 1, 262144, 655360⟩ 65536 1310720
      [1310720] 0 ⟨65536, 1, 65536, 0⟩ ⟨65536, 1, 65544, 6553⟩ 65536 6554 [6554] 0
      (by decide) (by decide) (by decide) (by decide) (by decide)⟩

set_option maxRecDepth 100000 in
/-- C13 (what the code does). From cold start, 16 voltage samples of 10 V make the first
boundary evaluation return exactly 1.0 (65536), the value of the initial seed.  At the
second boundary evaluation (after 16 samples of 20 V, mean square 4.0) the test
`oldVrms == 1<<16` holds again, 15 iterations are run and the new estimate is 2.0
(131072), where a single iteration from the previous result would give 2.5 (163840).  The
same test decides the iterations of `Calc_Irms`. -/
theorem Calc_Vrms_iterations_after_unit_estimate :
    ((accumulateVolts VrmsState.init (List.replicate 16 655360)).bind
        fun s => Calc_Vrms s 1310720 true)
      = some (⟨65536, 1, 262144, 655360⟩, 65536) ∧
    interationNb (⟨65536, 1, 262144, 655360⟩ : VrmsState).oldVrms = 15 ∧
    ((accumulateVolts ⟨65536, 1, 262144, 655360⟩ (List.replicate 15 1310720)).bind
        fun s => Calc_Vrms s 0 true)
      = some (⟨131072, 1, 0, 1310720⟩, 131072) ∧
    FixedPoint_SquareRoot 262144 65536 15 = some 131072 ∧
    FixedPoint_SquareRoot 262144 65536 1 = some 163840 ∧
    (∀ old : Int, interationNb old = 15 ↔ old = 65536) ∧
    (∀ old : Int, old ≠ 65536 → interationNb old = 1) := by
  refine ⟨by decide, by decide, by decide, by decide, by decide, ?_, ?_⟩
  · intro old
    unfold interationNb
    split_ifs with h
    · simp [h]
    · simp [h]
  · intro old h
    unfold interationNb
    rw [if_neg h]


/-! ## The square root from the cold-start seed -/

theorem divide_returns (a b : Int) (hb : b ≠ 0) : ∃ q, FixedPoint_Divide a b = some q := by
  unfold FixedPoint_Divide
  rw [if_neg hb]
  exact ⟨_, rfl⟩

theorem multiply_inInt32 (a b : Int) : InInt32 (FixedPoint_Multiply a b) :=
  wrap32_inInt32 _

theorem wrapU32_eq_zero_of_inInt32 (p : Int) (hp : InInt32 p) : wrapU32 p = 0 ↔ p = 0 := by
  unfold InInt32 at hp
  unfold wrapU32
  omega

theorem Calc_PowerFactor_cases (Vrms Irms AveragePowerW PowerFactor : Int) :
    (FixedPoint_Multiply (wrap32 Vrms) (wrap32 Irms) ≠ 0 →
      Calc_PowerFactor Vrms Irms AveragePowerW PowerFactor
        = (FixedPoint_Divide (wrap32 AveragePowerW)
            (FixedPoint_Multiply (wrap32 Vrms) (wrap32 Irms))).map wrapU32) ∧
    (FixedPoint_Multiply (wrap32 Vrms) (wrap32 Irms) = 0 →
      Calc_PowerFactor Vrms Irms AveragePowerW PowerFactor = some PowerFactor) := by
  have h32 := multiply_inInt32 (wrap32 Vrms) (wrap32 Irms)
  have hz := wrapU32_eq_zero_of_inInt32 _ h32
  constructor
  · intro hne
    unfold Calc_PowerFactor
    simp only
    rw [if_pos (fun h => hne (hz.mp h)), wrap32_wrapU32, wrap32_of_inInt32 h32]
  · intro he
    unfold Calc_PowerFactor
    simp only
    rw [if_neg (fun h => h (hz.mpr he))]

/-- C22. `Calc_PowerFactor` sets `PowerFactor` to
`FixedPoint_Divide(AveragePowerW, FixedPoint_Multiply(Vrms, Irms))` (stored as `uint32_t`)
when that product is nonzero; when the product is zero it leaves `PowerFactor` unchanged;
in neither case does it reach the halt of the division. -/
theorem Calc_PowerFactor_guarded (Vrms Irms AveragePowerW PowerFactor : Int) :
    (FixedPoint_Multiply (wrap32 Vrms) (wrap32 Irms) ≠ 0 →
      ∃ q, FixedPoint_Divide (wrap32 AveragePowerW)
            (FixedPoint_Multiply (wrap32 Vrms) (wrap32 Irms)) = some q ∧
        Calc_PowerFactor Vrms Irms AveragePowerW PowerFactor = some (wrapU32 q)) ∧
    (FixedPoint_Multiply (wrap32 Vrms) (wrap32 Irms) = 0 →
      Calc_PowerFactor Vrms Irms AveragePowerW PowerFactor = some PowerFactor) ∧
    Calc_PowerFactor Vrms Irms AveragePowerW PowerFactor ≠ none ∧
    Calc_PowerFactor 15728640 65536 15728640 0 = some 65536 ∧
    Calc_PowerFactor 15728640 0 15728640 7 = some 7 := by
  obtain ⟨h1, h2⟩ := Calc_PowerFactor_cases Vrms Irms AveragePowerW PowerFactor
  refine ⟨?_, h2, ?_, by decide, by decide⟩
  · intro hne
    obtain ⟨q, hq⟩ := divide_returns (wrap32 AveragePowerW) _ hne
    refine ⟨q, hq, ?_⟩
    rw [h1 hne, hq]
    rfl
  · by_cases hz : FixedPoint_Multiply (wrap32 Vrms) (wrap32 Irms) = 0
    · rw [h2 hz]
      exact Option.some_ne_none _
    · obtain ⟨q, hq⟩ := divide_returns (wrap32 AveragePowerW) _ hz
      rw [h1 hz, hq]
      exact Option.some_ne_none _

/-! ## Calc_ConvertADCtoVolts and the channel scaling -/

theorem tdiv_cases (s n : Int) (hn : 0 < n) :
    (0 ≤ s → Int.tdiv s n = s / n) ∧ (s ≤ 0 → Int.tdiv s n = -((-s) / n)) := by
  constructor
  · intro hs
    exact Int.tdiv_eq_ediv hs (le_of_lt hn)
  · intro hs
    have e : Int.tdiv s n = -Int.tdiv (-s) n := by
      rw [Int.neg_tdiv]
      ring
    rw [e, Int.tdiv_eq_ediv (by omega) (le_of_lt hn)]

theorem multiply_whole (n x : Int) (hn : 0 ≤ n ∧ n ≤ 32767) (hx : InInt32 x)
    (hfit : InInt32 (n * x)) :
    FixedPoint_Multiply x (n * 65536) = n * x ∧ FixedPoint_Multiply (n * 65536) x = n * x := by
  have hn32 : InInt32 (n * 65536) := by
    unfold InInt32
    omega
  have e1 : x * (n * 65536) = n * x * 65536 := by ring
  have e2 : n * 65536 * x = n * x * 65536 := by ring
  constructor
  · rw [multiply_value x (n * 65536) hx hn32, Int.fdiv_eq_ediv _ (by norm_num), e1]
    norm_num
    exact wrap32_of_inInt32 hfit
  · rw [multiply_value (n * 65536) x hn32 hx, Int.fdiv_eq_ediv _ (by norm_num), e2]
    norm_num
    exact wrap32_of_inInt32 hfit

theorem adc_ratio_bounds (c : Int) (hc : -32768 ≤ c ∧ c ≤ 32767) :
    -65538 ≤ Int.tdiv (65536 * c) 32767 ∧ Int.tdiv (65536 * c) 32767 ≤ 65536 := by
  obtain ⟨h1, h2⟩ := tdiv_cases (65536 * c) 32767 (by norm_num)
  rcases le_total 0 c with h | h
  · rw [h1 (by omega)]
    omega
  · rw [h2 (by omega)]
    omega

theorem adc_ratio_mono (c d : Int) (hcd : c ≤ d) :
    Int.tdiv (65536 * c) 32767 ≤ Int.tdiv (65536 * d) 32767 := by
  obtain ⟨c1, c2⟩ := tdiv_cases (65536 * c) 32767 (by norm_num)
  obtain ⟨d1, d2⟩ := tdiv_cases (65536 * d) 32767 (by norm_num)
  rcases le_total 0 c with h | h
  · rw [c1 (by omega), d1 (by omega)]
    omega
  · rcases le_total 0 d with h' | h'
    · rw [c2 (by omega), d1 (by omega)]
      omega
    · rw [c2 (by omega), d2 (by omega)]
      omega

theorem adc_ratio_value (c : Int) (hc : -32768 ≤ c ∧ c ≤ 32767) :
    FixedPoint_Divide (FixedPoint_Convert32Q16 c) MAX_ADC_OUTPUT_32Q16
      = some (Int.tdiv (65536 * c) 32767) := by
  have hb := adc_ratio_bounds c hc
  have hconv : FixedPoint_Convert32Q16 c = c * 65536 := by
    have h1 : wrap32 c = c := wrap32_of_inInt32 ⟨by omega, by omega⟩
    unfold FixedPoint_Convert32Q16
    rw [h1]
    exact wrap32_of_inInt32 ⟨by omega, by omega⟩
  have hq : Int.tdiv (c * 65536 * 2 ^ 16) MAX_ADC_OUTPUT_32Q16
      = Int.tdiv (65536 * c) 32767 := by
    have e1 : c * 65536 * 2 ^ 16 = 65536 * c * 65536 := by ring
    have e2 : MAX_ADC_OUTPUT_32Q16 = 32767 * 65536 := by decide
    rw [e1, e2]
    exact mul_tdiv_mul_right_pos (65536 * c) 32767 65536 (by norm_num) (by norm_num)
  rw [hconv]
  have h := divide_of_fits (c * 65536) MAX_ADC_OUTPUT_32Q16 ⟨by omega, by omega⟩
    (by decide) (by decide)
  rw [hq] at h
  exact h ⟨by omega, by omega⟩

theorem convert_value (c : Int) (hc : -32768 ≤ c ∧ c ≤ 32767) :
    Calc_ConvertADCtoVolts c = some (rawToVolts c) := by
  have hb := adc_ratio_bounds c hc
  unfold Calc_ConvertADCtoVolts
  simp only [adc_ratio_value c hc, Option.map_some']
  have h := (multiply_whole 10 (Int.tdiv (65536 * c) 32767) (by norm_num)
    ⟨by omega, by omega⟩ ⟨by omega, by omega⟩).2
  have e : ADC_VOLTAGE_RANGE_32Q16 = 10 * 65536 := by decide
  rw [e, h]
  rfl

theorem rawToVolts_bounds (c : Int) (hc : -32768 ≤ c ∧ c ≤ 32767) :
    -655380 ≤ rawToVolts c ∧ rawToVolts c ≤ 655360 := by
  have hb := adc_ratio_bounds c hc
  unfold rawToVolts
  omega

theorem instVoltage_value (c : Int) (hc : -32768 ≤ c ∧ c ≤ 32767) :
    instVoltage c = some (100 * rawToVolts c) := by
  have hb := rawToVolts_bounds c hc
  unfold instVoltage
  simp only [convert_value c hc, Option.map_some']
  have h := (multiply_whole 100 (rawToVolts c) (by norm_num)
    ⟨by omega, by omega⟩ ⟨by omega, by omega⟩).1
  have e : VOLTAGE_RAW_ADC_RATIO_32Q16 = 100 * 65536 := by decide
  rw [e, h]

theorem instCurrent_value (c : Int) (hc : -32768 ≤ c ∧ c ≤ 32767) :
    instCurrent c = some (rawToVolts c) := by
  have hb := rawToVolts_bounds c hc
  unfold instCurrent
  simp only [convert_value c hc, Option.map_some']
  have h := (multiply_whole 1 (rawToVolts c) (by norm_num)
    ⟨by omega, by omega⟩ ⟨by omega, by omega⟩).1
  have e : CURRENT_RAW_ADC_RATIO_32Q16 = 1 * 65536 := by decide
  rw [e, h, one_mul]

/-- C25. For every `int16` ADC code `c`, `Calc_ConvertADCtoVolts(c)` returns (it does not
halt) `10 * trunc(65536 * c / 32767)`: code 0 maps to 0, the full-scale code 32767 to
exactly 10.0 V (655360), the map is monotonically non-decreasing, and the calculation loop
scales it by exactly 100 for the voltage channel and by exactly 1 for the current
channel. -/
theorem Calc_ConvertADCtoVolts_value (c : Int) (hc : -32768 ≤ c ∧ c ≤ 32767) :
    Calc_ConvertADCtoVolts c = some (rawToVolts c) ∧
    rawToVolts c = 10 * Int.tdiv (65536 * c) 32767 ∧
    Calc_ConvertADCtoVolts 0 = some 0 ∧
    Calc_ConvertADCtoVolts 32767 = some 655360 ∧
    (∀ d : Int, c ≤ d → d ≤ 32767 →
      ∃ vc vd, Calc_ConvertADCtoVolts c = some vc ∧ Calc_ConvertADCtoVolts d = some vd ∧
        vc ≤ vd) ∧
    instVoltage c = some (100 * rawToVolts c) ∧
    instCurrent c = some (1 * rawToVolts c) := by
  refine ⟨convert_value c hc, rfl, by decide, by decide, ?_, instVoltage_value c hc, ?_⟩
  · intro d hcd hd
    refine ⟨_, _, convert_value c hc, convert_value d ⟨by omega, hd⟩, ?_⟩
    have h := adc_ratio_mono c d hcd
    unfold rawToVolts
    omega
  · rw [instCurrent_value c hc, one_mul]

theorem Calc_ConvertADCtoVolts_value_witness :
    ((-32768 : Int) ≤ -32768 ∧ (-32768 : Int) ≤ 32767) ∧
    Calc_ConvertADCtoVolts (-32768) = some (-655380) ∧
    (Calc_ConvertADCtoVolts (-32768) = some (rawToVolts (-32768)) ∧
    rawToVolts (-32768) = 10 * Int.tdiv (65536 * (-32768)) 32767 ∧
    Calc_ConvertADCtoVolts 0 = some 0 ∧
    Calc_ConvertADCtoVolts 32767 = some 655360 ∧
    (∀ d : Int, -32768 ≤ d → d ≤ 32767 →
      ∃ vc vd, Calc_ConvertADCtoVolts (-32768) = some vc ∧
        Calc_ConvertADCtoVolts d = some vd ∧ vc ≤ vd) ∧
    instVoltage (-32768) = some (100 * rawToVolts (-32768)) ∧
    instCurrent (-32768) = some (1 * rawToVolts (-32768))) :=
  ⟨by decide, by decide, Calc_ConvertADCtoVolts_value (-32768) (by decide)⟩

/-! ## Calc_Vrms: the sum of squares at full scale -/

theorem mul_abs_bounds (a b A B : Int) (ha : -A ≤ a ∧ a ≤ A) (hb : -B ≤ b ∧ b ≤ B) :
    -(A * B) ≤ a * b ∧ a * b ≤ A * B := by
  have hA : 0 ≤ A := by omega
  have h : |a * b| ≤ A * B := by
    rw [abs_mul]
    exact mul_le_mul (abs_le.mpr ha) (abs_le.mpr hb) (abs_nonneg b) hA
  exact abs_le.mp h

theorem multiply_exact (a b A B : Int) (ha : -A ≤ a ∧ a ≤ A) (hb : -B ≤ b ∧ b ≤ B)
    (hA : A ≤ 2147483647) (hB : B ≤ 2147483647) (hAB : A * B ≤ 140737488355327) :
    FixedPoint_Multiply a b = a * b / 65536 ∧ InInt32 (a * b / 65536) := by
  have hp := mul_abs_bounds a b A B ha hb
  have hv := multiply_value a b ⟨by omega, by omega⟩ ⟨by omega, by omega⟩
  rw [Int.fdiv_eq_ediv _ (by norm_num)] at hv
  have e : ((2 : Int) ^ 16) = 65536 := by norm_num
  rw [e] at hv
  generalize A * B = M at hp hAB
  generalize a * b = P at hv hp ⊢
  have h32 : InInt32 (P / 65536) := by
    unfold InInt32
    omega
  exact ⟨by rw [hv]; exact wrap32_of_inInt32 h32, h32⟩

theorem tdiv_ten_bounds (v A : Int) (hv : -A ≤ v ∧ v ≤ A) :
    -A ≤ 10 * Int.tdiv v 10 ∧ 10 * Int.tdiv v 10 ≤ A := by
  obtain ⟨h1, h2⟩ := tdiv_cases v 10 (by norm_num)
  rcases le_total 0 v with h | h
  · rw [h1 h]
    omega
  · rw [h2 h]
    omega

theorem squaredScaledVolts_bounds (v : Int) (hv : -29658200 ≤ v ∧ v ≤ 29658200) :
    0 ≤ squaredScaledVolts v ∧ squaredScaledVolts v ≤ 134217655 := by
  have ht := tdiv_ten_bounds v 29658200 hv
  unfold squaredScaledVolts
  have hm := multiply_exact (Int.tdiv v 10) (Int.tdiv v 10) 2965820 2965820
    ⟨by omega, by omega⟩ ⟨by omega, by omega⟩ (by norm_num) (by norm_num) (by norm_num)
  have hp := mul_abs_bounds (Int.tdiv v 10) (Int.tdiv v 10) 2965820 2965820
    ⟨by omega, by omega⟩ ⟨by omega, by omega⟩
  have h0 : 0 ≤ Int.tdiv v 10 * Int.tdiv v 10 := mul_self_nonneg _
  rw [hm.1]
  generalize Int.tdiv v 10 * Int.tdiv v 10 = P at hp h0
  omega

theorem sum_squares_bounds (vs : List Int) (hv : ∀ v ∈ vs, -29658200 ≤ v ∧ v ≤ 29658200) :
    0 ≤ (vs.map squaredScaledVolts).sum ∧
    (vs.map squaredScaledVolts).sum ≤ (vs.length : Int) * 134217655 := by
  induction vs with
  | nil => simp
  | cons x xs ih =>
    have hx := squaredScaledVolts_bounds x (hv x (List.mem_cons_self x xs))
    have hxs := ih fun v hin => hv v (List.mem_cons_of_mem x hin)
    simp only [List.map_cons, List.sum_cons, List.length_cons, Nat.cast_add, Nat.cast_one]
    omega

/-- C27 (what the code does). The full-scale code 32767 gives the instantaneous voltage
1000 V (65536000); scaled by 1/10 and squared it contributes 10000.0 (655360000) to the
sum.  Three such samples give 1966080000; the fourth makes the `int32_t` sum wrap to
-1673527296, since 4 * 655360000 exceeds the `int32_t` range.  The scaling does keep the
sum of a cycle of at most 16 samples exact and within `int32_t` when every sample has a
magnitude of at most 452.5 V (29658200 in Q16). -/
theorem Calc_Vrms_sum_wraps_at_full_scale :
    instVoltage 32767 = some 65536000 ∧
    squaredScaledVolts 65536000 = 655360000 ∧
    accumulateVolts VrmsState.init (List.replicate 3 65536000)
      = some ⟨65536, 3, 1966080000, 0⟩ ∧
    accumulateVolts VrmsState.init (List.replicate 4 65536000)
      = some ⟨65536, 4, -1673527296, 0⟩ ∧
    ¬ InInt32 (4 * 655360000) ∧
    (∀ vs : List Int, vs.length ≤ 16 → (∀ v ∈ vs, -29658200 ≤ v ∧ v ≤ 29658200) →
      ∃ s, accumulateVolts VrmsState.init vs = some s ∧
        s.sumSquaredVolts = (vs.map squaredScaledVolts).sum ∧
        0 ≤ (vs.map squaredScaledVolts).sum ∧
        (vs.map squaredScaledVolts).sum ≤ 2147483647) := by
  refine ⟨by decide, by decide, by decide, by decide, by decide, ?_⟩
  intro vs hlen hv
  obtain ⟨h0, h1⟩ := sum_squares_bounds vs hv
  have hl : (vs.length : Int) ≤ 16 := by exact_mod_cast hlen
  obtain ⟨s, hs, _, hsum, _, _⟩ := accumulateVolts_spec vs VrmsState.init
    (fun v hin => ⟨by have := hv v hin; omega, by have := hv v hin; omega⟩)
    (by decide) (by decide)
  refine ⟨s, hs, ?_, h0, by omega⟩
  rw [hsum]
  simp only [VrmsState.init, zero_add]
  exact wrap32_of_inInt32 ⟨by omega, by omega⟩

/-! ## FixedPoint_MultiplyU and FixedPoint_DivideU -/

theorem mul_bounds_nonneg (a b A B : Int) (ha : 0 ≤ a ∧ a ≤ A) (hb : 0 ≤ b ∧ b ≤ B) :
    0 ≤ a * b ∧ a * b ≤ A * B :=
  ⟨mul_nonneg ha.1 hb.1, mul_le_mul ha.2 hb.2 hb.1 (by omega)⟩

theorem multiplyU_nonneg (a b : Int) (ha : InUInt32 a) (hb : 0 ≤ b ∧ b ≤ 2147483647) :
    FixedPoint_MultiplyU a b = claimedMultiplyU a b := by
  unfold InUInt32 at ha
  have hp := mul_bounds_nonneg a b 4294967295 2147483647 ha hb
  have e1 : wrapU64 a = a := by
    unfold wrapU64
    omega
  have e2 : wrapU64 b = b := by
    unfold wrapU64
    omega
  have e3 : wrapU64 (a * b) = a * b := by
    unfold wrapU64
    omega
  unfold FixedPoint_MultiplyU claimedMultiplyU
  simp only [e1, e2, e3]
  rw [Int.shiftRight_eq_div_pow]
  rfl

theorem multiplyU_negative (a b : Int) (ha : InUInt32 a) (hb : -2147483648 ≤ b ∧ b < 0) :
    FixedPoint_MultiplyU a b = ((a * (2 ^ 64 + b)) % 2 ^ 64 / 2 ^ 16) % 2 ^ 32 := by
  unfold InUInt32 at ha
  have e1 : wrapU64 a = a := by
    unfold wrapU64
    omega
  have e2 : wrapU64 b = 2 ^ 64 + b := by
    unfold wrapU64
    omega
  unfold FixedPoint_MultiplyU
  simp only [e1, e2]
  rw [Int.shiftRight_eq_div_pow]
  rfl

theorem divideU_value (a b : Int) (ha : InUInt32 a) :
    FixedPoint_DivideU a b = claimedDivideU a b := by
  unfold InUInt32 at ha
  have e1 : wrapU64 a = a := by
    unfold wrapU64
    omega
  have e2 : wrapU64 (a * 65536) = a * 65536 := by
    unfold wrapU64
    omega
  unfold FixedPoint_DivideU claimedDivideU PE_DEBUGHALT
  simp only [e1, e2]
  rfl

theorem divideU_halts_iff (a b : Int) : FixedPoint_DivideU a b = none ↔ b = 0 := by
  unfold FixedPoint_DivideU PE_DEBUGHALT
  by_cases hb : b = 0
  · simp [hb]
  · simp [hb]

theorem multiplyU_agrees (a b : Int) (ha : 0 ≤ a ∧ a ≤ 2147483647)
    (hb : 0 ≤ b ∧ b ≤ 2147483647) (hr : 0 ≤ FixedPoint_Multiply a b) :
    FixedPoint_MultiplyU a b = FixedPoint_Multiply a b := by
  have hv := multiply_value a b ⟨by omega, ha.2⟩ ⟨by omega, hb.2⟩
  rw [Int.fdiv_eq_ediv _ (by norm_num)] at hv
  rw [hv] at hr ⊢
  rw [multiplyU_nonneg a b ⟨ha.1, by omega⟩ hb]
  unfold claimedMultiplyU
  generalize a * b / 2 ^ 16 = m at hr ⊢
  unfold wrap32 at hr ⊢
  omega

theorem divideU_agrees (a b q : Int) (ha : 0 ≤ a ∧ a ≤ 2147483647)
    (hb : 0 < b ∧ b ≤ 2147483647) (hq : FixedPoint_Divide a b = some q) (hr : 0 ≤ q) :
    FixedPoint_DivideU a b = some q := by
  have e1 : wrap64 a = a := wrap64_of_inInt32 ⟨by omega, ha.2⟩
  have e2 : wrap64 b = b := wrap64_of_inInt32 ⟨by omega, hb.2⟩
  have e3 : wrap64 (a * 65536) = a * 65536 := wrap64_of_bounds (by omega) (by omega)
  have hd0 : 0 ≤ a * 65536 / b := Int.ediv_nonneg (by omega) (by omega)
  have hd1 : a * 65536 / b ≤ a * 65536 := Int.ediv_le_self b (by omega)
  have e4 : Int.tdiv (a * 65536) b = a * 65536 / b :=
    Int.tdiv_eq_ediv (by omega) (by omega)
  have e5 : wrap64 (a * 65536 / b) = a * 65536 / b := wrap64_of_bounds (by omega) (by omega)
  unfold FixedPoint_Divide at hq
  rw [if_neg (by omega)] at hq
  simp only [e1, e2, e3, e4, e5, Option.some.injEq] at hq
  rw [divideU_value a b ⟨ha.1, by omega⟩]
  unfold claimedDivideU
  rw [if_neg (by omega)]
  have e6 : a * 2 ^ 16 / b = a * 65536 / b := by norm_num
  rw [e6]
  generalize a * 65536 / b = m at hq hd0 ⊢
  subst hq
  unfold wrap32 at hr ⊢
  congr 1
  omega

/-- C28 (amended). For a first operand `a` in the `uint32_t` range: `FixedPoint_MultiplyU(a, b)`
is `floor(a * b / 2^16) mod 2^32` for every second operand `b` that is non-negative as
`int32_t`, while a negative `b` is widened with its sign, so that the result is
`floor((a * (2^64 + b) mod 2^64) / 2^16) mod 2^32`; `FixedPoint_DivideU(a, b)` is
`floor(a * 2^16 / b) mod 2^32` and halts exactly when `b = 0`; and each agrees with its
signed counterpart on operands and results that are non-negative as `int32_t`. -/
theorem FixedPoint_unsigned_variants (a b : Int) (ha : InUInt32 a) :
    (0 ≤ b → b ≤ 2147483647 → FixedPoint_MultiplyU a b = claimedMultiplyU a b) ∧
    (-2147483648 ≤ b → b < 0 →
      FixedPoint_MultiplyU a b = ((a * (2 ^ 64 + b)) % 2 ^ 64 / 2 ^ 16) % 2 ^ 32) ∧
    FixedPoint_DivideU a b = claimedDivideU a b ∧
    (FixedPoint_DivideU a b = none ↔ b = 0) ∧
    (a ≤ 2147483647 → 0 ≤ b → b ≤ 2147483647 → 0 ≤ FixedPoint_Multiply a b →
      FixedPoint_MultiplyU a b = FixedPoint_Multiply a b) ∧
    (a ≤ 2147483647 → 0 < b → b ≤ 2147483647 →
      ∀ q, FixedPoint_Divide a b = some q → 0 ≤ q → FixedPoint_DivideU a b = some q) :=
  ⟨fun h0 h1 => multiplyU_nonneg a b ha ⟨h0, h1⟩,
    fun h0 h1 => multiplyU_negative a b ha ⟨h0, h1⟩,
    divideU_value a b ha,
    divideU_halts_iff a b,
    fun h h0 h1 hr => multiplyU_agrees a b ⟨ha.1, h⟩ ⟨h0, h1⟩ hr,
    fun h h0 h1 q hq hr => divideU_agrees a b q ⟨ha.1, h⟩ ⟨h0, h1⟩ hq hr⟩

theorem FixedPoint_unsigned_variants_witness :
    InUInt32 1179648 ∧
    FixedPoint_MultiplyU 1179648 5111808 = 92012544 ∧
    FixedPoint_DivideU 1179648 5111808 = some 15123 ∧
    ((0 ≤ (5111808 : Int) → (5111808 : Int) ≤ 2147483647 →
      FixedPoint_MultiplyU 1179648 5111808 = claimedMultiplyU 1179648 5111808) ∧
    (-2147483648 ≤ (5111808 : Int) → (5111808 : Int) < 0 →
      FixedPoint_MultiplyU 1179648 5111808
        = ((1179648 * (2 ^ 64 + 5111808)) % 2 ^ 64 / 2 ^ 16) % 2 ^ 32) ∧
    FixedPoint_DivideU 1179648 5111808 = claimedDivideU 1179648 5111808 ∧
    (FixedPoint_DivideU 1179648 5111808 = none ↔ (5111808 : Int) = 0) ∧
    ((1179648 : Int) ≤ 2147483647 → 0 ≤ (5111808 : Int) → (5111808 : Int) ≤ 2147483647 →
      0 ≤ FixedPoint_Multiply 1179648 5111808 →
      FixedPoint_MultiplyU 1179648 5111808 = FixedPoint_Multiply 1179648 5111808) ∧
    ((1179648 : Int) ≤ 2147483647 → 0 < (5111808 : Int) → (5111808 : Int) ≤ 2147483647 →
      ∀ q, FixedPoint_Divide 1179648 5111808 = some q → 0 ≤ q →
        FixedPoint_DivideU 1179648 5111808 = some q)) :=
  ⟨by decide, by decide, by decide, FixedPoint_unsigned_variants 1179648 5111808 (by decide)⟩

/-- C28 (counterexample). The second multiplicand with the 32-bit pattern `0xFFFFFFFF` is
the `int32_t` value -1, and its unsigned value is 4294967295.  `FixedPoint_MultiplyU(1, -1)`
is 4294967295, whereas the product with the unsigned value, `floor(1 * 4294967295 / 2^16)
mod 2^32`, is 65535. -/
theorem FixedPoint_MultiplyU_sign_extension_counterexample :
    wrap32 4294967295 = -1 ∧
    wrapU32 (-1) = 4294967295 ∧
    FixedPoint_MultiplyU 1 (-1) = 4294967295 ∧
    claimedMultiplyU 1 4294967295 = 65535 ∧
    FixedPoint_MultiplyU 1 (wrap32 4294967295) ≠ claimedMultiplyU 1 4294967295 := by
  decide

/-! ## Calc_FrequencyTracking: which crossings recompute the period -/

theorem crossing_step (st : FreqState) (x : Int) (hcap : st.firstSampleCaptured = true)
    (hflag : st.resetCounter = !st.startCounter) (hc : st.sampleOld < 0 ∧ x ≥ 0) :
    (Calc_FrequencyTracking st x).state.startCounter = true ∧
    (Calc_FrequencyTracking st x).state.resetCounter = false ∧
    (Calc_FrequencyTracking st x).state.pitSet.length
      = st.pitSet.length + (if st.startCounter = true then 1 else 0) := by
  obtain ⟨fsc, sc, rc, cnt, so, osp, zc, fzc, szc, f10, pit⟩ := st
  simp only at hcap hflag hc
  subst hcap hflag
  cases sc <;>
    simp only [Calc_FrequencyTracking, trackSample, countSample,
      onRisingEdge, recomputePeriod, hc, if_true, if_false, Bool.not_true, Bool.not_false,
      Bool.false_eq_true, and_self, and_true, true_and] <;>
    (split_ifs <;> simp_all)

theorem no_crossing_step (st : FreqState) (x : Int) (hcap : st.firstSampleCaptured = true)
    (hflag : st.resetCounter = !st.startCounter) (hc : ¬ (st.sampleOld < 0 ∧ x ≥ 0)) :
    (Calc_FrequencyTracking st x).state.startCounter = st.startCounter ∧
    (Calc_FrequencyTracking st x).state.resetCounter = st.resetCounter ∧
    (Calc_FrequencyTracking st x).state.pitSet = st.pitSet ∧
    (Calc_FrequencyTracking st x).state.FrequencyTimes10 = st.FrequencyTimes10 := by
  obtain ⟨fsc, sc, rc, cnt, so, osp, zc, fzc, szc, f10, pit⟩ := st
  simp only at hcap hflag hc
  subst hcap hflag
  cases sc <;>
    simp only [Calc_FrequencyTracking, trackSample, countSample,
      onRisingEdge, recomputePeriod, hc, if_true, if_false, Bool.not_true, Bool.not_false,
      Bool.false_eq_true, and_self, and_true, true_and] <;>
    (split_ifs <;> simp_all)

theorem recompute_count (xs : List Int) (st : FreqState)
    (hcap : st.firstSampleCaptured = true) (hflag : st.resetCounter = !st.startCounter) :
    (trackFrom st xs).firstSampleCaptured = true ∧
    (trackFrom st xs).resetCounter = !(trackFrom st xs).startCounter ∧
    ((trackFrom st xs).startCounter = true
      ↔ st.startCounter = true ∨ 1 ≤ crossingsAfter st.sampleOld xs) ∧
    (trackFrom st xs).pitSet.length
      = st.pitSet.length
        + (if st.startCounter = true then crossingsAfter st.sampleOld xs
            else crossingsAfter st.sampleOld xs - 1) := by
  induction xs generalizing st with
  | nil =>
    refine ⟨hcap, hflag, ?_, ?_⟩
    · simp [trackFrom, crossingsAfter]
    · simp [trackFrom, crossingsAfter]
  | cons x xs ih =>
    obtain ⟨c1, c2⟩ := step_captured st x
    rw [trackFrom_cons]
    by_cases hc : st.sampleOld < 0 ∧ x ≥ 0
    · obtain ⟨s1, s2, s3⟩ := crossing_step st x hcap hflag hc
      obtain ⟨i1, i2, i3, i4⟩ := ih (Calc_FrequencyTracking st x).state c1 (by rw [s1, s2]; rfl)
      refine ⟨i1, i2, ?_, ?_⟩
      · rw [i3]
        simp only [crossingsAfter, hc, and_self, if_true, s1, true_or, true_iff]
        right
        omega
      · rw [i4, s3, c2]
        simp only [crossingsAfter, hc, and_self, if_true, s1]
        split_ifs <;> omega
    · obtain ⟨s1, s2, s3, _⟩ := no_crossing_step st x hcap hflag hc
      obtain ⟨i1, i2, i3, i4⟩ := ih (Calc_FrequencyTracking st x).state c1
        (by rw [s1, s2]; exact hflag)
      refine ⟨i1, i2, ?_, ?_⟩
      · rw [i3, s1, c2]
        simp only [crossingsAfter, hc, if_false, zero_add]
      · rw [i4, s3, s1, c2]
        simp only [crossingsAfter, hc, if_false, zero_add]

theorem recompute_count_init (xs : List Int) :
    (trackFrom FreqState.init xs).resetCounter = !(trackFrom FreqState.init xs).startCounter ∧
    ((trackFrom FreqState.init xs).startCounter = true ↔ 1 ≤ risingCrossings xs) ∧
    (trackFrom FreqState.init xs).pitSet.length = risingCrossings xs - 1 := by
  cases xs with
  | nil => exact ⟨rfl, by simp [trackFrom, FreqState.init, risingCrossings], rfl⟩
  | cons x xs =>
    rw [trackFrom_cons]
    obtain ⟨c1, c2⟩ := step_captured FreqState.init x
    have hs : (Calc_FrequencyTracking FreqState.init x).state.startCounter = false := rfl
    have hr : (Calc_FrequencyTracking FreqState.init x).state.resetCounter = true := rfl
    have hp : (Calc_FrequencyTracking FreqState.init x).state.pitSet = [] := rfl
    obtain ⟨_, i2, i3, i4⟩ := recompute_count xs (Calc_FrequencyTracking FreqState.init x).state
      c1 (by rw [hs, hr]; rfl)
    rw [hs, c2] at i3
    rw [hs, c2, hp] at i4
    refine ⟨i2, ?_, ?_⟩
    · rw [i3]
      simp [risingCrossings]
    · rw [i4]
      simp [risingCrossings]

/-- C29 (amended). In `Calc_FrequencyTracking` the flag `resetCounter` is toggled at every
rising crossing and cleared again by the recomputation it triggers: the first crossing
only clears it, and every later crossing sets it, recomputes the period and clears it.
After any run of samples from power-up the number of recomputations (calls of `PIT_Set`)
is the number of rising crossings less one, the flag is set exactly while no crossing has
occurred, and a call on a rising crossing recomputes the period exactly when an earlier
crossing has occurred: the period is recomputed on the 2nd, 3rd, 4th, ... crossing. -/
theorem Calc_FrequencyTracking_recomputes_from_second_crossing (prev : List Int)
    (sample : Int) :
    (trackFrom FreqState.init prev).pitSet.length = risingCrossings prev - 1 ∧
    ((trackFrom FreqState.init prev).resetCounter = true ↔ risingCrossings prev = 0) ∧
    (∀ previous, prev.getLast? = some previous → previous < 0 ∧ sample ≥ 0 →
      ((Calc_FrequencyTracking (trackFrom FreqState.init prev) sample).state.pitSet.length
          = (trackFrom FreqState.init prev).pitSet.length + 1
        ↔ 1 ≤ risingCrossings prev) ∧
      ((Calc_FrequencyTracking (trackFrom FreqState.init prev) sample).state.pitSet.length
          = (trackFrom FreqState.init prev).pitSet.length
        ↔ risingCrossings prev = 0)) := by
  obtain ⟨h1, h2, h3⟩ := recompute_count_init prev
  refine ⟨h3, ?_, ?_⟩
  · rw [h1]
    cases hs : (trackFrom FreqState.init prev).startCounter with
    | true =>
      have := h2.mp hs
      simp only [Bool.not_true, Bool.false_eq_true, false_iff]
      omega
    | false =>
      have : ¬ (1 ≤ risingCrossings prev) := fun h => by
        have := h2.mpr h
        rw [hs] at this
        exact Bool.false_ne_true this
      simp only [Bool.not_false, true_iff]
      omega
  · intro previous hlast hc
    obtain ⟨hcap, hold⟩ := trackFrom_last FreqState.init prev previous hlast
    obtain ⟨_, _, s3⟩ := crossing_step (trackFrom FreqState.init prev) sample hcap h1
      (by rw [hold]; exact hc)
    rw [s3]
    by_cases hs : (trackFrom FreqState.init prev).startCounter = true
    · have := h2.mp hs
      rw [if_pos hs]
      omega
    · have : ¬ (1 ≤ risingCrossings prev) := fun h => hs (h2.mpr h)
      rw [if_neg hs]
      omega

/-- C29 (counterexample). The run `-1, 1, -1, 1, -1` (in Q16) holds two rising crossings
and one recomputation has been made; the next sample `1` is the third rising crossing, and
the call on it recomputes the period again (two calls of `PIT_Set` in all), where the
claim has no recomputation on the third crossing. -/
theorem Calc_FrequencyTracking_third_crossing_counterexample :
    risingCrossings [-65536, 65536, -65536, 65536, -65536] = 2 ∧
    (trackFrom FreqState.init [-65536, 65536, -65536, 65536, -65536]).pitSet.length = 1 ∧
    (Calc_FrequencyTracking
      (trackFrom FreqState.init [-65536, 65536, -65536, 65536, -65536]) 65536).risingEdgeDetected
        = true ∧
    (Calc_FrequencyTracking
      (trackFrom FreqState.init [-65536, 65536, -65536, 65536, -65536]) 65536).state.pitSet.length
        = 2 := by
  decide

/-! ## Calc_FrequencyTracking: crossings sixteen samples apart -/

/-- C26. For every pair of `int16` ADC codes, each `FixedPoint_Divide` and
`FixedPoint_Multiply` on the per-sample path returns the exact value, which fits in
`int32_t`: the ADC ratio and the volts of `Calc_ConvertADCtoVolts`, the scalings by 100
(voltage channel) and by 1 (current channel), the instantaneous power, the division by 10
and the squaring in `Calc_Vrms`, and the multiplication by 10 and the squaring in
`Calc_Irms`. -/
theorem per_sample_path_fits (cv ci : Int) (hv : -32768 ≤ cv ∧ cv ≤ 32767)
    (hi : -32768 ≤ ci ∧ ci ≤ 32767) :
    ∃ V I : Int, instVoltage cv = some V ∧ instCurrent ci = some I ∧
      (FixedPoint_Divide (FixedPoint_Convert32Q16 cv) MAX_ADC_OUTPUT_32Q16
          = some (Int.tdiv (65536 * cv) 32767) ∧
        InInt32 (Int.tdiv (65536 * cv) 32767)) ∧
      (FixedPoint_Divide (FixedPoint_Convert32Q16 ci) MAX_ADC_OUTPUT_32Q16
          = some (Int.tdiv (65536 * ci) 32767) ∧
        InInt32 (Int.tdiv (65536 * ci) 32767)) ∧
      (FixedPoint_Multiply ADC_VOLTAGE_RANGE_32Q16 (Int.tdiv (65536 * cv) 32767)
          = 10 * Int.tdiv (65536 * cv) 32767 ∧
        InInt32 (10 * Int.tdiv (65536 * cv) 32767)) ∧
      (FixedPoint_Multiply ADC_VOLTAGE_RANGE_32Q16 (Int.tdiv (65536 * ci) 32767)
          = 10 * Int.tdiv (65536 * ci) 32767 ∧
        InInt32 (10 * Int.tdiv (65536 * ci) 32767)) ∧
      (FixedPoint_Multiply (10 * Int.tdiv (65536 * cv) 32767) VOLTAGE_RAW_ADC_RATIO_32Q16 = V ∧
        V = 100 * (10 * Int.tdiv (65536 * cv) 32767) ∧ InInt32 V) ∧
      (FixedPoint_Multiply (10 * Int.tdiv (65536 * ci) 32767) CURRENT_RAW_ADC_RATIO_32Q16 = I ∧
        I = 10 * Int.tdiv (65536 * ci) 32767 ∧ InInt32 I) ∧
      (FixedPoint_Multiply V I = V * I / 65536 ∧ InInt32 (V * I / 65536)) ∧
      (FixedPoint_Divide V 655360 = some (Int.tdiv V 10) ∧ InInt32 (Int.tdiv V 10)) ∧
      (FixedPoint_Multiply (Int.tdiv V 10) (Int.tdiv V 10)
          = Int.tdiv V 10 * Int.tdiv V 10 / 65536 ∧
        InInt32 (Int.tdiv V 10 * Int.tdiv V 10 / 65536)) ∧
      (FixedPoint_Multiply I 655360 = 10 * I ∧ InInt32 (10 * I)) ∧
      (FixedPoint_Multiply (10 * I) (10 * I) = 10 * I * (10 * I) / 65536 ∧
        InInt32 (10 * I * (10 * I) / 65536)) := by
  have bv := adc_ratio_bounds cv hv
  have bi := adc_ratio_bounds ci hi
  have rv := rawToVolts_bounds cv hv
  have ri := rawToVolts_bounds ci hi
  have eV := instVoltage_value cv hv
  have eI := instCurrent_value ci hi
  have er : ADC_VOLTAGE_RANGE_32Q16 = 10 * 65536 := by decide
  have ev : VOLTAGE_RAW_ADC_RATIO_32Q16 = 100 * 65536 := by decide
  have ei : CURRENT_RAW_ADC_RATIO_32Q16 = 1 * 65536 := by decide
  have dv := adc_ratio_value cv hv
  have di := adc_ratio_value ci hi
  unfold rawToVolts at rv ri eV eI
  generalize Int.tdiv (65536 * cv) 32767 = a at bv rv eV dv ⊢
  generalize Int.tdiv (65536 * ci) 32767 = b at bi ri eI di ⊢
  have hV32 : InInt32 (100 * (10 * a)) := ⟨by omega, by omega⟩
  have hI32 : InInt32 (10 * b) := ⟨by omega, by omega⟩
  have hd := tdiv_ten_bounds (100 * (10 * a)) 65538000 ⟨by omega, by omega⟩
  refine ⟨100 * (10 * a), 10 * b, eV, eI, ?_, ?_, ?_, ?_, ?_, ?_, ?_, ?_, ?_, ?_, ?_⟩
  · exact ⟨dv, ⟨by omega, by omega⟩⟩
  · exact ⟨di, ⟨by omega, by omega⟩⟩
  · rw [er]
    exact ⟨(multiply_whole 10 a (by norm_num) ⟨by omega, by omega⟩ ⟨by omega, by omega⟩).2,
      ⟨by omega, by omega⟩⟩
  · rw [er]
    exact ⟨(multiply_whole 10 b (by norm_num) ⟨by omega, by omega⟩ ⟨by omega, by omega⟩).2,
      ⟨by omega, by omega⟩⟩
  · rw [ev]
    exact ⟨(multiply_whole 100 (10 * a) (by norm_num) ⟨by omega, by omega⟩ hV32).1, rfl, hV32⟩
  · rw [ei]
    refine ⟨?_, rfl, hI32⟩
    rw [(multiply_whole 1 (10 * b) (by norm_num) hI32 ⟨by omega, by omega⟩).1, one_mul]
  · exact multiply_exact (100 * (10 * a)) (10 * b) 65538000 655380 ⟨by omega, by omega⟩
      ⟨by omega, by omega⟩ (by norm_num) (by norm_num) (by norm_num)
  · exact ⟨divide_by_ten _ hV32, ⟨by omega, by omega⟩⟩
  · exact multiply_exact _ _ 6553800 6553800 ⟨by omega, by omega⟩ ⟨by omega, by omega⟩
      (by norm_num) (by norm_num) (by norm_num)
  · have h := (multiply_whole 10 (10 * b) (by norm_num) hI32 ⟨by omega, by omega⟩).1
    norm_num at h ⊢
    exact ⟨h, ⟨by omega, by omega⟩⟩
  · exact multiply_exact _ _ 6553800 6553800 ⟨by omega, by omega⟩ ⟨by omega, by omega⟩
      (by norm_num) (by norm_num) (by norm_num)

theorem per_sample_path_fits_witness :
    ((-32768 : Int) ≤ -32768 ∧ (-32768 : Int) ≤ 32767) ∧
    ((-32768 : Int) ≤ -32768 ∧ (-32768 : Int) ≤ 32767) ∧
    instVoltage (-32768) = some (-65538000) ∧
    instCurrent (-32768) = some (-655380) ∧
    FixedPoint_Multiply (-65538000) (-655380) = 655400000 ∧
    squaredScaledVolts (-65538000) = 655400000 ∧
    squaredScaledCurrent (-655380) = 655400000 ∧
    ∃ V I : Int, instVoltage (-32768) = some V ∧ instCurrent (-32768) = some I ∧
      (FixedPoint_Divide (FixedPoint_Convert32Q16 (-32768)) MAX_ADC_OUTPUT_32Q16
          = some (Int.tdiv (65536 * (-32768)) 32767) ∧
        InInt32 (Int.tdiv (65536 * (-32768)) 32767)) ∧
      (FixedPoint_Divide (FixedPoint_Convert32Q16 (-32768)) MAX_ADC_OUTPUT_32Q16
          = some (Int.tdiv (65536 * (-32768)) 32767) ∧
        InInt32 (Int.tdiv (65536 * (-32768)) 32767)) ∧
      (FixedPoint_Multiply ADC_VOLTAGE_RANGE_32Q16 (Int.tdiv (65536 * (-32768)) 32767)
          = 10 * Int.tdiv (65536 * (-32768)) 32767 ∧
        InInt32 (10 * Int.tdiv (65536 * (-32768)) 32767)) ∧
      (FixedPoint_Multiply ADC_VOLTAGE_RANGE_32Q16 (Int.tdiv (65536 * (-32768)) 32767)
          = 10 * Int.tdiv (65536 * (-32768)) 32767 ∧
        InInt32 (10 * Int.tdiv (65536 * (-32768)) 32767)) ∧
      (FixedPoint_Multiply (10 * Int.tdiv (65536 * (-32768)) 32767)
          VOLTAGE_RAW_ADC_RATIO_32Q16 = V ∧
        V = 100 * (10 * Int.tdiv (65536 * (-32768)) 32767) ∧ InInt32 V) ∧
      (FixedPoint_Multiply (10 * Int.tdiv (65536 * (-32768)) 32767)
          CURRENT_RAW_ADC_RATIO_32Q16 = I ∧
        I = 10 * Int.tdiv (65536 * (-32768)) 32767 ∧ InInt32 I) ∧
      (FixedPoint_Multiply V I = V * I / 65536 ∧ InInt32 (V * I / 65536)) ∧
      (FixedPoint_Divide V 655360 = some (Int.tdiv V 10) ∧ InInt32 (Int.tdiv V 10)) ∧
      (FixedPoint_Multiply (Int.tdiv V 10) (Int.tdiv V 10)
          = Int.tdiv V 10 * Int.tdiv V 10 / 65536 ∧
        InInt32 (Int.tdiv V 10 * Int.tdiv V 10 / 65536)) ∧
      (FixedPoint_Multiply I 655360 = 10 * I ∧ InInt32 (10 * I)) ∧
      (FixedPoint_Multiply (10 * I) (10 * I) = 10 * I * (10 * I) / 65536 ∧
        InInt32 (10 * I * (10 * I) / 65536)) :=
  ⟨by decide, by decide, by decide, by decide, by decide, by decide, by decide,
    per_sample_path_fits (-32768) (-32768) (by decide) (by decide)⟩

/-! ## The sample window: reads return what was written -/

theorem incrementAndWrap_mod (n : Int) :
    incrementAndWrap (n % 16) = (n + 1) % 16 := by
  unfold incrementAndWrap wrapU8
  simp only
  split_ifs <;> omega

theorem WindowInv_init : WindowInv SampleWindow.init [] 0 := by
  refine ⟨rfl, rfl, rfl, le_refl _, by simp, ?_⟩
  intro j _ hj
  simp at hj

theorem WindowInv_produce (w : SampleWindow) (written : List (Int × Int)) (read : Nat)
    (v c : Int) (hinv : WindowInv w written read)
    (hroom : (written.length : Int) - (read : Int) + 1 ≤ 16) :
    WindowInv
      { w with
        Voltage_ADC := Function.update w.Voltage_ADC w.NbSamples v
        Current_ADC := Function.update w.Current_ADC w.NbSamples c
        NbSamples := incrementAndWrap w.NbSamples
        AnalogGetSemaphore := w.AnalogGetSemaphore + 1 }
      (written ++ [(v, c)]) read := by
  obtain ⟨h1, h2, h3, h4, h5, h6⟩ := hinv
  refine ⟨?_, h2, ?_, ?_, ?_, ?_⟩
  · show incrementAndWrap w.NbSamples = _
    rw [h1, incrementAndWrap_mod _]
    simp
  · show w.AnalogGetSemaphore + 1 = _
    rw [h3]
    simp
    ring
  · simp
    omega
  · simp
    omega
  · intro j hj1 hj2
    simp only [List.length_append, List.length_singleton] at hj2
    show _ = some (Function.update w.Voltage_ADC w.NbSamples v ((j : Int) % 16),
      Function.update w.Current_ADC w.NbSamples c ((j : Int) % 16))
    rcases Nat.lt_or_ge j written.length with hlt | hge
    · have hne : ((j : Int) % 16) ≠ w.NbSamples := by
        rw [h1]
        omega
      rw [List.getElem?_append_left hlt, Function.update_noteq hne, Function.update_noteq hne]
      exact h6 j hj1 hlt
    · have hj : j = written.length := by omega
      subst hj
      rw [← h1, Function.update_same, Function.update_same]
      simp

theorem WindowInv_consume (w : SampleWindow) (written : List (Int × Int)) (read : Nat)
    (hinv : WindowInv w written read) (hsem : ¬ w.AnalogGetSemaphore ≤ 0) :
    WindowInv
      { w with
        AnalogGetSemaphore := w.AnalogGetSemaphore - 1
        sampleNb := incrementAndWrap w.sampleNb }
      written (read + 1) ∧
    written[read]? = some (w.Voltage_ADC w.sampleNb, w.Current_ADC w.sampleNb) := by
  obtain ⟨h1, h2, h3, h4, h5, h6⟩ := hinv
  have hlt : read < written.length := by omega
  refine ⟨⟨h1, ?_, ?_, by omega, by omega, ?_⟩, ?_⟩
  · show incrementAndWrap w.sampleNb = _
    rw [h2, incrementAndWrap_mod _]
    simp
  · show w.AnalogGetSemaphore - 1 = _
    rw [h3]
    simp
    ring
  · intro j hj1 hj2
    exact h6 j (by omega) hj2
  · rw [h2]
    exact h6 read (le_refl _) hlt

theorem runHandoff_inv (evs : List HandoffEvent) (w : SampleWindow)
    (written : List (Int × Int)) (read : Nat) (hinv : WindowInv w written read)
    (hwin : withinWindow ((written.length : Int) - (read : Int)) evs = true)
    (w2 : SampleWindow) (reads : List (Int × Int))
    (hrun : runHandoff w evs = some (w2, reads)) :
    WindowInv w2 (written ++ samplesWritten evs) (read + reads.length) ∧
    ∀ k, k < reads.length → reads[k]? = (written ++ samplesWritten evs)[read + k]? := by
  induction evs generalizing w written read reads with
  | nil =>
    simp only [runHandoff, Option.some.injEq, Prod.mk.injEq] at hrun
    obtain ⟨rfl, rfl⟩ := hrun
    simp only [samplesWritten, List.append_nil, List.length_nil, add_zero]
    exact ⟨hinv, fun k hk => absurd hk (Nat.not_lt_zero k)⟩
  | cons ev rest ih =>
    cases ev with
    | produce v c e =>
      simp only [withinWindow, Bool.and_eq_true, decide_eq_true_eq] at hwin
      obtain ⟨hroom, hwin2⟩ := hwin
      simp only [runHandoff, PITCallback, PE_DEBUGHALT] at hrun
      by_cases he : e = 0
      · simp only [he, ne_eq, not_true_eq_false, if_false, Option.some_bind] at hrun
        have hinv2 := WindowInv_produce w written read v c hinv hroom
        have hw : ((written ++ [(v, c)]).length : Int) - (read : Int)
            = (written.length : Int) - (read : Int) + 1 := by
          simp
          ring
        obtain ⟨i1, i2⟩ := ih _ (written ++ [(v, c)]) read hinv2 (by rw [hw]; exact hwin2)
          reads hrun
        have happ : written ++ [(v, c)] ++ samplesWritten rest
            = written ++ samplesWritten (HandoffEvent.produce v c e :: rest) := by
          simp [samplesWritten]
        rw [happ] at i1 i2
        exact ⟨i1, i2⟩
      · simp [he] at hrun
    | consume e =>
      simp only [withinWindow] at hwin
      simp only [runHandoff, takeSample, PE_DEBUGHALT] at hrun
      by_cases hsem : w.AnalogGetSemaphore ≤ 0
      · simp [hsem] at hrun
      · by_cases he : e = 0
        · simp only [hsem, he, ne_eq, not_true_eq_false, if_false, Option.some_bind,
            Option.map_eq_some', Prod.mk.injEq] at hrun
          obtain ⟨out, hout, rfl, rfl⟩ := hrun
          obtain ⟨hinv2, hread⟩ := WindowInv_consume w written read hinv hsem
          have hw : (written.length : Int) - ((read + 1 : Nat) : Int)
              = (written.length : Int) - (read : Int) - 1 := by
            simp
            ring
          obtain ⟨i1, i2⟩ := ih _ written (read + 1) hinv2 (by rw [hw]; exact hwin)
            out.2 hout
          have hlen : read + ((w.Voltage_ADC w.sampleNb, w.Current_ADC w.sampleNb)
              :: out.2).length = read + 1 + out.2.length := by
            simp
            omega
          have hsw : samplesWritten (HandoffEvent.consume e :: rest) = samplesWritten rest :=
            rfl
          rw [hlen, hsw]
          refine ⟨i1, ?_⟩
          intro k hk
          cases k with
          | zero =>
            have hlt : read < written.length := by
              have := hinv.2.2.1
              omega
            simp only [List.getElem?_cons_zero, add_zero]
            rw [List.getElem?_append_left hlt]
            exact hread.symm
          | succ k =>
            simp only [List.length_cons, Nat.add_lt_add_iff_right] at hk
            simp only [List.getElem?_cons_succ]
            rw [i2 k hk]
            congr 1
            omega
        · simp [hsem, he] at hrun

/-- C23. Take any interleaving of runs of `PITCallback` and iterations of the calculation
loop from start-up in which every step occurs without a halt (so the loop only takes a
sample after the semaphore has been signalled) and the producer is never more than 16
samples ahead.  Then both indices are in 0..15 and equal the number of samples written,
respectively read, modulo 16 (each step advances its index by one modulo 16), and the
k-th pair read by the loop is the k-th pair written by `PITCallback`. -/
theorem sample_window_handoff (evs : List HandoffEvent) (w : SampleWindow)
    (reads : List (Int × Int))
    (hrun : runHandoff SampleWindow.init evs = some (w, reads))
    (hwin : withinWindow 0 evs = true) :
    (0 ≤ w.NbSamples ∧ w.NbSamples ≤ 15) ∧
    (0 ≤ w.sampleNb ∧ w.sampleNb ≤ 15) ∧
    w.NbSamples = ((samplesWritten evs).length : Int) % 16 ∧
    w.sampleNb = (reads.length : Int) % 16 ∧
    (∀ n : Int, 0 ≤ n → n ≤ 15 → incrementAndWrap n = (n + 1) % 16) ∧
    reads.length ≤ (samplesWritten evs).length ∧
    (∀ k, k < reads.length → reads[k]? = (samplesWritten evs)[k]?) := by
  obtain ⟨⟨h1, h2, h3, h4, h5, h6⟩, hk⟩ := runHandoff_inv evs SampleWindow.init [] 0
    WindowInv_init (by simpa using hwin) w reads hrun
  simp only [List.nil_append, zero_add] at h1 h2 h4 hk
  refine ⟨by omega, by omega, h1, h2, ?_, h4, hk⟩
  intro n h0 h15
  have h := incrementAndWrap_mod n
  have e : n % 16 = n := by omega
  rw [e] at h
  exact h

/-- Two writes, one read, a third write and two reads: the loop reads the three pairs in
the order written and both indices end at 3. -/
theorem sample_window_handoff_witness :
    runHandoff SampleWindow.init
        [HandoffEvent.produce 11 21 0, HandoffEvent.produce 12 22 0, HandoffEvent.consume 0,
          HandoffEvent.produce 13 23 0, HandoffEvent.consume 0, HandoffEvent.consume 0]
      = some
          ({ Voltage_ADC :=
              Function.update (Function.update (Function.update (fun _ => 0) 0 11) 1 12) 2 13
             Current_ADC :=
              Function.update (Function.update (Function.update (fun _ => 0) 0 21) 1 22) 2 23
             NbSamples := 3
             sampleNb := 3
             AnalogGetSemaphore := 0 },
            [(11, 21), (12, 22), (13, 23)]) ∧
    withinWindow 0
        [HandoffEvent.produce 11 21 0, HandoffEvent.produce 12 22 0, HandoffEvent.consume 0,
          HandoffEvent.produce 13 23 0, HandoffEvent.consume 0, HandoffEvent.consume 0]
      = true ∧
    samplesWritten
        [HandoffEvent.produce 11 21 0, HandoffEvent.produce 12 22 0, HandoffEvent.consume 0,
          HandoffEvent.produce 13 23 0, HandoffEvent.consume 0, HandoffEvent.consume 0]
      = [(11, 21), (12, 22), (13, 23)] ∧
    ((0 ≤ (3 : Int) ∧ (3 : Int) ≤ 15) ∧
    (0 ≤ (3 : Int) ∧ (3 : Int) ≤ 15) ∧
    (3 : Int) = ((samplesWritten
        [HandoffEvent.produce 11 21 0, HandoffEvent.produce 12 22 0, HandoffEvent.consume 0,
          HandoffEvent.produce 13 23 0, HandoffEvent.consume 0,
          HandoffEvent.consume 0]).length : Int) % 16 ∧
    (3 : Int) = ((([(11, 21), (12, 22), (13, 23)] : List (Int × Int))).length : Int) % 16 ∧
    (∀ n : Int, 0 ≤ n → n ≤ 15 → incrementAndWrap n = (n + 1) % 16) ∧
    ([(11, 21), (12, 22), (13, 23)] : List (Int × Int)).length
      ≤ (samplesWritten
        [HandoffEvent.produce 11 21 0, HandoffEvent.produce 12 22 0, HandoffEvent.consume 0,
          HandoffEvent.produce 13 23 0, HandoffEvent.consume 0,
          HandoffEvent.consume 0]).length ∧
    (∀ k, k < ([(11, 21), (12, 22), (13, 23)] : List (Int × Int)).length →
      ([(11, 21), (12, 22), (13, 23)] : List (Int × Int))[k]?
        = (samplesWritten
          [HandoffEvent.produce 11 21 0, HandoffEvent.produce 12 22 0, HandoffEvent.consume 0,
            HandoffEvent.produce 13 23 0, HandoffEvent.consume 0,
            HandoffEvent.consume 0])[k]?)) :=
  ⟨rfl, rfl, rfl,
    sample_window_handoff
      [HandoffEvent.produce 11 21 0, HandoffEvent.produce 12 22 0, HandoffEvent.consume 0,
        HandoffEvent.produce 13 23 0, HandoffEvent.consume 0, HandoffEvent.consume 0]
      { Voltage_ADC :=
          Function.update (Function.update (Function.update (fun _ => 0) 0 11) 1 12) 2 13
        Current_ADC :=
          Function.update (Function.update (Function.update (fun _ => 0) 0 21) 1 22) 2 23
        NbSamples := 3
        sampleNb := 3
        AnalogGetSemaphore := 0 }
      [(11, 21), (12, 22), (13, 23)] rfl rfl⟩

/-! ## The calculation loop: iterations without a rising crossing -/

theorem flag_step (st : FreqState) (x : Int)
    (hflag : st.resetCounter = !st.startCounter) :
    (Calc_FrequencyTracking st x).state.resetCounter
      = !(Calc_FrequencyTracking st x).state.startCounter := by
  obtain ⟨fsc, sc, rc, cnt, so, osp, zc, fzc, szc, f10, pit⟩ := st
  simp only at hflag
  subst hflag
  by_cases hc : so < 0 ∧ x ≥ 0 <;> cases fsc <;> cases sc <;>
    simp only [Calc_FrequencyTracking, trackSample, countSample,
      onRisingEdge, recomputePeriod, hc, if_true, if_false, Bool.not_true, Bool.not_false,
      Bool.false_eq_true, and_self, and_true, true_and] <;>
    (split_ifs <;> simp_all)

theorem no_edge_frequency (st : FreqState) (x : Int)
    (hflag : st.resetCounter = !st.startCounter)
    (hno : (Calc_FrequencyTracking st x).risingEdgeDetected = false) :
    (Calc_FrequencyTracking st x).state.FrequencyTimes10 = st.FrequencyTimes10 ∧
    (Calc_FrequencyTracking st x).state.pitSet = st.pitSet := by
  obtain ⟨fsc, sc, rc, cnt, so, osp, zc, fzc, szc, f10, pit⟩ := st
  simp only at hflag
  subst hflag
  by_cases hc : so < 0 ∧ x ≥ 0 <;> cases fsc <;> cases sc <;>
    simp only [Calc_FrequencyTracking, trackSample, countSample,
      onRisingEdge, recomputePeriod, hc, if_true, if_false, Bool.not_true, Bool.not_false,
      Bool.false_eq_true, and_self, and_true, true_and] at hno ⊢ <;>
    (split_ifs <;> simp_all)

theorem Calc_Vrms_estimate (st : VrmsState) (x : Int) (b : Bool) (r : VrmsState × Int)
    (h : Calc_Vrms st x b = some r) : r.2 = wrap32 r.1.oldVrms := by
  unfold Calc_Vrms at h
  simp only [Option.bind_eq_some, Option.map_eq_some'] at h
  obtain ⟨d, _, s, _, rfl⟩ := h
  rfl

theorem Calc_Irms_estimate (st : IrmsState) (x : Int) (b : Bool) (r : IrmsState × Int)
    (h : Calc_Irms st x b = some r) : r.2 = wrap32 r.1.oldIrms := by
  unfold Calc_Irms at h
  simp only [Option.map_eq_some'] at h
  obtain ⟨s, _, rfl⟩ := h
  rfl

theorem Calc_Vrms_frame (st : VrmsState) (x : Int) (r : VrmsState × Int)
    (h : Calc_Vrms st x false = some r) :
    r.1.Vrms = st.Vrms ∧ r.1.oldVrms = st.oldVrms := by
  unfold Calc_Vrms at h
  simp only [Option.bind_eq_some, Option.map_eq_some', Bool.false_eq_true, if_false,
    Option.some.injEq] at h
  obtain ⟨d, _, s, rfl, rfl⟩ := h
  exact ⟨rfl, rfl⟩

theorem Calc_Irms_frame (st : IrmsState) (x : Int) (r : IrmsState × Int)
    (h : Calc_Irms st x false = some r) :
    r.1.Irms = st.Irms ∧ r.1.oldIrms = st.oldIrms := by
  rw [Calc_Irms_no_boundary] at h
  cases h
  exact ⟨rfl, rfl⟩

theorem Calc_AveragePower_frame (st : AvgPowerState) (p : Int) (r : AvgPowerState × Int)
    (h : Calc_AveragePower st p false = some r) : r.1.AveragePowerW = st.AveragePowerW := by
  rw [AveragePower_no_boundary] at h
  cases h
  rfl

theorem Calc_TotalEnergy_frame (st : EnergyState) (p T : Int) (test : Bool)
    (r : EnergyResult) (h : Calc_TotalEnergy st p T false test = some r) :
    r.state.TotalEnergykWh = st.TotalEnergykWh := by
  unfold Calc_TotalEnergy at h
  simp only [Bool.false_eq_true, if_false, Option.map_some', Option.some.injEq] at h
  subst h
  rfl

theorem Calc_PowerFactor_stable (V I A P Q : Int) (h : Calc_PowerFactor V I A P = some Q) :
    Calc_PowerFactor V I A Q = some Q := by
  obtain ⟨h1, h2⟩ := Calc_PowerFactor_cases V I A P
  obtain ⟨k1, k2⟩ := Calc_PowerFactor_cases V I A Q
  by_cases hz : FixedPoint_Multiply (wrap32 V) (wrap32 I) = 0
  · rw [h2 hz] at h
    cases h
    exact k2 hz
  · rw [h1 hz] at h
    rw [k1 hz]
    exact h

theorem iteration_parts (st : MeterState) (inp : LoopInputs) (r : LoopResult)
    (h : Calc_CalculationThread st inp = some r) :
    ∃ iv ic avg en cost v i pf,
      instVoltage (inp.Voltage_ADC st.sampleNb) = some iv ∧
      instCurrent (inp.Current_ADC st.sampleNb) = some ic ∧
      r.risingEdgeDetected = (Calc_FrequencyTracking st.freq iv).risingEdgeDetected ∧
      Calc_AveragePower st.power (FixedPoint_Multiply iv ic) r.risingEdgeDetected
        = some avg ∧
      Calc_TotalEnergy st.energy (FixedPoint_Multiply iv ic)
        (Calc_FrequencyTracking st.freq iv).samplePeriod r.risingEdgeDetected
        inp.TestModeEnabled = some en ∧
      (if r.risingEdgeDetected = true then
          en.energyPerCycleWs.bind fun e =>
            Calc_TotalCost st.cost inp.TariffChart inp.NvTariffMode inp.time e
        else some st.cost) = some cost ∧
      Calc_Vrms st.vrms iv r.risingEdgeDetected = some v ∧
      Calc_Irms st.irms ic r.risingEdgeDetected = some i ∧
      (if v.2 ≠ 0 ∧ i.2 ≠ 0 then
          Calc_PowerFactor v.1.Vrms i.1.Irms avg.1.AveragePowerW st.PowerFactor
        else some st.PowerFactor) = some pf ∧
      r.state =
        { freq := (Calc_FrequencyTracking st.freq iv).state
          power := avg.1
          energy := en.state
          cost := cost
          vrms := v.1
          irms := i.1
          PowerFactor := pf
          sampleNb := incrementAndWrap st.sampleNb } := by
  unfold Calc_CalculationThread at h
  by_cases he : inp.error = 0
  · simp only [he, ne_eq, not_true_eq_false, if_false, Option.bind_eq_some,
      Option.map_eq_some'] at h
    obtain ⟨iv, hiv, ic, hic, avg, havg, en, hen, cost, hcost, v, hv, i, hi, pf, hpf, rfl⟩ := h
    exact ⟨iv, ic, avg, en, cost, v, i, pf, hiv, hic, rfl, havg, hen, hcost, hv, hi, hpf, rfl⟩
  · simp [he, PE_DEBUGHALT] at h

theorem MeterInv_init : MeterInv MeterState.init :=
  ⟨rfl, fun _ => by decide⟩

theorem MeterInv_step (st : MeterState) (inp : LoopInputs) (r : LoopResult)
    (hinv : MeterInv st) (h : Calc_CalculationThread st inp = some r) : MeterInv r.state := by
  obtain ⟨iv, ic, avg, en, cost, v, i, pf, _, _, _, _, _, _, hv, hi, hpf, hst⟩ :=
    iteration_parts st inp r h
  rw [hst]
  refine ⟨flag_step st.freq iv hinv.1, ?_⟩
  intro hne
  simp only at hne ⊢
  rw [← Calc_Vrms_estimate _ _ _ _ hv, ← Calc_Irms_estimate _ _ _ _ hi] at hne
  rw [if_pos hne] at hpf
  exact Calc_PowerFactor_stable _ _ _ _ _ hpf

theorem MeterInv_runLoop (ins : List LoopInputs) (st s2 : MeterState) (hinv : MeterInv st)
    (h : runLoop st ins = some s2) : MeterInv s2 := by
  induction ins generalizing st with
  | nil =>
    simp only [runLoop, Option.some.injEq] at h
    subst h
    exact hinv
  | cons inp rest ih =>
    simp only [runLoop, Option.bind_eq_some] at h
    obtain ⟨r, hr, hrest⟩ := h
    exact ih r.state (MeterInv_step st inp r hinv hr) hrest

/-- C24. After any number of iterations of the calculation loop from start-up, an
iteration in which `Calc_FrequencyTracking` detects no rising crossing leaves all seven
running totals as they were: `AveragePowerW`, `TotalEnergykWh`, `TotalCostDollars`,
`FrequencyTimes10`, `Vrms`, `Irms` and `PowerFactor`. -/
theorem Calc_CalculationThread_no_crossing_frame (ins : List LoopInputs) (st : MeterState)
    (inp : LoopInputs) (r : LoopResult)
    (hreach : runLoop MeterState.init ins = some st)
    (hstep : Calc_CalculationThread st inp = some r)
    (hno : r.risingEdgeDetected = false) :
    r.state.power.AveragePowerW = st.power.AveragePowerW ∧
    r.state.energy.TotalEnergykWh = st.energy.TotalEnergykWh ∧
    r.state.cost.TotalCostDollars = st.cost.TotalCostDollars ∧
    r.state.freq.FrequencyTimes10 = st.freq.FrequencyTimes10 ∧
    r.state.vrms.Vrms = st.vrms.Vrms ∧
    r.state.irms.Irms = st.irms.Irms ∧
    r.state.PowerFactor = st.PowerFactor := by
  have hinv := MeterInv_runLoop ins MeterState.init st MeterInv_init hreach
  obtain ⟨iv, ic, avg, en, cost, v, i, pf, _, _, hflag, havg, hen, hcost, hv, hi, hpf, hst⟩ :=
    iteration_parts st inp r hstep
  rw [hno] at havg hen hcost hv hi
  have hf := no_edge_frequency st.freq iv hinv.1 (by rw [← hflag]; exact hno)
  have ha := Calc_AveragePower_frame _ _ _ havg
  have he := Calc_TotalEnergy_frame _ _ _ _ _ hen
  obtain ⟨v1, v2⟩ := Calc_Vrms_frame _ _ _ hv
  obtain ⟨i1, i2⟩ := Calc_Irms_frame _ _ _ hi
  simp only [Bool.false_eq_true, if_false, Option.some.injEq] at hcost
  have hp : pf = st.PowerFactor := by
    by_cases hc : v.2 ≠ 0 ∧ i.2 ≠ 0
    · rw [if_pos hc, v1, i1, ha] at hpf
      rw [Calc_Vrms_estimate _ _ _ _ hv, Calc_Irms_estimate _ _ _ _ hi, v2, i2] at hc
      rw [hinv.2 hc] at hpf
      cases hpf
      rfl
    · rw [if_neg hc] at hpf
      cases hpf
      rfl
  rw [hst]
  exact ⟨ha, he, by rw [← hcost], hf.1, v1, i1, hp⟩

set_option maxRecDepth 100000 in
/-- Four iterations from start-up on the voltage codes `-100, 100, -100, 100` (two rising
crossings) publish `FrequencyTimes10` = 3799, `AveragePowerW` = 610, `Vrms` = 199990,
`Irms` = 199 and `PowerFactor` = 65859; a fifth iteration on the code 200 detects no
crossing and leaves the seven totals as they are. -/
theorem Calc_CalculationThread_no_crossing_frame_witness :
    runLoop MeterState.init
        [⟨0, fun _ => -100, fun _ => 10, Calc_Init TariffChart_zero, 1, 72000, false⟩,
        ⟨0, fun _ => 100, fun _ => 10, Calc_Init TariffChart_zero, 1, 72000, false⟩,
        ⟨0, fun _ => -100, fun _ => -10, Calc_Init TariffChart_zero, 1, 72000, false⟩,
        ⟨0, fun _ => 100, fun _ => 10, Calc_Init TariffChart_zero, 1, 72000, false⟩]
      = some
      { freq := ⟨true, true, false, 1, 200000, 164492, 500, 500, 500, 3799, [(164492, true)]⟩
        power := ⟨1, 610, 610⟩
        energy := ⟨610, 5570560, 0⟩
        cost := ⟨34405, 0, 0⟩
        vrms := ⟨19999, 1, 6103, 199990⟩
        irms := ⟨1999, 1, 61, 199⟩
        PowerFactor := 65859
        sampleNb := 4 } ∧
    Calc_CalculationThread
      { freq := ⟨true, true, false, 1, 200000, 164492, 500, 500, 500, 3799, [(164492, true)]⟩
        power := ⟨1, 610, 610⟩
        energy := ⟨610, 5570560, 0⟩
        cost := ⟨34405, 0, 0⟩
        vrms := ⟨19999, 1, 6103, 199990⟩
        irms := ⟨1999, 1, 61, 199⟩
        PowerFactor := 65859
        sampleNb := 4 }
      ⟨0, fun _ => 200, fun _ => 20, Calc_Init TariffChart_zero, 1, 72000, false⟩
      = some
      { state :=
          { freq := ⟨true, true, false, 2, 400000, 164492, 500, 500, 500, 3799, [(164492, true)]⟩
            power := ⟨2, 3051, 610⟩
            energy := ⟨3051, 5570560, 0⟩
            cost := ⟨34405, 0, 0⟩
            vrms := ⟨19999, 2, 30517, 199990⟩
            irms := ⟨1999, 2, 305, 199⟩
            PowerFactor := 65859
            sampleNb := 5 }
        risingEdgeDetected := false } ∧
    ((610 : Int) = 610 ∧ (0 : Int) = 0 ∧ (0 : Int) = 0 ∧ (3799 : Int) = 3799 ∧
      (199990 : Int) = 199990 ∧ (199 : Int) = 199 ∧ (65859 : Int) = 65859) :=
  ⟨rfl, rfl,
    Calc_CalculationThread_no_crossing_frame
      [⟨0, fun _ => -100, fun _ => 10, Calc_Init TariffChart_zero, 1, 72000, false⟩,
        ⟨0, fun _ => 100, fun _ => 10, Calc_Init TariffChart_zero, 1, 72000, false⟩,
        ⟨0, fun _ => -100, fun _ => -10, Calc_Init TariffChart_zero, 1, 72000, false⟩,
        ⟨0, fun _ => 100, fun _ => 10, Calc_Init TariffChart_zero, 1, 72000, false⟩]
      { freq := ⟨true, true, false, 1, 200000, 164492, 500, 500, 500, 3799, [(164492, true)]⟩
        power := ⟨1, 610, 610⟩
        energy := ⟨610, 5570560, 0⟩
        cost := ⟨34405, 0, 0⟩
        vrms := ⟨19999, 1, 6103, 199990⟩
        irms := ⟨1999, 1, 61, 199⟩
        PowerFactor := 65859
        sampleNb := 4 }
      ⟨0, fun _ => 200, fun _ => 20, Calc_Init TariffChart_zero, 1, 72000, false⟩
      { state :=
          { freq := ⟨true, true, false, 2, 400000, 164492, 500, 500, 500, 3799, [(164492, true)]⟩
            power := ⟨2, 3051, 610⟩
            energy := ⟨3051, 5570560, 0⟩
            cost := ⟨34405, 0, 0⟩
            vrms := ⟨19999, 2, 30517, 199990⟩
            irms := ⟨1999, 2, 305, 199⟩
            PowerFactor := 65859
            sampleNb := 5 }
        risingEdgeDetected := false }
      (by rfl) (by rfl) (by rfl)⟩

/-! ## Calc_TotalEnergy: test mode and the truncated period -/

theorem cycleEnergy_range (S Ts : Int) :
    ∃ E, cycleEnergy S Ts false = some E ∧ 0 ≤ E ∧ E < 4294967296 := by
  have hne : (655360000 : Int) ≠ 0 := by norm_num
  simp only [cycleEnergy, FixedPoint_DivideU, hne, if_false, Option.map_some',
    Bool.false_eq_true]
  refine ⟨_, rfl, ?_⟩
  unfold FixedPoint_MultiplyU
  exact wrapU32_bounds _

theorem cycleEnergy_test (S Ts : Int) :
    cycleEnergy S Ts true
      = (cycleEnergy S Ts false).map fun E => FixedPoint_MultiplyU E 235929600 := by
  have hne : (655360000 : Int) ≠ 0 := by norm_num
  simp only [cycleEnergy, FixedPoint_DivideU, hne, if_false, Option.map_some',
    Bool.false_eq_true, if_true]

theorem multiplyU_3600 (E : Int) (h0 : 0 ≤ E) (h1 : E < 4294967296) :
    FixedPoint_MultiplyU E 235929600 = 3600 * E % 4294967296 := by
  rw [multiplyU_nonneg E 235929600 ⟨h0, by omega⟩ ⟨by norm_num, by norm_num⟩]
  unfold claimedMultiplyU
  norm_num only
  omega

/-- C31. With `TestModeEnabled` set, the cycle energy that `Calc_TotalEnergy` computes at
a boundary is 3600 times the value `E` computed for the same power sum and period with the
flag clear, reduced modulo 2^32, hence exactly `3600 * E` whenever that product fits in
32 bits; this is the value added to the carry accumulator and returned for billing. -/
theorem Calc_TotalEnergy_test_mode (st : EnergyState) (instPower samplePeriod : Int) :
    ∃ E, cycleEnergy st.summationInstPower samplePeriod false = some E ∧
      0 ≤ E ∧ E < 2 ^ 32 ∧
      cycleEnergy st.summationInstPower samplePeriod true = some (3600 * E % 2 ^ 32) ∧
      (3600 * E < 2 ^ 32 →
        cycleEnergy st.summationInstPower samplePeriod true = some (3600 * E) ∧
        Calc_TotalEnergy st instPower samplePeriod true true
          = (carryEnergy st (3600 * E)).map fun s =>
              { state := { s with summationInstPower := wrap32 (0 + instPower) }
                energyPerCycleWs := some (3600 * E) }) := by
  obtain ⟨E, hE, h0, h1⟩ := cycleEnergy_range st.summationInstPower samplePeriod
  have ht := cycleEnergy_test st.summationInstPower samplePeriod
  rw [hE, Option.map_some', multiplyU_3600 E h0 h1] at ht
  have e32 : ((2 : Int) ^ 32) = 4294967296 := by norm_num
  rw [e32]
  refine ⟨E, hE, h0, h1, ht, ?_⟩
  intro hfit
  have hm : 3600 * E % 4294967296 = 3600 * E := by omega
  rw [hm] at ht
  refine ⟨ht, ?_⟩
  unfold Calc_TotalEnergy
  rw [ht]
  simp only [if_true, Option.some_bind, Option.map_map]
  rfl

/-- C38. Two sampling periods with the same whole number of 100-microsecond units give the
same cycle energy for any power sum, and the same result of `Calc_TotalEnergy` from any
state: the energy depends on the period only through `samplePeriod / 100000`. -/
theorem Calc_TotalEnergy_period_units (st : EnergyState) (instPower Ts1 Ts2 : Int)
    (risingEdgeDetected TestModeEnabled : Bool) (h : Ts1 / 100000 = Ts2 / 100000) :
    cycleEnergy st.summationInstPower Ts1 TestModeEnabled
      = cycleEnergy st.summationInstPower Ts2 TestModeEnabled ∧
    Calc_TotalEnergy st instPower Ts1 risingEdgeDetected TestModeEnabled
      = Calc_TotalEnergy st instPower Ts2 risingEdgeDetected TestModeEnabled := by
  have hc : ∀ S, cycleEnergy S Ts1 TestModeEnabled = cycleEnergy S Ts2 TestModeEnabled := by
    intro S
    unfold cycleEnergy
    simp only [h]
  refine ⟨hc _, ?_⟩
  unfold Calc_TotalEnergy
  rw [hc]

theorem Calc_TotalEnergy_period_units_witness :
    (1200000 : Int) / 100000 = 1299999 / 100000 ∧
    (cycleEnergy (EnergyState.mk 65536000 0 0).summationInstPower 1200000 false
      = cycleEnergy (EnergyState.mk 65536000 0 0).summationInstPower 1299999 false ∧
    Calc_TotalEnergy (EnergyState.mk 65536000 0 0) 65536 1200000 true false
      = Calc_TotalEnergy (EnergyState.mk 65536000 0 0) 65536 1299999 true false) :=
  ⟨by decide, Calc_TotalEnergy_period_units ⟨65536000, 0, 0⟩ 65536 1200000 1299999 true false
    (by decide)⟩

/-! ## Calc_FrequencyTracking: the interpolated crossing fraction -/

theorem fraction_arith (p x : Int) (hp0 : p < 0) (hx0 : 0 ≤ x) :
    0 ≤ x * 1000 / (x - p) ∧ x * 1000 / (x - p) ≤ 999 := by
  have hd : 0 < x - p := by omega
  refine ⟨Int.ediv_nonneg (by omega) (by omega), ?_⟩
  have hlt : x * 1000 / (x - p) < 1000 := by
    apply Int.ediv_lt_of_lt_mul hd
    nlinarith
  omega

theorem crossingFraction_value (p x : Int) (hp : -65538000 ≤ p) (hp0 : p < 0) (hx0 : 0 ≤ x)
    (hx : x ≤ 2147483) : crossingFraction p x = x * 1000 / (x - p) := by
  obtain ⟨f0, f1⟩ := fraction_arith p x hp0 hx0
  have e1 : wrap32 x = x := wrap32_of_inInt32 ⟨by omega, by omega⟩
  have e2 : wrap32 p = p := wrap32_of_inInt32 ⟨by omega, by omega⟩
  have e3 : wrap32 (x * 1000) = x * 1000 := wrap32_of_inInt32 ⟨by omega, by omega⟩
  have e4 : wrap32 (x - p) = x - p := wrap32_of_inInt32 ⟨by omega, by omega⟩
  unfold crossingFraction
  rw [e1, e2, e3, e4, Int.tdiv_eq_ediv (by omega) (by omega)]
  have e5 : wrap32 (x * 1000 / (x - p)) = x * 1000 / (x - p) :=
    wrap32_of_inInt32 ⟨by omega, by omega⟩
  rw [e5]
  unfold wrapU32
  omega

/-- C36. At a rising crossing (previous sample `p < 0 ≤ x`) with `p ≥ -65,538,000` and
`x ≤ 2,147,483`, the fraction stored by `Calc_FrequencyTracking` in `zeroCrossing` is
`x * 1000 / (x - p)` with no 32-bit wrap, it lies in [0, 999], and the exit value
`1000 - zeroCrossing` stored in `secondZeroCrossing` at a recomputation lies in
[1, 1000]. -/
theorem Calc_FrequencyTracking_fraction_range (st : FreqState) (x : Int)
    (hp : -65538000 ≤ st.sampleOld) (hp0 : st.sampleOld < 0) (hx0 : 0 ≤ x)
    (hx : x ≤ 2147483) :
    (onRisingEdge st x).zeroCrossing = x * 1000 / (x - st.sampleOld) ∧
    0 ≤ (onRisingEdge st x).zeroCrossing ∧ (onRisingEdge st x).zeroCrossing ≤ 999 ∧
    (recomputePeriod (onRisingEdge st x)).secondZeroCrossing
      = 1000 - x * 1000 / (x - st.sampleOld) ∧
    1 ≤ (recomputePeriod (onRisingEdge st x)).secondZeroCrossing ∧
    (recomputePeriod (onRisingEdge st x)).secondZeroCrossing ≤ 1000 := by
  obtain ⟨f0, f1⟩ := fraction_arith st.sampleOld x hp0 hx0
  have hv := crossingFraction_value st.sampleOld x hp hp0 hx0 hx
  have hz : (onRisingEdge st x).zeroCrossing = x * 1000 / (x - st.sampleOld) := hv
  have hs : (recomputePeriod (onRisingEdge st x)).secondZeroCrossing
      = wrapU32 (1000 - (onRisingEdge st x).zeroCrossing) := rfl
  rw [hs, hz]
  have hw : wrapU32 (1000 - x * 1000 / (x - st.sampleOld))
      = 1000 - x * 1000 / (x - st.sampleOld) := by
    unfold wrapU32
    omega
  rw [hw]
  omega

theorem Calc_FrequencyTracking_fraction_range_witness :
    (-65538000 : Int) ≤ ({ FreqState.init with sampleOld := -65536 } : FreqState).sampleOld ∧
    ({ FreqState.init with sampleOld := -65536 } : FreqState).sampleOld < 0 ∧
    (0 : Int) ≤ 196608 ∧ (196608 : Int) ≤ 2147483 ∧
    (onRisingEdge { FreqState.init with sampleOld := -65536 } 196608).zeroCrossing = 750 ∧
    (recomputePeriod
      (onRisingEdge { FreqState.init with sampleOld := -65536 } 196608)).secondZeroCrossing
        = 250 := by
  have h := Calc_FrequencyTracking_fraction_range
    { FreqState.init with sampleOld := -65536 } 196608 (by decide) (by decide) (by decide)
    (by decide)
  refine ⟨by decide, by decide, by decide, by decide, ?_, ?_⟩
  · rw [h.1]
    decide
  · rw [h.2.2.2.1]
    decide

/-! ## The divisors of the boundary evaluations -/

set_option maxRecDepth 100000 in
/-- C33 (fails). The stored previous-RMS estimate reaches zero and the next boundary halts.
A cycle of samples that are all zero has the mean square 0, for which the 15 passes from
the seed 1.0 return 2, and one pass returns 1 from 2 and 0 from 1: after a first sample and
three boundaries on zero samples `oldIrms` (and likewise `oldVrms`) is 0, and the fourth
boundary calls `FixedPoint_SquareRoot` with the initial guess 0, which halts in
`FixedPoint_Divide`.  In the calculation loop this happens with no load connected: with
the current code 0 and a square-wave voltage of 16 samples per cycle, the iterations up to
the 56th run, `oldIrms` is then 0, and the 57th iteration, the fourth boundary, halts. -/
theorem Calc_rms_seed_reaches_zero :
    FixedPoint_SquareRoot 0 65536 15 = some 2 ∧
    FixedPoint_SquareRoot 0 2 1 = some 1 ∧
    FixedPoint_SquareRoot 0 1 1 = some 0 ∧
    FixedPoint_SquareRoot 0 0 1 = none ∧
    Calc_Irms IrmsState.init 0 false = some (⟨65536, 1, 0, 0⟩, 65536) ∧
    Calc_Irms ⟨65536, 1, 0, 0⟩ 0 true = some (⟨2, 1, 0, 0⟩, 2) ∧
    Calc_Irms ⟨2, 1, 0, 0⟩ 0 true = some (⟨1, 1, 0, 0⟩, 1) ∧
    Calc_Irms ⟨1, 1, 0, 0⟩ 0 true = some (⟨0, 1, 0, 0⟩, 0) ∧
    Calc_Irms ⟨0, 1, 0, 0⟩ 0 true = none ∧
    Calc_Vrms VrmsState.init 0 false = some (⟨65536, 1, 0, 0⟩, 65536) ∧
    Calc_Vrms ⟨65536, 1, 0, 0⟩ 0 true = some (⟨2, 1, 0, 20⟩, 2) ∧
    Calc_Vrms ⟨2, 1, 0, 20⟩ 0 true = some (⟨1, 1, 0, 10⟩, 1) ∧
    Calc_Vrms ⟨1, 1, 0, 10⟩ 0 true = some (⟨0, 1, 0, 0⟩, 0) ∧
    Calc_Vrms ⟨0, 1, 0, 0⟩ 0 true = none ∧
    (runLoop MeterState.init
        (noLoadCycle ++ noLoadCycle ++ noLoadCycle
          ++ List.replicate 8 (noLoadInput (-1000)))).map
      (fun st => (st.irms.oldIrms, st.irms.sampleCount, st.freq.sampleOld))
      = some (0, 16, -2000000) ∧
    (runLoop MeterState.init
        (noLoadCycle ++ noLoadCycle ++ noLoadCycle
          ++ List.replicate 8 (noLoadInput (-1000)) ++ [noLoadInput 1000])).isNone
      = true := by
  refine ⟨by decide, by decide, by decide, by decide, by decide, by decide, by decide,
    by decide, by decide, by decide, by decide, by decide, by decide, by decide, ?_, ?_⟩
  · decide
  · decide

set_option maxRecDepth 100000 in
/-- C35 (fails). A voltage that changes sign at every sample, -1.0 V and 1.0 V in turn,
has a rising crossing every second sample; each recomputation then installs about one
eighth of the previous period.  From power-up the installed periods are 164492, 20562,
2570, 320, 40 and, with the 14th sample, 4 ns: below 10 ns, so that the divisor
`16 * (4 / 10)` of the frequency computation is zero.  With the 16th sample the installed
period is 0. -/
theorem Calc_FrequencyTracking_period_collapses :
    (trackFrom FreqState.init
      [-65536, 65536, -65536, 65536, -65536, 65536, -65536, 65536, -65536, 65536,
        -65536, 65536, -65536, 65536]).pitSet
      = [(4, true), (40, true), (320, true), (2570, true), (20562, true), (164492, true)] ∧
    (trackFrom FreqState.init
      [-65536, 65536, -65536, 65536, -65536, 65536, -65536, 65536, -65536, 65536,
        -65536, 65536, -65536, 65536]).oldSamplePeriod = 4 ∧
    wrapU32 (16 * ((4 : Int) / 10)) = 0 ∧
    (trackFrom FreqState.init
      [-65536, 65536, -65536, 65536, -65536, 65536, -65536, 65536, -65536, 65536,
        -65536, 65536, -65536, 65536, -65536, 65536]).pitSet.head? = some (0, true) ∧
    (trackFrom FreqState.init
      [-65536, 65536, -65536, 65536, -65536, 65536, -65536, 65536, -65536, 65536,
        -65536, 65536, -65536, 65536, -65536, 65536]).oldSamplePeriod = 0 := by
  refine ⟨by decide, by decide, by decide, by decide, by decide⟩

theorem count_of_length (n : Nat) (h2 : n ≤ 255) : wrapU8 (0 + (n : Int)) = (n : Int) := by
  unfold wrapU8
  omega

theorem count_after_boundary (m n : Nat) (h : m + 1 = n) (h2 : n ≤ 255) :
    wrapU8 (1 + (m : Int)) = (n : Int) := by
  unfold wrapU8
  omega

theorem power_count_divides (s : AvgPowerState) (n : Nat) (h1 : 1 ≤ n) (h2 : n ≤ 255)
    (hc : s.counter = (n : Int)) (hs : InInt32 s.sumInstPower) (q : Int) :
    ∃ r, Calc_AveragePower s q true = some r := by
  have hd := FixedPoint_Divide_by_count s.sumInstPower (n : Int) hs (by omega) (by omega)
  unfold Calc_AveragePower
  rw [hc, hd]
  exact ⟨_, rfl⟩

theorem count_divides (sum count : Int) (n : Nat) (h1 : 1 ≤ n) (h2 : n ≤ 255)
    (hc : count = (n : Int)) (hs : InInt32 sum) :
    wrap32 (count * 65536) = (n : Int) * 65536 ∧
    FixedPoint_Divide sum (wrap32 (count * 65536)) = some (Int.tdiv sum (n : Int)) := by
  have hw : wrap32 ((n : Int) * 65536) = (n : Int) * 65536 := by
    apply wrap32_of_inInt32
    unfold InInt32
    omega
  rw [hc, hw]
  exact ⟨rfl, divide_by_whole sum (n : Int) hs (by omega) (by omega)⟩

/-- C34. Let `n` samples, with `1 ≤ n ≤ 255`, be processed up to a boundary: either the
first `n` calls after power-up, or a boundary call followed by `n - 1` calls without
boundary.  Then the 8-bit sample count of `Calc_AveragePower`, `Calc_Vrms` and `Calc_Irms`
is `n`, the divisor `count << 16` is `n * 65536`, not zero, and the division by it at the
next boundary returns instead of halting.  The count is at least 1 at the first boundary
because the first call of `Calc_FrequencyTracking` never reports one. -/
theorem sample_count_divisor (n : Nat) (h1 : 1 ≤ n) (h2 : n ≤ 255) :
    (∀ x, (Calc_FrequencyTracking FreqState.init x).risingEdgeDetected = false) ∧
    (∀ ps : List Int, ps.length = n →
      ∃ s, accumulatePower AvgPowerState.init ps = some s ∧ s.counter = (n : Int) ∧
        wrap32 (wrap32 s.counter * 65536) = (n : Int) * 65536 ∧
        ∀ q, ∃ r, Calc_AveragePower s q true = some r) ∧
    (∀ (st s1 : AvgPowerState) (p0 a0 : Int) (ps : List Int),
      Calc_AveragePower st p0 true = some (s1, a0) → ps.length + 1 = n →
      ∃ s, accumulatePower s1 ps = some s ∧ s.counter = (n : Int) ∧
        wrap32 (wrap32 s.counter * 65536) = (n : Int) * 65536 ∧
        ∀ q, ∃ r, Calc_AveragePower s q true = some r) ∧
    (∀ vs : List Int, (∀ v ∈ vs, InInt32 v) → vs.length = n →
      ∃ s, accumulateVolts VrmsState.init vs = some s ∧ s.sampleCount = (n : Int) ∧
        wrap32 (s.sampleCount * 65536) = (n : Int) * 65536 ∧
        ∃ ratio, FixedPoint_Divide s.sumSquaredVolts (wrap32 (s.sampleCount * 65536))
          = some ratio) ∧
    (∀ (st s1 : VrmsState) (v0 r0 : Int) (vs : List Int), InInt32 v0 →
      (∀ v ∈ vs, InInt32 v) → Calc_Vrms st v0 true = some (s1, r0) → vs.length + 1 = n →
      ∃ s, accumulateVolts s1 vs = some s ∧ s.sampleCount = (n : Int) ∧
        wrap32 (s.sampleCount * 65536) = (n : Int) * 65536 ∧
        ∃ ratio, FixedPoint_Divide s.sumSquaredVolts (wrap32 (s.sampleCount * 65536))
          = some ratio) ∧
    (∀ cs : List Int, cs.length = n →
      ∃ s, accumulateCurrents IrmsState.init cs = some s ∧ s.sampleCount = (n : Int) ∧
        wrap32 (s.sampleCount * 65536) = (n : Int) * 65536 ∧
        ∃ ratio, FixedPoint_Divide s.sumSquaredCurrents (wrap32 (s.sampleCount * 65536))
          = some ratio) ∧
    (∀ (st s1 : IrmsState) (c0 r0 : Int) (cs : List Int),
      Calc_Irms st c0 true = some (s1, r0) → cs.length + 1 = n →
      ∃ s, accumulateCurrents s1 cs = some s ∧ s.sampleCount = (n : Int) ∧
        wrap32 (s.sampleCount * 65536) = (n : Int) * 65536 ∧
        ∃ ratio, FixedPoint_Divide s.sumSquaredCurrents (wrap32 (s.sampleCount * 65536))
          = some ratio) := by
  have hwn : wrap32 (wrap32 (n : Int) * 65536) = (n : Int) * 65536 := by
    have e : wrap32 (n : Int) = (n : Int) := wrap32_of_inInt32 ⟨by omega, by omega⟩
    rw [e]
    exact wrap32_of_inInt32 ⟨by omega, by omega⟩
  refine ⟨fun x => rfl, ?_, ?_, ?_, ?_, ?_, ?_⟩
  · intro ps hl
    obtain ⟨s, hs, hc, hsum, _⟩ := accumulatePower_spec ps AvgPowerState.init
      ⟨le_refl 0, by decide⟩ (by decide)
    have hcn : s.counter = (n : Int) := by
      rw [hc, hl]
      exact count_of_length n h2
    refine ⟨s, hs, hcn, by rw [hcn]; exact hwn, ?_⟩
    exact power_count_divides s n h1 h2 hcn (by rw [hsum]; exact wrap32_inInt32 _)
  · intro st s1 p0 a0 ps hstart hl
    obtain ⟨b1, b2⟩ := AveragePower_boundary_state st s1 p0 a0 hstart
    obtain ⟨s, hs, hc, hsum, _⟩ := accumulatePower_spec ps s1
      (by rw [b1]; exact ⟨by norm_num, by norm_num⟩) (by rw [b2]; exact wrap32_inInt32 _)
    have hcn : s.counter = (n : Int) := by
      rw [hc, b1]
      exact count_after_boundary ps.length n hl h2
    refine ⟨s, hs, hcn, by rw [hcn]; exact hwn, ?_⟩
    exact power_count_divides s n h1 h2 hcn (by rw [hsum]; exact wrap32_inInt32 _)
  · intro vs hv hl
    obtain ⟨s, hs, hc, hsum, _⟩ := accumulateVolts_spec vs VrmsState.init hv
      ⟨le_refl 0, by decide⟩ (by decide)
    have hcn : s.sampleCount = (n : Int) := by
      rw [hc, hl]
      exact count_of_length n h2
    obtain ⟨d1, d2⟩ := count_divides s.sumSquaredVolts s.sampleCount n h1 h2 hcn
      (by rw [hsum]; exact wrap32_inInt32 _)
    exact ⟨s, hs, hcn, d1, _, d2⟩
  · intro st s1 v0 r0 vs hv0 hv hstart hl
    obtain ⟨b1, b2⟩ := Calc_Vrms_boundary_state st s1 v0 r0 hv0 hstart
    obtain ⟨s, hs, hc, hsum, _⟩ := accumulateVolts_spec vs s1 hv
      (by rw [b1]; exact ⟨by norm_num, by norm_num⟩) (by rw [b2]; exact wrap32_inInt32 _)
    have hcn : s.sampleCount = (n : Int) := by
      rw [hc, b1]
      exact count_after_boundary vs.length n hl h2
    obtain ⟨d1, d2⟩ := count_divides s.sumSquaredVolts s.sampleCount n h1 h2 hcn
      (by rw [hsum]; exact wrap32_inInt32 _)
    exact ⟨s, hs, hcn, d1, _, d2⟩
  · intro cs hl
    obtain ⟨s, hs, hc, hsum, _⟩ := accumulateCurrents_spec cs IrmsState.init
      ⟨le_refl 0, by decide⟩ (by decide)
    have hcn : s.sampleCount = (n : Int) := by
      rw [hc, hl]
      exact count_of_length n h2
    obtain ⟨d1, d2⟩ := count_divides s.sumSquaredCurrents s.sampleCount n h1 h2 hcn
      (by rw [hsum]; exact wrap32_inInt32 _)
    exact ⟨s, hs, hcn, d1, _, d2⟩
  · intro st s1 c0 r0 cs hstart hl
    obtain ⟨b1, b2⟩ := Calc_Irms_boundary_state st s1 c0 r0 hstart
    obtain ⟨s, hs, hc, hsum, _⟩ := accumulateCurrents_spec cs s1
      (by rw [b1]; exact ⟨by norm_num, by norm_num⟩) (by rw [b2]; exact wrap32_inInt32 _)
    have hcn : s.sampleCount = (n : Int) := by
      rw [hc, b1]
      exact count_after_boundary cs.length n hl h2
    obtain ⟨d1, d2⟩ := count_divides s.sumSquaredCurrents s.sampleCount n h1 h2 hcn
      (by rw [hsum]; exact wrap32_inInt32 _)
    exact ⟨s, hs, hcn, d1, _, d2⟩

theorem sample_count_divisor_witness :
    1 ≤ (16 : Nat) ∧ (16 : Nat) ≤ 255 ∧
    ∃ s, accumulatePower AvgPowerState.init (List.replicate 16 65536) = some s ∧
      s.counter = ((16 : Nat) : Int) ∧
      wrap32 (wrap32 s.counter * 65536) = ((16 : Nat) : Int) * 65536 ∧
      ∀ q, ∃ r, Calc_AveragePower s q true = some r :=
  ⟨by decide, by decide,
    (sample_count_divisor 16 (by decide) (by decide)).2.1 (List.replicate 16 65536)
      (by decide)⟩

/-! ## The square root from a warm seed -/

/-- One pass of the loop body of `FixedPoint_SquareRoot` for any non-negative radicand
when nothing overflows: the new estimate is `(radicand * 2^16 / xN + xN) / 2`. -/
theorem sqrtLoop_pass_wide (ratio x : Int) (k : Nat) (hr0 : 0 ≤ ratio)
    (hr : ratio ≤ 2147483647) (hx0 : 0 < x) (hx : x ≤ 1073741824)
    (hq : ratio * 65536 / x ≤ 1073741823) :
    sqrtLoop ratio (k + 1) x = sqrtLoop ratio k ((ratio * 65536 / x + x) / 2) := by
  have hq0 : 0 ≤ ratio * 65536 / x := Int.ediv_nonneg (by omega) (le_of_lt hx0)
  have ht : Int.tdiv (ratio * 2 ^ 16) x = ratio * 65536 / x := by
    rw [Int.tdiv_eq_ediv (by omega) (le_of_lt hx0)]
    norm_num
  have hd : FixedPoint_Divide ratio x = some (ratio * 65536 / x) := by
    rw [← ht]
    apply divide_of_fits
    · unfold InInt32
      omega
    · unfold InInt32
      omega
    · omega
    · rw [ht]
      unfold InInt32
      omega
  rw [sqrtLoop, hd, Option.some_bind, halve_int32, wrap32_of_inInt32]
  unfold InInt32
  omega

/-- The arithmetic of one Newton step from an estimate within 1 of the integer square root
`s ≥ 5` of `N`, with `q` the truncated quotient `N / x`: the new estimate `(q + x) / 2` is
`s` or `s + 1`. -/
theorem warm_arith (N s x q : Int) (hs : 5 ≤ s) (hlo : s * s ≤ N)
    (hhi : N < (s + 1) * (s + 1)) (hx : x = s - 1 ∨ x = s ∨ x = s + 1)
    (hmul : q * x ≤ N) (hlt : N < (q + 1) * x) :
    s - 1 ≤ q ∧ q ≤ s + 3 ∧ ((q + x) / 2 = s ∨ (q + x) / 2 = s + 1) := by
  rcases hx with hx | hx | hx
  · subst hx
    have h1 : q ≤ s + 3 := by
      by_contra hc
      have h3 : s + 4 ≤ q := by omega
      have h4 : (s + 4) * (s - 1) ≤ q * (s - 1) :=
        mul_le_mul_of_nonneg_right h3 (by omega)
      nlinarith
    have h2 : s + 1 ≤ q := by
      by_contra hc
      have h3 : q + 1 ≤ s + 1 := by omega
      have h4 : (q + 1) * (s - 1) ≤ (s + 1) * (s - 1) :=
        mul_le_mul_of_nonneg_right h3 (by omega)
      nlinarith
    refine ⟨by omega, h1, ?_⟩
    omega
  · subst hx
    have h1 : q ≤ x + 2 := by
      by_contra hc
      have h3 : x + 3 ≤ q := by omega
      have h4 : (x + 3) * x ≤ q * x := mul_le_mul_of_nonneg_right h3 (by omega)
      nlinarith
    have h2 : x ≤ q := by
      by_contra hc
      have h3 : q + 1 ≤ x := by omega
      have h4 : (q + 1) * x ≤ x * x := mul_le_mul_of_nonneg_right h3 (by omega)
      nlinarith
    refine ⟨by omega, by omega, ?_⟩
    omega
  · subst hx
    have h1 : q ≤ s := by
      by_contra hc
      have h3 : s + 1 ≤ q := by omega
      have h4 : (s + 1) * (s + 1) ≤ q * (s + 1) :=
        mul_le_mul_of_nonneg_right h3 (by omega)
      nlinarith
    have h2 : s - 1 ≤ q := by
      by_contra hc
      have h3 : q + 1 ≤ s - 1 := by omega
      have h4 : (q + 1) * (s + 1) ≤ (s - 1) * (s + 1) :=
        mul_le_mul_of_nonneg_right h3 (by omega)
      nlinarith
    refine ⟨h2, by omega, ?_⟩
    omega

/-- The integer square root `s` of `r * 2^16` for a radicand `2^16 ≤ r < 2^31` lies between
65536 and 11863283. -/
theorem warm_root_bounds (r s : Int) (hr : 65536 ≤ r) (hr2 : r < 2147483648) (hs0 : 0 ≤ s)
    (hlo : s * s ≤ r * 65536) (hhi : r * 65536 < (s + 1) * (s + 1)) :
    65536 ≤ s ∧ s ≤ 11863283 := by
  constructor
  · by_contra hc
    have h1 : s + 1 ≤ 65536 := by omega
    have h2 : (s + 1) * (s + 1) ≤ 65536 * 65536 := mul_le_mul h1 h1 (by omega) (by norm_num)
    omega
  · by_contra hc
    have h1 : 11863284 ≤ s := by omega
    have h2 : 11863284 * 11863284 ≤ s * s := mul_le_mul h1 h1 (by norm_num) hs0
    omega

/-- One pass from an estimate within 1 of the integer square root returns the root or the
root plus 1. -/
theorem warm_pass (r s x : Int) (k : Nat) (hr : 65536 ≤ r) (hr2 : r < 2147483648)
    (hs0 : 0 ≤ s) (hlo : s * s ≤ r * 65536) (hhi : r * 65536 < (s + 1) * (s + 1))
    (hx : x = s - 1 ∨ x = s ∨ x = s + 1) :
    ∃ y, sqrtLoop r (k + 1) x = sqrtLoop r k y ∧ (y = s ∨ y = s + 1) := by
  obtain ⟨b1, b2⟩ := warm_root_bounds r s hr hr2 hs0 hlo hhi
  have hx0 : 0 < x := by omega
  have hmul : r * 65536 / x * x ≤ r * 65536 := Int.ediv_mul_le _ (by omega)
  have hlt : r * 65536 < (r * 65536 / x + 1) * x := by
    have := Int.lt_ediv_add_one_mul_self (r * 65536) hx0
    linarith
  obtain ⟨q1, q2, hy⟩ :=
    warm_arith (r * 65536) s x (r * 65536 / x) (by omega) hlo hhi hx hmul hlt
  exact ⟨_, sqrtLoop_pass_wide r x k (by omega) (by omega) hx0 (by omega) (by omega), hy⟩

theorem warm_passes (r s : Int) (hr : 65536 ≤ r) (hr2 : r < 2147483648)
    (hs0 : 0 ≤ s) (hlo : s * s ≤ r * 65536) (hhi : r * 65536 < (s + 1) * (s + 1)) (n : Nat) :
    ∀ x, (x = s - 1 ∨ x = s ∨ x = s + 1) →
      ∃ y, sqrtLoop r (n + 1) x = some y ∧ (y = s ∨ y = s + 1) := by
  induction n with
  | zero =>
    intro x hx
    obtain ⟨y, h1, h2⟩ := warm_pass r s x 0 hr hr2 hs0 hlo hhi hx
    exact ⟨y, by rw [h1]; rfl, h2⟩
  | succ k ih =>
    intro x hx
    obtain ⟨y, h1, h2⟩ := warm_pass r s x (k + 1) hr hr2 hs0 hlo hhi hx
    obtain ⟨z, h3, h4⟩ := ih y (by omega)
    exact ⟨z, by rw [h1, h3], h4⟩

/-- C39. For a Q16 radicand `r` with `2^16 ≤ r < 2^31`, `s` the integer square root of
`r * 2^16` (`s^2 ≤ r * 2^16 < (s + 1)^2`) and an estimate `x` with `|x - s| ≤ 1`,
`FixedPoint_SquareRoot(r, x, 1)` returns `s` or `s + 1`, and so does any larger number of
iterations.  Hence a boundary call of `Calc_Vrms` or `Calc_Irms` whose stored estimate is
`x` and whose mean square is `r` does not halt and stores and returns `s` or `s + 1`: an
estimate within 1 LSB of the root stays within 1 LSB while the mean square is the same. -/
theorem FixedPoint_SquareRoot_warm_start (r s x : Int) (hr : 2 ^ 16 ≤ r) (hr2 : r < 2 ^ 31)
    (hs0 : 0 ≤ s) (hlo : s ^ 2 ≤ r * 2 ^ 16) (hhi : r * 2 ^ 16 < (s + 1) ^ 2)
    (hx : |x - s| ≤ 1) :
    (∃ y, FixedPoint_SquareRoot r x 1 = some y ∧ (y = s ∨ y = s + 1)) ∧
    (∀ n : Nat, ∃ y, FixedPoint_SquareRoot r x (n + 1) = some y ∧ (y = s ∨ y = s + 1)) ∧
    (∀ (st : VrmsState) (v : Int), InInt32 v → st.oldVrms = x →
      FixedPoint_Divide st.sumSquaredVolts (wrap32 (st.sampleCount * 65536)) = some r →
      ∃ s1 y, Calc_Vrms st v true = some (s1, y) ∧ s1.oldVrms = y ∧ (y = s ∨ y = s + 1)) ∧
    (∀ (st : IrmsState) (c : Int), st.oldIrms = x →
      FixedPoint_Divide st.sumSquaredCurrents (wrap32 (st.sampleCount * 65536)) = some r →
      ∃ s1 y, Calc_Irms st c true = some (s1, y) ∧ s1.oldIrms = y ∧ (y = s ∨ y = s + 1)) := by
  have e16 : ((2 : Int) ^ 16) = 65536 := by norm_num
  have e31 : ((2 : Int) ^ 31) = 2147483648 := by norm_num
  rw [e16] at hr hlo hhi
  rw [e31] at hr2
  rw [pow_two] at hlo hhi
  have hx3 : x = s - 1 ∨ x = s ∨ x = s + 1 := by
    have := abs_le.mp hx
    omega
  obtain ⟨b1, b2⟩ := warm_root_bounds r s hr hr2 hs0 hlo hhi
  have hall := warm_passes r s hr hr2 hs0 hlo hhi
  have hxw : wrap32 x = x := wrap32_of_inInt32 ⟨by omega, by omega⟩
  refine ⟨hall 0 x hx3, fun n => hall n x hx3, ?_, ?_⟩
  · intro st v hv hold hratio
    have hit : ∃ m : Nat, interationNb st.oldVrms = m + 1 := by
      unfold interationNb
      split_ifs
      · exact ⟨14, rfl⟩
      · exact ⟨0, rfl⟩
    obtain ⟨m, hm⟩ := hit
    rw [hold] at hm
    obtain ⟨y, hy, hys⟩ := hall m x hx3
    have hyu : wrapU32 y = y := by
      unfold wrapU32
      omega
    have hyw : wrap32 y = y := wrap32_of_inInt32 ⟨by omega, by omega⟩
    have hcall : Calc_Vrms st v true
        = some ({ oldVrms := y
                  Vrms := wrapU32 (FixedPoint_Multiply y 655360)
                  sampleCount := wrapU8 (0 + 1)
                  sumSquaredVolts := wrap32 (0 + squaredScaledVolts v) }, y) := by
      unfold Calc_Vrms
      rw [divide_by_ten v hv]
      simp only [if_true, Option.some_bind, hratio, hm, hold, hxw, FixedPoint_SquareRoot, hy,
        Option.map_some', hyu, hyw]
      rfl
    exact ⟨_, y, hcall, rfl, hys⟩
  · intro st c hold hratio
    have hit : ∃ m : Nat, interationNb st.oldIrms = m + 1 := by
      unfold interationNb
      split_ifs
      · exact ⟨14, rfl⟩
      · exact ⟨0, rfl⟩
    obtain ⟨m, hm⟩ := hit
    rw [hold] at hm
    obtain ⟨y, hy, hys⟩ := hall m x hx3
    have hyu : wrapU32 y = y := by
      unfold wrapU32
      omega
    have hyw : wrap32 y = y := wrap32_of_inInt32 ⟨by omega, by omega⟩
    have hcall : Calc_Irms st c true
        = some ({ oldIrms := y
                  Irms := wrapU32 (Int.tdiv y 10)
                  sampleCount := wrapU8 (0 + 1)
                  sumSquaredCurrents := wrap32 (0 + squaredScaledCurrent c) }, y) := by
      unfold Calc_Irms
      simp only [if_true, Option.some_bind, hratio, hm, hold, hxw, FixedPoint_SquareRoot, hy,
        Option.map_some', hyu, hyw, divide_by_ten y ⟨by omega, by omega⟩]
      rfl
    exact ⟨_, y, hcall, rfl, hys⟩

theorem FixedPoint_SquareRoot_warm_start_witness :
    (2 : Int) ^ 16 ≤ 262144 ∧ (262144 : Int) < 2 ^ 31 ∧ (0 : Int) ≤ 131072 ∧
    (131072 : Int) ^ 2 ≤ 262144 * 2 ^ 16 ∧ (262144 : Int) * 2 ^ 16 < (131072 + 1) ^ 2 ∧
    |(131073 : Int) - 131072| ≤ 1 ∧
    ∃ y, FixedPoint_SquareRoot 262144 131073 1 = some y ∧ (y = 131072 ∨ y = 131072 + 1) :=
  ⟨by decide, by decide, by decide, by decide, by decide, by decide,
    (FixedPoint_SquareRoot_warm_start 262144 131072 131073 (by decide) (by decide)
      (by decide) (by decide) (by decide) (by decide)).1⟩

/-! ## Calc_TotalEnergy: the carry accumulator over sequences of calls -/

/-- The cycle energy for a period of at most 100 ms: at most `(2^32 - 1) * 6553 / 65536`,
whatever the power sum. -/
theorem cycleEnergy_le (S Ts : Int) (hT : 0 ≤ Ts ∧ Ts ≤ 100000000) :
    ∃ E, cycleEnergy S Ts false = some E ∧ 0 ≤ E ∧ E ≤ 429457407 := by
  have hne : (655360000 : Int) ≠ 0 := by norm_num
  have hm : wrapU32 (wrap32 (wrapU32 (Ts / 100000 * 65536))) = Ts / 100000 * 65536 := by
    unfold wrapU32 wrap32
    omega
  have hk0 : 0 ≤ Ts / 100000 * 4294967296 / 655360000 := by omega
  have hk1 : Ts / 100000 * 4294967296 / 655360000 ≤ 6553 := by omega
  have hd : wrapU32 (wrapU64 (wrapU64 (Ts / 100000 * 65536) * 65536) / 655360000)
      = Ts / 100000 * 4294967296 / 655360000 := by
    have hm0 : 0 ≤ Ts / 100000 ∧ Ts / 100000 ≤ 1000 := by omega
    generalize Ts / 100000 = m at hm0 hk0 hk1 ⊢
    have i1 : wrapU64 (m * 65536) = m * 65536 := by
      unfold wrapU64
      omega
    have i2 : wrapU64 (m * 65536 * 65536) = m * 4294967296 := by
      unfold wrapU64
      omega
    rw [i1, i2]
    unfold wrapU32
    omega
  have hk32 : wrap32 (Ts / 100000 * 4294967296 / 655360000)
      = Ts / 100000 * 4294967296 / 655360000 := wrap32_of_inInt32 ⟨by omega, by omega⟩
  have hu := wrapU32_bounds S
  have hmul := multiplyU_nonneg (wrapU32 S) (Ts / 100000 * 4294967296 / 655360000)
    ⟨hu.1, by omega⟩ ⟨hk0, by omega⟩
  have hp := mul_bounds_nonneg (wrapU32 S) (Ts / 100000 * 4294967296 / 655360000)
    4294967295 6553 ⟨hu.1, by omega⟩ ⟨hk0, hk1⟩
  refine ⟨FixedPoint_MultiplyU (wrapU32 S) (Ts / 100000 * 4294967296 / 655360000), ?_, ?_⟩
  · simp only [cycleEnergy, FixedPoint_DivideU, hne, if_false, Option.map_some', hm, hd,
      Bool.false_eq_true, hk32]
  · rw [hmul]
    unfold claimedMultiplyU
    norm_num only at hp ⊢
    generalize wrapU32 S * (Ts / 100000 * 4294967296 / 655360000) = P at hp ⊢
    omega

/-- One call of `Calc_TotalEnergy` with test mode off and a period of at most 100 ms, from
a state whose carry accumulator is below 3600 Ws. -/
theorem energy_step (st : EnergyState) (p Ts : Int) (edge : Bool)
    (hT : 0 ≤ Ts ∧ Ts ≤ 100000000)
    (ha : 0 ≤ st.tempAccumulatedEnergyWs ∧ st.tempAccumulatedEnergyWs < 235929600)
    (ht : 0 ≤ st.TotalEnergykWh ∧ st.TotalEnergykWh < 4294967296) :
    ∃ r, Calc_TotalEnergy st p Ts edge false = some r ∧
      (0 ≤ r.state.tempAccumulatedEnergyWs ∧ r.state.tempAccumulatedEnergyWs < 235929600) ∧
      (0 ≤ r.state.TotalEnergykWh ∧ r.state.TotalEnergykWh < 4294967296) ∧
      (edge = false → r.state.TotalEnergykWh = st.TotalEnergykWh) ∧
      (edge = true → ∃ E k,
        cycleEnergy st.summationInstPower Ts false = some E ∧ 0 ≤ E ∧
        wrapU32 (st.tempAccumulatedEnergyWs + E) = st.tempAccumulatedEnergyWs + E ∧
        st.tempAccumulatedEnergyWs + E < 2147483648 ∧
        0 ≤ k ∧ k < 65536 ∧
        (if st.tempAccumulatedEnergyWs + E ≥ 235929600
          then k = (st.tempAccumulatedEnergyWs + E) / 3600 / 1000 else k = 0) ∧
        r.state.TotalEnergykWh = (st.TotalEnergykWh + k) % 4294967296) := by
  cases edge with
  | false =>
    refine ⟨⟨{ st with summationInstPower := wrap32 (st.summationInstPower + p) }, none⟩,
      rfl, ha, ht, fun _ => rfl, ?_⟩
    intro h
    exact absurd h (by decide)
  | true =>
    obtain ⟨E, hE, e0, e1⟩ := cycleEnergy_le st.summationInstPower Ts hT
    have hcarry := carryEnergy_value st E
    have hw : wrapU32 (st.tempAccumulatedEnergyWs + E) = st.tempAccumulatedEnergyWs + E := by
      unfold wrapU32
      omega
    have hw32 : wrap32 (st.tempAccumulatedEnergyWs + E) = st.tempAccumulatedEnergyWs + E :=
      wrap32_of_inInt32 ⟨by omega, by omega⟩
    have hk : Int.tdiv (Int.tdiv (st.tempAccumulatedEnergyWs + E) 3600) 1000
        = (st.tempAccumulatedEnergyWs + E) / 3600 / 1000 := by
      have hi : Int.tdiv (st.tempAccumulatedEnergyWs + E) 3600
          = (st.tempAccumulatedEnergyWs + E) / 3600 :=
        Int.tdiv_eq_ediv (by omega) (by norm_num)
      rw [hi, Int.tdiv_eq_ediv (Int.ediv_nonneg (by omega) (by norm_num)) (by norm_num)]
    rw [hw, hw32, hk] at hcarry
    by_cases hge : st.tempAccumulatedEnergyWs + E ≥ 235929600
    · rw [if_pos hge] at hcarry
      have hcall : Calc_TotalEnergy st p Ts true false
          = some ⟨{ summationInstPower := wrap32 (0 + p)
                    tempAccumulatedEnergyWs := 0
                    TotalEnergykWh := wrapU32 (st.TotalEnergykWh
                      + (st.tempAccumulatedEnergyWs + E) / 3600 / 1000) }, some E⟩ := by
        unfold Calc_TotalEnergy
        rw [hE]
        simp only [if_true, Option.some_bind, hcarry]
        rfl
      refine ⟨_, hcall, ⟨le_refl 0, by norm_num⟩, wrapU32_bounds _, ?_, ?_⟩
      · intro h
        exact absurd h (by decide)
      · intro _
        refine ⟨E, (st.tempAccumulatedEnergyWs + E) / 3600 / 1000, hE, e0, hw, by omega,
          by omega, by omega, ?_, rfl⟩
        rw [if_pos hge]
    · rw [if_neg hge] at hcarry
      have hcall : Calc_TotalEnergy st p Ts true false
          = some ⟨{ summationInstPower := wrap32 (0 + p)
                    tempAccumulatedEnergyWs := st.tempAccumulatedEnergyWs + E
                    TotalEnergykWh := st.TotalEnergykWh }, some E⟩ := by
        unfold Calc_TotalEnergy
        rw [hE]
        simp only [if_true, Option.some_bind, hcarry]
        rfl
      refine ⟨_, hcall, ⟨by show 0 ≤ st.tempAccumulatedEnergyWs + E; omega,
        by show st.tempAccumulatedEnergyWs + E < 235929600; omega⟩, ht, ?_, ?_⟩
      · intro h
        exact absurd h (by decide)
      · intro _
        refine ⟨E, 0, hE, e0, hw, by omega, le_refl 0, by norm_num, ?_, ?_⟩
        · rw [if_neg hge]
        · show st.TotalEnergykWh = (st.TotalEnergykWh + 0) % 4294967296
          omega

theorem runEnergy_inv (calls : List EnergyCall) (st : EnergyState)
    (hT : ∀ c ∈ calls, 0 ≤ c.samplePeriod ∧ c.samplePeriod ≤ 100000000)
    (ha : 0 ≤ st.tempAccumulatedEnergyWs ∧ st.tempAccumulatedEnergyWs < 235929600)
    (ht : 0 ≤ st.TotalEnergykWh ∧ st.TotalEnergykWh < 4294967296) :
    ∃ s, runEnergy st calls = some s ∧
      (0 ≤ s.tempAccumulatedEnergyWs ∧ s.tempAccumulatedEnergyWs < 235929600) ∧
      (0 ≤ s.TotalEnergykWh ∧ s.TotalEnergykWh < 4294967296) := by
  induction calls generalizing st with
  | nil => exact ⟨st, rfl, ha, ht⟩
  | cons c rest ih =>
    obtain ⟨r, hr, a1, t1, _, _⟩ := energy_step st c.instPower c.samplePeriod
      c.risingEdgeDetected (hT c (List.mem_cons_self c rest)) ha ht
    obtain ⟨s, hs, a2, t2⟩ := ih r.state
      (fun d hd => hT d (List.mem_cons_of_mem c hd)) a1 t1
    refine ⟨s, ?_, a2, t2⟩
    rw [runEnergy, hr]
    exact hs

theorem runEnergy_append (xs ys : List EnergyCall) (st : EnergyState) :
    runEnergy st (xs ++ ys) = (runEnergy st xs).bind fun s => runEnergy s ys := by
  induction xs generalizing st with
  | nil => rfl
  | cons c rest ih =>
    rw [List.cons_append, runEnergy, runEnergy]
    cases Calc_TotalEnergy st c.instPower c.samplePeriod c.risingEdgeDetected false with
    | none => rfl
    | some r =>
      simp only [Option.some_bind]
      exact ih r.state

/-- Two boundary calls with the power sum 2147483647 and a period of 100 ms: the first
brings the empty accumulator to 214728703, the second to 429457406, which is converted to
119 and added to the total. -/
theorem full_power_pair (T : Int) (h0 : 0 ≤ T) (h1 : T + 119 < 4294967296) :
    runEnergy ⟨2147483647, 0, T⟩
        [⟨2147483647, 100000000, true⟩, ⟨2147483647, 100000000, true⟩]
      = some ⟨2147483647, 0, T + 119⟩ := by
  have hE : cycleEnergy 2147483647 100000000 false = some 214728703 := by decide
  have hc1 := carryEnergy_value ⟨2147483647, 0, T⟩ 214728703
  have hc2 := carryEnergy_value ⟨2147483647, 214728703, T⟩ 214728703
  have w1 : wrapU32 ((0 : Int) + 214728703) = 214728703 := by decide
  have w2 : wrapU32 ((214728703 : Int) + 214728703) = 429457406 := by decide
  have q2 : Int.tdiv (Int.tdiv (wrap32 429457406) 3600) 1000 = 119 := by decide
  have n1 : ¬ ((214728703 : Int) ≥ 235929600) := by decide
  have p2 : (429457406 : Int) ≥ 235929600 := by decide
  have ws : wrap32 ((0 : Int) + 2147483647) = 2147483647 := by decide
  have wt : wrapU32 (T + 119) = T + 119 := by
    unfold wrapU32
    omega
  simp only [w1, n1, if_false] at hc1
  simp only [w2, q2, p2, if_true, wt] at hc2
  simp only [runEnergy, Calc_TotalEnergy, if_true, hE, Option.some_bind, hc1, hc2,
    Option.map_some', ws]

theorem full_power_pairs (n : Nat) (T : Int) (h0 : 0 ≤ T)
    (h1 : T + 119 * (n : Int) < 4294967296) :
    runEnergy ⟨2147483647, 0, T⟩ (List.replicate (2 * n) ⟨2147483647, 100000000, true⟩)
      = some ⟨2147483647, 0, T + 119 * (n : Int)⟩ := by
  induction n generalizing T with
  | zero => simp [runEnergy]
  | succ k ih =>
    have e : List.replicate (2 * (k + 1)) (EnergyCall.mk 2147483647 100000000 true)
        = [⟨2147483647, 100000000, true⟩, ⟨2147483647, 100000000, true⟩]
          ++ List.replicate (2 * k) ⟨2147483647, 100000000, true⟩ := by
      rw [Nat.mul_succ, List.replicate_succ, List.replicate_succ]
      rfl
    rw [e, runEnergy_append, full_power_pair T h0 (by push_cast at h1; omega)]
    simp only [Option.some_bind]
    rw [ih (T + 119) (by omega) (by push_cast at h1 ⊢; omega)]
    congr 2
    push_cast
    ring

/-- C37 (as the code has it). With test mode off and every sampling period at most
100,000,000 ns, after any sequence of calls of `Calc_TotalEnergy` from power-up no call
has halted and the carry accumulator is below 3600 Ws (`3600 << 16`).  At the next
boundary the cycle energy `E` is added without wrap and the accumulator stays below 2^31,
so that its conversion to `int32_t` for the division keeps its value; the amount `k` added
to `TotalEnergykWh` is `acc / 3600 / 1000` when the accumulator has reached 3600 Ws and
0 otherwise, with `0 ≤ k < 2^16`; the new total is the old total plus `k` modulo 2^32, not
below the old total as long as the sum stays below 2^32.  A call that is not at a boundary
leaves the total unchanged. -/
theorem Calc_TotalEnergy_carry_bounded (calls : List EnergyCall) (p Ts : Int)
    (hT : ∀ c ∈ calls, 0 ≤ c.samplePeriod ∧ c.samplePeriod ≤ 100000000)
    (hTs : 0 ≤ Ts ∧ Ts ≤ 100000000) :
    ∃ st, runEnergy EnergyState.init calls = some st ∧
      0 ≤ st.tempAccumulatedEnergyWs ∧ st.tempAccumulatedEnergyWs < 3600 * 2 ^ 16 ∧
      (∃ r, Calc_TotalEnergy st p Ts false false = some r ∧
        r.state.TotalEnergykWh = st.TotalEnergykWh) ∧
      ∃ r E k, Calc_TotalEnergy st p Ts true false = some r ∧
        cycleEnergy st.summationInstPower Ts false = some E ∧
        wrapU32 (st.tempAccumulatedEnergyWs + E) = st.tempAccumulatedEnergyWs + E ∧
        st.tempAccumulatedEnergyWs + E < 2 ^ 31 ∧
        0 ≤ k ∧ k < 2 ^ 16 ∧
        (if st.tempAccumulatedEnergyWs + E ≥ 3600 * 2 ^ 16
          then k = (st.tempAccumulatedEnergyWs + E) / 3600 / 1000 else k = 0) ∧
        r.state.TotalEnergykWh = (st.TotalEnergykWh + k) % 2 ^ 32 ∧
        (st.TotalEnergykWh + k < 2 ^ 32 → st.TotalEnergykWh ≤ r.state.TotalEnergykWh) := by
  have e16 : ((2 : Int) ^ 16) = 65536 := by norm_num
  have e31 : ((2 : Int) ^ 31) = 2147483648 := by norm_num
  have e32 : ((2 : Int) ^ 32) = 4294967296 := by norm_num
  rw [e16, e31, e32]
  norm_num only
  obtain ⟨st, hst, ha, ht⟩ := runEnergy_inv calls EnergyState.init hT
    ⟨le_refl 0, by decide⟩ ⟨le_refl 0, by decide⟩
  obtain ⟨r0, hr0, _, _, hsame, _⟩ := energy_step st p Ts false hTs ha ht
  obtain ⟨r1, hr1, _, _, _, hb⟩ := energy_step st p Ts true hTs ha ht
  obtain ⟨E, k, hE, e0, hw, hlt, k0, k1, hk, htot⟩ := hb rfl
  refine ⟨st, hst, ha.1, ha.2, ⟨r0, hr0, hsame rfl⟩, r1, E, k, hr1, hE, hw, hlt, k0, k1,
    hk, htot, ?_⟩
  intro hfit
  rw [htot]
  omega

theorem Calc_TotalEnergy_carry_bounded_witness :
    (∀ c ∈ [EnergyCall.mk 65536000 1250000 false, EnergyCall.mk 65536000 1250000 true],
      0 ≤ c.samplePeriod ∧ c.samplePeriod ≤ 100000000) ∧
    ((0 : Int) ≤ 1250000 ∧ (1250000 : Int) ≤ 100000000) ∧
    ∃ st, runEnergy EnergyState.init
        [EnergyCall.mk 65536000 1250000 false, EnergyCall.mk 65536000 1250000 true]
          = some st ∧
      0 ≤ st.tempAccumulatedEnergyWs ∧ st.tempAccumulatedEnergyWs < 3600 * 2 ^ 16 ∧
      (∃ r, Calc_TotalEnergy st 65536000 1250000 false false = some r ∧
        r.state.TotalEnergykWh = st.TotalEnergykWh) ∧
      ∃ r E k, Calc_TotalEnergy st 65536000 1250000 true false = some r ∧
        cycleEnergy st.summationInstPower 1250000 false = some E ∧
        wrapU32 (st.tempAccumulatedEnergyWs + E) = st.tempAccumulatedEnergyWs + E ∧
        st.tempAccumulatedEnergyWs + E < 2 ^ 31 ∧
        0 ≤ k ∧ k < 2 ^ 16 ∧
        (if st.tempAccumulatedEnergyWs + E ≥ 3600 * 2 ^ 16
          then k = (st.tempAccumulatedEnergyWs + E) / 3600 / 1000 else k = 0) ∧
        r.state.TotalEnergykWh = (st.TotalEnergykWh + k) % 2 ^ 32 ∧
        (st.TotalEnergykWh + k < 2 ^ 32 → st.TotalEnergykWh ≤ r.state.TotalEnergykWh) :=
  ⟨by decide, by decide,
    Calc_TotalEnergy_carry_bounded
      [EnergyCall.mk 65536000 1250000 false, EnergyCall.mk 65536000 1250000 true]
      65536000 1250000 (by decide) (by decide)⟩

/-- The published total runs backwards when it wraps.  From power-up, boundary calls with
the power sample 2147483647 and a period of 100,000,000 ns add 119 to `TotalEnergykWh` at
every second call; after `1 + 2 * 36092162` calls the total is 4294967278, and the next
two calls leave it at 101: the sum 4294967397 reduced modulo 2^32. -/
theorem Calc_TotalEnergy_total_wraps_counterexample :
    runEnergy EnergyState.init
        (List.replicate 1 ⟨2147483647, 100000000, true⟩
          ++ List.replicate (2 * 36092162) ⟨2147483647, 100000000, true⟩)
      = some ⟨2147483647, 0, 4294967278⟩ ∧
    runEnergy ⟨2147483647, 0, 4294967278⟩
        [⟨2147483647, 100000000, true⟩, ⟨2147483647, 100000000, true⟩]
      = some ⟨2147483647, 0, 101⟩ ∧
    (101 : Int) < 4294967278 := by
  refine ⟨?_, by decide, by decide⟩
  have h1 : runEnergy EnergyState.init (List.replicate 1 ⟨2147483647, 100000000, true⟩)
      = some ⟨2147483647, 0, 0⟩ := by decide
  have e : (0 : Int) + 119 * ((36092162 : Nat) : Int) = 4294967278 := by norm_num
  have h := full_power_pairs 36092162 0 (le_refl 0) (by rw [e]; norm_num)
  rw [e] at h
  rw [runEnergy_append, h1, Option.some_bind]
  exact h

/-! ## Flash_AllocateVar -/

set_option maxRecDepth 100000 in
theorem allocate_byte_spec : ∀ m < 256, claimedAllocation m 1 := by
  decide

set_option maxRecDepth 100000 in
theorem allocate_half_word_spec : ∀ m < 256, claimedAllocation m 2 := by
  decide

set_option maxRecDepth 100000 in
theorem allocate_word_spec : ∀ m < 256, claimedAllocation m 4 := by
  decide

theorem allocate_valid_spec (m size : Nat) (hm : m < 256)
    (hs : size = 1 ∨ size = 2 ∨ size = 4) : claimedAllocation m size := by
  rcases hs with h | h | h
  · subst h
    exact allocate_byte_spec m hm
  · subst h
    exact allocate_half_word_spec m hm
  · subst h
    exact allocate_word_spec m hm

theorem allocate_invalid_size (m size : Nat) (v : Bool)
    (hs : ¬ (size = 1 ∨ size = 2 ∨ size = 4)) :
    Flash_AllocateVar m v size = { success := false, offset := none, memoryIndex := m } := by
  have h1 : size ≠ 1 := fun h => hs (Or.inl h)
  have h2 : size ≠ 2 := fun h => hs (Or.inr (Or.inl h))
  have h4 : size ≠ 4 := fun h => hs (Or.inr (Or.inr h))
  unfold Flash_AllocateVar
  simp only [h1, h2, h4, if_false, ite_self]

theorem allocate_null (m size : Nat) :
    Flash_AllocateVar m false size
      = { success := false, offset := none, memoryIndex := m } := by
  unfold Flash_AllocateVar
  simp only [if_true]

theorem allocations_skip (m size : Nat) (rest : List Nat)
    (h : (Flash_AllocateVar m true size).success = false) :
    allocations m (size :: rest)
      = allocations (Flash_AllocateVar m true size).memoryIndex rest := by
  rw [allocations, h]

theorem allocations_take (m size offset : Nat) (rest : List Nat)
    (h : (Flash_AllocateVar m true size).success = true)
    (ho : (Flash_AllocateVar m true size).offset = some offset) :
    allocations m (size :: rest)
      = (offset, size) :: allocations (Flash_AllocateVar m true size).memoryIndex rest := by
  rw [allocations, h, ho]

/-- Every successful allocation of a run takes bytes that were unallocated in the map the
run started from, and the allocations of a run are pairwise disjoint. -/
theorem allocations_inv (sizes : List Nat) :
    ∀ m < 256,
      (∀ a ∈ allocations m sizes, 1 ≤ a.2 ∧ a.1 + a.2 ≤ 8 ∧
        ∀ i < 8, a.1 ≤ i → i < a.1 + a.2 → m.testBit i = false) ∧
      (allocations m sizes).Pairwise fun a b => a.1 + a.2 ≤ b.1 ∨ b.1 + b.2 ≤ a.1 := by
  induction sizes with
  | nil =>
    intro m _
    exact ⟨fun a ha => absurd ha (List.not_mem_nil a), List.Pairwise.nil⟩
  | cons size rest ih =>
    intro m hm
    by_cases hs : size = 1 ∨ size = 2 ∨ size = 4
    · obtain ⟨hlt, hok, hfail⟩ := allocate_valid_spec m size hm hs
      cases hsucc : (Flash_AllocateVar m true size).success with
      | false =>
        obtain ⟨_, hsame, _⟩ := hfail hsucc
        rw [allocations_skip m size rest hsucc, hsame]
        exact ih m hm
      | true =>
        obtain ⟨offset, ho8, ho, hal, hfit, hfree, hmark⟩ := hok hsucc
        obtain ⟨i1, i2⟩ := ih (Flash_AllocateVar m true size).memoryIndex hlt
        have hsize : 1 ≤ size := by omega
        rw [allocations_take m size offset rest hsucc ho]
        constructor
        · intro a ha
          rcases List.mem_cons.mp ha with h | h
          · subst h
            exact ⟨hsize, hfit, hfree⟩
          · obtain ⟨a1, a2, a3⟩ := i1 a h
            refine ⟨a1, a2, ?_⟩
            intro i hi h1 h2
            have h3 := a3 i hi h1 h2
            rw [hmark i hi] at h3
            simp only [Bool.or_eq_false_iff] at h3
            exact h3.1
        · refine List.Pairwise.cons ?_ i2
          intro b hb
          obtain ⟨b1, b2, b3⟩ := i1 b hb
          by_contra hc
          have hmax : ∃ i, i < 8 ∧ offset ≤ i ∧ i < offset + size ∧ b.1 ≤ i ∧ i < b.1 + b.2 := by
            refine ⟨max offset b.1, ?_, ?_, ?_, ?_, ?_⟩ <;> simp only [Nat.max_def] <;>
              split_ifs <;> omega
          obtain ⟨i, hi, c1, c2, c3, c4⟩ := hmax
          have h3 := b3 i hi c3 c4
          rw [hmark i hi] at h3
          simp [c1, c2] at h3
    · rw [allocations_skip m size rest (by rw [allocate_invalid_size m size true hs]),
        allocate_invalid_size m size true hs]
      exact ih m hm

/-- C32. For every allocation map and `size` 1, 2 or 4, a call of `Flash_AllocateVar` with
a non-null pointer either returns true, with a stored offset in 0..7 that is a multiple of
`size` and whose `size` bytes were all unallocated before the call, and marks exactly
those bytes allocated, or returns false, stores nothing and leaves the map unchanged, and
then no aligned slot of `size` unallocated bytes exists (`claimedAllocation`).  For any
other `size`, or a null pointer, it returns false and leaves the map unchanged.  Hence
the successful allocations of any sequence of calls from the empty map are pairwise
disjoint. -/
theorem Flash_AllocateVar_allocation :
    (∀ m < 256, ∀ size, (size = 1 ∨ size = 2 ∨ size = 4) → claimedAllocation m size) ∧
    (∀ m size v, ¬ (size = 1 ∨ size = 2 ∨ size = 4) →
      Flash_AllocateVar m v size = { success := false, offset := none, memoryIndex := m }) ∧
    (∀ m size,
      Flash_AllocateVar m false size
        = { success := false, offset := none, memoryIndex := m }) ∧
    (∀ sizes : List Nat,
      (allocations 0 sizes).Pairwise fun a b => a.1 + a.2 ≤ b.1 ∨ b.1 + b.2 ≤ a.1) :=
  ⟨fun m hm size hs => allocate_valid_spec m size hm hs, allocate_invalid_size,
    allocate_null, fun sizes => (allocations_inv sizes 0 (by decide)).2⟩

/-! ## packet.c: Packet_Put and Packet_Get -/

theorem xor_byte (a b : Nat) (ha : a < 256) (hb : b < 256) :
    (a ^^^ b) % 256 = a ^^^ b ∧ a ^^^ b < 256 := by
  have h : a ^^^ b < 2 ^ 8 := Nat.xor_lt_two_pow (by norm_num; exact ha) (by norm_num; exact hb)
  norm_num at h
  exact ⟨Nat.mod_eq_of_lt h, h⟩

theorem bufferChecksum_value (buf : Nat → Nat) (h : ∀ i, buf i < 256) :
    bufferChecksum buf = buf 0 ^^^ buf 1 ^^^ buf 2 ^^^ buf 3 := by
  have e : bufferChecksum buf
      = ((((0 ^^^ buf 0) % 256 ^^^ buf 1) % 256 ^^^ buf 2) % 256 ^^^ buf 3) % 256 := rfl
  have h0 : (0 ^^^ buf 0) = buf 0 := Nat.zero_xor _
  obtain ⟨a1, a2⟩ := xor_byte (buf 0) (buf 1) (h 0) (h 1)
  obtain ⟨b1, b2⟩ := xor_byte (buf 0 ^^^ buf 1) (buf 2) a2 (h 2)
  obtain ⟨c1, c2⟩ := xor_byte (buf 0 ^^^ buf 1 ^^^ buf 2) (buf 3) b2 (h 3)
  rw [e, h0, Nat.mod_eq_of_lt (h 0), a1, b1, c1]

theorem slideBuffer_value (buf : Nat → Nat) :
    slideBuffer buf 0 = buf 1 ∧ slideBuffer buf 1 = buf 2 ∧ slideBuffer buf 2 = buf 3 ∧
    slideBuffer buf 3 = buf 4 ∧ slideBuffer buf 4 = buf 4 := by
  simp [slideBuffer, Function.update]

theorem slideBuffer_byte (buf : Nat → Nat) (h : ∀ i, buf i < 256) :
    ∀ i, slideBuffer buf i < 256 := by
  intro i
  simp only [slideBuffer, List.foldl, Function.update]
  simp only [eq_rec_constant, dite_eq_ite]
  split_ifs <;> exact h _

theorem Packet_Get_read (fuel : Nat) (st : PacketGetState) (P : TPacket) (b : Nat)
    (rest : List Nat) (h : st.state ≤ 4) :
    Packet_Get (fuel + 1) st P (b :: rest)
      = Packet_Get fuel
          { state := st.state + 1, packetBuffer := Function.update st.packetBuffer st.state b }
          P rest := by
  have hc : st.state = 0 ∨ st.state = 1 ∨ st.state = 2 ∨ st.state = 3 ∨ st.state = 4 := by
    omega
  rw [Packet_Get, if_pos hc]
  rfl

theorem Packet_Get_blocked (fuel : Nat) (st : PacketGetState) (P : TPacket)
    (h : st.state ≤ 4) : Packet_Get fuel st P [] = none := by
  cases fuel with
  | zero => rfl
  | succ k =>
    have hc : st.state = 0 ∨ st.state = 1 ∨ st.state = 2 ∨ st.state = 3 ∨ st.state = 4 := by
      omega
    rw [Packet_Get, if_pos hc]
    rfl

theorem Packet_Get_valid (fuel : Nat) (st : PacketGetState) (P : TPacket) (rx : List Nat)
    (h5 : st.state = 5) (hc : bufferChecksum st.packetBuffer = st.packetBuffer 4) :
    Packet_Get (fuel + 1) st P rx
      = some
          { returned := true
            state := { st with state := 0 }
            Packet :=
              { Packet_Command := st.packetBuffer 0
                Packet_Parameter1 := st.packetBuffer 1
                Packet_Parameter2 := st.packetBuffer 2
                Packet_Parameter3 := st.packetBuffer 3
                Packet_Checksum := st.packetBuffer 4 }
            RxFIFO := rx } := by
  have hn : ¬ (st.state = 0 ∨ st.state = 1 ∨ st.state = 2 ∨ st.state = 3 ∨ st.state = 4) := by
    omega
  rw [Packet_Get, if_neg hn, if_pos h5, if_pos hc]

theorem Packet_Get_slide (fuel : Nat) (st : PacketGetState) (P : TPacket) (rx : List Nat)
    (h5 : st.state = 5) (hc : ¬ bufferChecksum st.packetBuffer = st.packetBuffer 4) :
    Packet_Get (fuel + 1) st P rx
      = Packet_Get fuel { state := 4, packetBuffer := slideBuffer st.packetBuffer } P rx := by
  have hn : ¬ (st.state = 0 ∨ st.state = 1 ∨ st.state = 2 ∨ st.state = 3 ∨ st.state = 4) := by
    omega
  rw [Packet_Get, if_neg hn, if_pos h5, if_neg hc]

theorem Packet_Put_value (TxFIFO : List Nat) (c p1 p2 p3 : Nat) :
    Packet_Put TxFIFO c p1 p2 p3 0 0
      = some (true, TxFIFO ++ [c, p1, p2, p3, (c ^^^ p1 ^^^ p2 ^^^ p3) % 256]) := by
  simp [Packet_Put, putBytes, UART_OutChar]

theorem range_map_update (buf : Nat → Nat) (n b : Nat) :
    (List.range (n + 1)).map (Function.update buf n b) = (List.range n).map buf ++ [b] := by
  rw [List.range_succ, List.map_append]
  congr 1
  · apply List.map_congr_left
    intro i hi
    have hlt : i < n := List.mem_range.mp hi
    exact Function.update_noteq (Nat.ne_of_lt hlt) b buf
  · simp

/-- Whatever the bytes received, a call of `Packet_Get` that returns true has consumed, as
the last five bytes, the packet it publishes, and the checksum of the packet is the XOR
of its other four bytes. -/
theorem Packet_Get_window (fuel : Nat) :
    ∀ (st : PacketGetState) (P : TPacket) (rx consumed : List Nat) (r : PacketGetResult),
      (∀ b ∈ rx, b < 256) → (∀ i, st.packetBuffer i < 256) → st.state ≤ 5 →
      (∃ pre, consumed = pre ++ (List.range st.state).map st.packetBuffer) →
      Packet_Get fuel st P rx = some r → r.returned = true →
      (∃ pre, consumed ++ rx
          = pre ++ [r.Packet.Packet_Command, r.Packet.Packet_Parameter1,
              r.Packet.Packet_Parameter2, r.Packet.Packet_Parameter3,
              r.Packet.Packet_Checksum] ++ r.RxFIFO) ∧
      r.Packet.Packet_Checksum
        = r.Packet.Packet_Command ^^^ r.Packet.Packet_Parameter1
            ^^^ r.Packet.Packet_Parameter2 ^^^ r.Packet.Packet_Parameter3 ∧
      r.state.state = 0 := by
  induction fuel with
  | zero =>
    intro st P rx consumed r _ _ _ _ h _
    exact absurd h (by simp [Packet_Get])
  | succ k ih =>
    intro st P rx consumed r hrx hbuf hst hpre h hret
    by_cases h4 : st.state ≤ 4
    · cases rx with
      | nil =>
        rw [Packet_Get_blocked (k + 1) st P h4] at h
        exact absurd h (by simp)
      | cons b rest =>
        rw [Packet_Get_read k st P b rest h4] at h
        obtain ⟨pre, hp⟩ := hpre
        have hb : b < 256 := hrx b (List.mem_cons_self b rest)
        have hstep := ih
          { state := st.state + 1, packetBuffer := Function.update st.packetBuffer st.state b }
          P rest (consumed ++ [b]) r
          (fun x hx => hrx x (List.mem_cons_of_mem b hx))
          (by
            intro i
            by_cases hi : i = st.state
            · subst hi
              simp only [Function.update_same]
              exact hb
            · simp only [Function.update_noteq hi]
              exact hbuf i)
          (by show st.state + 1 ≤ 5; omega)
          ⟨pre, by
            show consumed ++ [b]
              = pre ++ (List.range (st.state + 1)).map
                  (Function.update st.packetBuffer st.state b)
            rw [range_map_update, hp, List.append_assoc]⟩
          h hret
        obtain ⟨⟨pre2, hw⟩, hx, hs0⟩ := hstep
        refine ⟨⟨pre2, ?_⟩, hx, hs0⟩
        rw [← hw, List.append_assoc]
        rfl
    · have h5 : st.state = 5 := by omega
      obtain ⟨pre, hp⟩ := hpre
      rw [h5] at hp
      have hr5 : (List.range 5).map st.packetBuffer
          = [st.packetBuffer 0, st.packetBuffer 1, st.packetBuffer 2, st.packetBuffer 3,
              st.packetBuffer 4] := rfl
      rw [hr5] at hp
      by_cases hc : bufferChecksum st.packetBuffer = st.packetBuffer 4
      · rw [Packet_Get_valid k st P rx h5 hc] at h
        simp only [Option.some.injEq] at h
        subst h
        refine ⟨⟨pre, ?_⟩, ?_, rfl⟩
        · rw [hp]
        · show st.packetBuffer 4 = _
          rw [← hc]
          exact bufferChecksum_value st.packetBuffer hbuf
      · rw [Packet_Get_slide k st P rx h5 hc] at h
        obtain ⟨v0, v1, v2, v3, _⟩ := slideBuffer_value st.packetBuffer
        exact ih { state := 4, packetBuffer := slideBuffer st.packetBuffer } P rx consumed r
          hrx (slideBuffer_byte st.packetBuffer hbuf) (by show 4 ≤ 5; decide)
          ⟨pre ++ [st.packetBuffer 0], by
            have hr4 : (List.range 4).map (slideBuffer st.packetBuffer)
                = [slideBuffer st.packetBuffer 0, slideBuffer st.packetBuffer 1,
                    slideBuffer st.packetBuffer 2, slideBuffer st.packetBuffer 3] := rfl
            show consumed = pre ++ [st.packetBuffer 0]
              ++ (List.range 4).map (slideBuffer st.packetBuffer)
            rw [hr4, v0, v1, v2, v3, hp]
            simp⟩
          h hret

/-- The five bytes of a packet, delivered to `Packet_Get` in its initial state, are
accepted by a call that makes six passes of its loop. -/
theorem Packet_Get_accepts (fuel : Nat) (P : TPacket) (c p1 p2 p3 : Nat) (rest : List Nat)
    (hc : c < 256) (h1 : p1 < 256) (h2 : p2 < 256) (h3 : p3 < 256) :
    ∃ r, Packet_Get (fuel + 6) PacketGetState.init P
        (c :: p1 :: p2 :: p3 :: (c ^^^ p1 ^^^ p2 ^^^ p3) :: rest) = some r ∧
      r.returned = true ∧ r.Packet = ⟨c, p1, p2, p3, c ^^^ p1 ^^^ p2 ^^^ p3⟩ ∧
      r.RxFIFO = rest ∧ r.state.state = 0 := by
  obtain ⟨a1, a2⟩ := xor_byte c p1 hc h1
  obtain ⟨b1, b2⟩ := xor_byte (c ^^^ p1) p2 a2 h2
  obtain ⟨c1, c2⟩ := xor_byte (c ^^^ p1 ^^^ p2) p3 b2 h3
  have s1 : Packet_Get (fuel + 6) PacketGetState.init P
      (c :: p1 :: p2 :: p3 :: (c ^^^ p1 ^^^ p2 ^^^ p3) :: rest)
      = Packet_Get (fuel + 5) ⟨1, Function.update (fun _ => 0) 0 c⟩ P
          (p1 :: p2 :: p3 :: (c ^^^ p1 ^^^ p2 ^^^ p3) :: rest) :=
    Packet_Get_read (fuel + 5) PacketGetState.init P c _ (by decide)
  have s2 : Packet_Get (fuel + 5) ⟨1, Function.update (fun _ => 0) 0 c⟩ P
      (p1 :: p2 :: p3 :: (c ^^^ p1 ^^^ p2 ^^^ p3) :: rest)
      = Packet_Get (fuel + 4) ⟨2, Function.update (Function.update (fun _ => 0) 0 c) 1 p1⟩ P
          (p2 :: p3 :: (c ^^^ p1 ^^^ p2 ^^^ p3) :: rest) :=
    Packet_Get_read (fuel + 4) ⟨1, _⟩ P p1 _ (by show 1 ≤ 4; decide)
  have s3 : Packet_Get (fuel + 4) ⟨2, Function.update (Function.update (fun _ => 0) 0 c) 1 p1⟩
      P (p2 :: p3 :: (c ^^^ p1 ^^^ p2 ^^^ p3) :: rest)
      = Packet_Get (fuel + 3)
          ⟨3, Function.update (Function.update (Function.update (fun _ => 0) 0 c) 1 p1) 2 p2⟩
          P (p3 :: (c ^^^ p1 ^^^ p2 ^^^ p3) :: rest) :=
    Packet_Get_read (fuel + 3) ⟨2, _⟩ P p2 _ (by show 2 ≤ 4; decide)
  have s4 : Packet_Get (fuel + 3)
      ⟨3, Function.update (Function.update (Function.update (fun _ => 0) 0 c) 1 p1) 2 p2⟩
      P (p3 :: (c ^^^ p1 ^^^ p2 ^^^ p3) :: rest)
      = Packet_Get (fuel + 2)
          ⟨4, Function.update (Function.update (Function.update
            (Function.update (fun _ => 0) 0 c) 1 p1) 2 p2) 3 p3⟩
          P ((c ^^^ p1 ^^^ p2 ^^^ p3) :: rest) :=
    Packet_Get_read (fuel + 2) ⟨3, _⟩ P p3 _ (by show 3 ≤ 4; decide)
  have s5 : Packet_Get (fuel + 2)
      ⟨4, Function.update (Function.update (Function.update
        (Function.update (fun _ => 0) 0 c) 1 p1) 2 p2) 3 p3⟩
      P ((c ^^^ p1 ^^^ p2 ^^^ p3) :: rest)
      = Packet_Get (fuel + 1)
          ⟨5, Function.update (Function.update (Function.update (Function.update
            (Function.update (fun _ => 0) 0 c) 1 p1) 2 p2) 3 p3) 4 (c ^^^ p1 ^^^ p2 ^^^ p3)⟩
          P rest :=
    Packet_Get_read (fuel + 1) ⟨4, _⟩ P (c ^^^ p1 ^^^ p2 ^^^ p3) _ (by show 4 ≤ 4; decide)
  have hsum : bufferChecksum
      (Function.update (Function.update (Function.update (Function.update
        (Function.update (fun _ => 0) 0 c) 1 p1) 2 p2) 3 p3) 4 (c ^^^ p1 ^^^ p2 ^^^ p3))
      = c ^^^ p1 ^^^ p2 ^^^ p3 := by
    have e : ∀ buf : Nat → Nat, bufferChecksum buf
        = ((((0 ^^^ buf 0) % 256 ^^^ buf 1) % 256 ^^^ buf 2) % 256 ^^^ buf 3) % 256 :=
      fun _ => rfl
    rw [e]
    simp only [Function.update]
    simp only [eq_rec_constant, dite_eq_ite]
    norm_num
    rw [Nat.mod_eq_of_lt hc, a1, b1, c1]
  have s6 := Packet_Get_valid fuel
    ⟨5, Function.update (Function.update (Function.update (Function.update
      (Function.update (fun _ => 0) 0 c) 1 p1) 2 p2) 3 p3) 4 (c ^^^ p1 ^^^ p2 ^^^ p3)⟩
    P rest rfl (by rw [hsum]; simp [Function.update])
  rw [s1, s2, s3, s4, s5, s6]
  refine ⟨_, rfl, rfl, ?_, rfl, rfl⟩
  simp [Function.update]

/-- C40. For all bytes `c`, `p1`, `p2`, `p3`, `Packet_Put` (its semaphore calls
succeeding) queues the five bytes `c`, `p1`, `p2`, `p3`, `c xor p1 xor p2 xor p3` and
returns true.  Delivered in this order to `Packet_Get` in its initial state, they make the
call return true, after six passes of its loop, with `Packet_Command = c`,
`Packet_Parameter1..3 = p1, p2, p3` and the checksum byte, the bytes that follow left in
the FIFO and the state machine back in state 0.  Whatever bytes are received, a call of
`Packet_Get` from the initial state that returns true publishes the last five bytes it
consumed, and the fifth is the XOR of the first four. -/
theorem Packet_round_trip (c p1 p2 p3 : Nat) (hc : c < 256) (h1 : p1 < 256) (h2 : p2 < 256)
    (h3 : p3 < 256) :
    (∀ TxFIFO, Packet_Put TxFIFO c p1 p2 p3 0 0
      = some (true, TxFIFO ++ [c, p1, p2, p3, c ^^^ p1 ^^^ p2 ^^^ p3])) ∧
    (∀ (fuel : Nat) (P : TPacket) (rest : List Nat),
      ∃ r, Packet_Get (fuel + 6) PacketGetState.init P
          ([c, p1, p2, p3, c ^^^ p1 ^^^ p2 ^^^ p3] ++ rest) = some r ∧
        r.returned = true ∧ r.Packet.Packet_Command = c ∧ r.Packet.Packet_Parameter1 = p1 ∧
        r.Packet.Packet_Parameter2 = p2 ∧ r.Packet.Packet_Parameter3 = p3 ∧
        r.Packet.Packet_Checksum = c ^^^ p1 ^^^ p2 ^^^ p3 ∧
        r.RxFIFO = rest ∧ r.state.state = 0) ∧
    (∀ (fuel : Nat) (P : TPacket) (rx : List Nat) (r : PacketGetResult),
      (∀ b ∈ rx, b < 256) → Packet_Get fuel PacketGetState.init P rx = some r →
      r.returned = true →
      (∃ pre, rx
          = pre ++ [r.Packet.Packet_Command, r.Packet.Packet_Parameter1,
              r.Packet.Packet_Parameter2, r.Packet.Packet_Parameter3,
              r.Packet.Packet_Checksum] ++ r.RxFIFO) ∧
      r.Packet.Packet_Checksum
        = r.Packet.Packet_Command ^^^ r.Packet.Packet_Parameter1
            ^^^ r.Packet.Packet_Parameter2 ^^^ r.Packet.Packet_Parameter3) := by
  obtain ⟨a1, a2⟩ := xor_byte c p1 hc h1
  obtain ⟨b1, b2⟩ := xor_byte (c ^^^ p1) p2 a2 h2
  obtain ⟨c1, c2⟩ := xor_byte (c ^^^ p1 ^^^ p2) p3 b2 h3
  refine ⟨?_, ?_, ?_⟩
  · intro TxFIFO
    rw [Packet_Put_value, c1]
  · intro fuel P rest
    obtain ⟨r, hr, e1, e2, e3, e4⟩ := Packet_Get_accepts fuel P c p1 p2 p3 rest hc h1 h2 h3
    refine ⟨r, hr, e1, ?_, ?_, ?_, ?_, ?_, e3, e4⟩ <;> rw [e2]
  · intro fuel P rx r hrx hget hret
    obtain ⟨hw, hx, _⟩ := Packet_Get_window fuel PacketGetState.init P rx [] r hrx
      (fun _ => by show 0 < 256; decide) (by decide) ⟨[], rfl⟩ hget hret
    exact ⟨by simpa using hw, hx⟩

theorem Packet_round_trip_witness :
    (1 : Nat) < 256 ∧ (2 : Nat) < 256 ∧ (3 : Nat) < 256 ∧ (4 : Nat) < 256 ∧
    (∀ TxFIFO, Packet_Put TxFIFO 1 2 3 4 0 0
      = some (true, TxFIFO ++ [1, 2, 3, 4, 1 ^^^ 2 ^^^ 3 ^^^ 4])) ∧
    (1 ^^^ 2 ^^^ 3 ^^^ 4 : Nat) = 4 :=
  ⟨by decide, by decide, by decide, by decide,
    (Packet_round_trip 1 2 3 4 (by decide) (by decide) (by decide) (by decide)).1,
    by decide⟩

/-! ## The 8-bit sample counts and the 32-bit sums and products beyond their range -/

theorem sum_replicate_int (n : Nat) (x : Int) : (List.replicate n x).sum = (n : Int) * x := by
  induction n with
  | zero => simp
  | succ k ih =>
    rw [List.replicate_succ, List.sum_cons, ih]
    push_cast
    ring

theorem accumulatePower_replicate (n : Nat) (p : Int) (st : AvgPowerState)
    (hc : 0 ≤ st.counter ∧ st.counter < 256) (hs : InInt32 st.sumInstPower) :
    accumulatePower st (List.replicate n p)
      = some { counter := wrapU8 (st.counter + (n : Int))
               sumInstPower := wrap32 (st.sumInstPower + (n : Int) * p)
               AveragePowerW := st.AveragePowerW } := by
  obtain ⟨s2, h, c1, c2, c3⟩ := accumulatePower_spec (List.replicate n p) st hc hs
  rw [List.length_replicate] at c1
  rw [sum_replicate_int] at c2
  rw [h]
  obtain ⟨a, b, c⟩ := s2
  simp only at c1 c2 c3
  rw [c1, c2, c3]

theorem accumulateVolts_replicate (n : Nat) (v : Int) (st : VrmsState) (hv : InInt32 v)
    (hc : 0 ≤ st.sampleCount ∧ st.sampleCount < 256) (hs : InInt32 st.sumSquaredVolts) :
    accumulateVolts st (List.replicate n v)
      = some { oldVrms := st.oldVrms
               sampleCount := wrapU8 (st.sampleCount + (n : Int))
               sumSquaredVolts :=
                 wrap32 (st.sumSquaredVolts + (n : Int) * squaredScaledVolts v)
               Vrms := st.Vrms } := by
  obtain ⟨s2, h, c1, c2, c3, c4⟩ := accumulateVolts_spec (List.replicate n v) st
    (fun x hx => by rw [List.eq_of_mem_replicate hx]; exact hv) hc hs
  rw [List.length_replicate] at c1
  rw [List.map_replicate, sum_replicate_int] at c2
  rw [h]
  obtain ⟨a, b, c, d⟩ := s2
  simp only at c1 c2 c3 c4
  rw [c1, c2, c3, c4]

theorem accumulateCurrents_replicate (n : Nat) (i : Int) (st : IrmsState)
    (hc : 0 ≤ st.sampleCount ∧ st.sampleCount < 256) (hs : InInt32 st.sumSquaredCurrents) :
    accumulateCurrents st (List.replicate n i)
      = some { oldIrms := st.oldIrms
               sampleCount := wrapU8 (st.sampleCount + (n : Int))
               sumSquaredCurrents :=
                 wrap32 (st.sumSquaredCurrents + (n : Int) * squaredScaledCurrent i)
               Irms := st.Irms } := by
  obtain ⟨s2, h, c1, c2, c3, c4⟩ := accumulateCurrents_spec (List.replicate n i) st hc hs
  rw [List.length_replicate] at c1
  rw [List.map_replicate, sum_replicate_int] at c2
  rw [h]
  obtain ⟨a, b, c, d⟩ := s2
  simp only at c1 c2 c3 c4
  rw [c1, c2, c3, c4]

set_option maxRecDepth 100000 in
/-- C10 (counterexample). From power-up, one sample and a boundary call, each of 1.0 W
(65536), start a cycle.  With 299 further samples of 1.0 W the cycle has 300 samples and
the sum 300.0 W, but the 8-bit counter holds 44 (300 mod 256): the next boundary call
divides by 44 and publishes 446836 (about 6.82 W), not 1.0 W.  With 255 further samples the
cycle has 256 samples, the counter holds 0 and the boundary call halts in
`FixedPoint_Divide`.  And a cycle of 4 samples of 10000.0 W (655360000) wraps the `int32`
sum to -1673527296: the boundary call publishes -418381824. -/
theorem Calc_AveragePower_boundary_counterexample :
    accumulatePower AvgPowerState.init [65536] = some ⟨1, 65536, 0⟩ ∧
    Calc_AveragePower ⟨1, 65536, 0⟩ 65536 true = some (⟨1, 65536, 65536⟩, 65536) ∧
    (List.replicate 299 (65536 : Int)).length + 1 = 300 ∧
    accumulatePower ⟨1, 65536, 65536⟩ (List.replicate 299 65536)
      = some ⟨44, 19660800, 65536⟩ ∧
    Calc_AveragePower ⟨44, 19660800, 65536⟩ 65536 true
      = some (⟨1, 65536, 446836⟩, 446836) ∧
    Int.tdiv 19660800 300 = 65536 ∧ Int.tdiv 19660800 44 = 446836 ∧
    (List.replicate 255 (65536 : Int)).length + 1 = 256 ∧
    accumulatePower ⟨1, 65536, 65536⟩ (List.replicate 255 65536)
      = some ⟨0, 16777216, 65536⟩ ∧
    Calc_AveragePower ⟨0, 16777216, 65536⟩ 65536 true = none ∧
    Calc_AveragePower ⟨1, 65536, 0⟩ 655360000 true
      = some (⟨1, 655360000, 65536⟩, 65536) ∧
    accumulatePower ⟨1, 655360000, 65536⟩ (List.replicate 3 655360000)
      = some ⟨4, -1673527296, 65536⟩ ∧
    (4 : Int) * 655360000 = 2621440000 ∧
    Calc_AveragePower ⟨4, -1673527296, 65536⟩ 0 true
      = some (⟨1, 0, 3876585472⟩, -418381824) := by
  have h299 := accumulatePower_replicate 299 65536 ⟨1, 65536, 65536⟩ (by decide) (by decide)
  have h255 := accumulatePower_replicate 255 65536 ⟨1, 65536, 65536⟩ (by decide) (by decide)
  refine ⟨by decide, by decide, List.length_replicate _ _ ▸ rfl, h299.trans (by decide),
    by decide, by decide, by decide, List.length_replicate _ _ ▸ rfl,
    h255.trans (by decide), by decide, by decide, by decide, by decide, by decide⟩

set_option maxRecDepth 100000 in
/-- C11 (counterexample). From power-up, one sample and a boundary call, each of 10 V
(655360, square 1.0), start a cycle of `Calc_Vrms`.  With 299 further samples of 10 V the
cycle has 300 samples and the sum of squares 300.0, but the 8-bit count holds 44: the
next boundary call takes the square root of 19660800 / 44 = 446836 and stores 171125 (about
2.61, published as 26.1 V), where the ratio of the claim, 19660800 / 300 = 65536, has the
root 65536 (1.0, 10 V).  With 255 further samples (256 in all) the count holds 0 and the
boundary call halts.  `Calc_Irms` does the same with samples of 0.1 A (6554, square
65544): 300 samples give the root of 19663200 / 44, stored as 256204, where the ratio of
the claim gives 65539; 256 samples halt.  And a cycle of 4 samples of 1000 V (65536000,
square 10000.0) wraps the `int32` sum of squares to -1673527296, whose quotient by 4 is
negative: the stored estimate is 597512 where the sum 2621440000 would give 6553600. -/
theorem Calc_rms_boundary_counterexample :
    accumulateVolts VrmsState.init [655360] = some ⟨65536, 1, 65536, 0⟩ ∧
    Calc_Vrms ⟨65536, 1, 65536, 0⟩ 655360 true
      = some (⟨65536, 1, 65536, 655360⟩, 65536) ∧
    (List.replicate 299 (655360 : Int)).length + 1 = 300 ∧
    accumulateVolts ⟨65536, 1, 65536, 655360⟩ (List.replicate 299 655360)
      = some ⟨65536, 44, 19660800, 655360⟩ ∧
    Calc_Vrms ⟨65536, 44, 19660800, 655360⟩ 0 true
      = some (⟨171125, 1, 0, 1711250⟩, 171125) ∧
    FixedPoint_SquareRoot (Int.tdiv 19660800 44) 65536 15 = some 171125 ∧
    FixedPoint_SquareRoot (Int.tdiv 19660800 300) 65536 15 = some 65536 ∧
    accumulateVolts ⟨65536, 1, 65536, 655360⟩ (List.replicate 255 655360)
      = some ⟨65536, 0, 16777216, 655360⟩ ∧
    Calc_Vrms ⟨65536, 0, 16777216, 655360⟩ 0 true = none ∧
    accumulateCurrents IrmsState.init [6554] = some ⟨65536, 1, 65544, 0⟩ ∧
    Calc_Irms ⟨65536, 1, 65544, 0⟩ 6554 true = some (⟨65539, 1, 65544, 6553⟩, 65539) ∧
    accumulateCurrents ⟨65539, 1, 65544, 6553⟩ (List.replicate 299 6554)
      = some ⟨65539, 44, 19663200, 6553⟩ ∧
    Calc_Irms ⟨65539, 44, 19663200, 6553⟩ 0 true
      = some (⟨256204, 1, 0, 25620⟩, 256204) ∧
    FixedPoint_SquareRoot (Int.tdiv 19663200 44) 65539 1 = some 256204 ∧
    FixedPoint_SquareRoot (Int.tdiv 19663200 300) 65539 1 = some 65539 ∧
    accumulateCurrents ⟨65539, 1, 65544, 6553⟩ (List.replicate 255 6554)
      = some ⟨65539, 0, 16779264, 6553⟩ ∧
    Calc_Irms ⟨65539, 0, 16779264, 6553⟩ 0 true = none ∧
    Calc_Vrms ⟨65536, 1, 65536, 0⟩ 65536000 true
      = some (⟨65536, 1, 655360000, 655360⟩, 65536) ∧
    accumulateVolts ⟨65536, 1, 655360000, 655360⟩ (List.replicate 3 65536000)
      = some ⟨65536, 4, -1673527296, 655360⟩ ∧
    (4 : Int) * 655360000 = 2621440000 ∧
    Calc_Vrms ⟨65536, 4, -1673527296, 655360⟩ 0 true
      = some (⟨597512, 1, 0, 5975120⟩, 597512) ∧
    FixedPoint_SquareRoot (Int.tdiv 2621440000 4) 65536 15 = some 6553600 := by
  have v299 := accumulateVolts_replicate 299 655360 ⟨65536, 1, 65536, 655360⟩ (by decide)
    (by decide) (by decide)
  have v255 := accumulateVolts_replicate 255 655360 ⟨65536, 1, 65536, 655360⟩ (by decide)
    (by decide) (by decide)
  have i299 := accumulateCurrents_replicate 299 6554 ⟨65539, 1, 65544, 6553⟩ (by decide)
    (by decide)
  have i255 := accumulateCurrents_replicate 255 6554 ⟨65539, 1, 65544, 6553⟩ (by decide)
    (by decide)
  refine ⟨by decide, by decide, List.length_replicate _ _ ▸ rfl, v299.trans (by decide),
    by decide, by decide, by decide, v255.trans (by decide), by decide, by decide,
    by decide, i299.trans (by decide), by decide, by decide, by decide,
    i255.trans (by decide), by decide, by decide, by decide, by decide, by decide,
    by decide⟩

set_option maxRecDepth 100000 in
/-- C20 (counterexample). In test mode a load of 24 W (16 samples of 24.0 W, period
1250000 ns) has the cycle energy 107827200 (1645.3 Ws).  At the peak rate of tariff 1,
22.235 cents/kWh (1457193), the product `R * E` is above 2^47: `FixedPoint_Multiply`
returns -1897429439 instead of 2397537857 and the increment
`FixedPoint_Divide(FixedPoint_Multiply(R, E), 3600 << 16)` is -527063.  From zero
accumulators the call stores it as 4294440233 in the sub-cent accumulator, takes the
carry, and adds -527 (the quotient of the accumulator read as `int32_t`) to the cents
accumulator, which becomes 4294966769 and not 0 + 4294440233 / 1000; the carry into
dollars then leaves `TotalCostDollars` at 4294967291. -/
theorem Calc_TotalCost_accrual_counterexample :
    cycleEnergy (16 * 1572864) 1250000 true = some 107827200 ∧
    currentRate (Calc_Init TariffChart_zero) 1 (RTC_Get 72000).hours = some 1457193 ∧
    ¬ ((1457193 : Int) * 107827200 < 2 ^ 47) ∧
    (1457193 : Int) * 107827200 / 65536 = 2397537857 ∧
    FixedPoint_Multiply 1457193 107827200 = -1897429439 ∧
    FixedPoint_Divide (FixedPoint_Multiply 1457193 107827200) (3600 * 2 ^ 16)
      = some (-527063) ∧
    wrapU32 (CostState.init.accumulatedCentsScaledUp + wrapU32 (-527063)) = 4294440233 ∧
    accrueCents CostState.init 1457193 107827200 = some ⟨0, 4294966769, 0⟩ ∧
    ¬ ((4294966769 : Int) = CostState.init.accumulatedCents + 4294440233 / 1000) ∧
    Calc_TotalCost CostState.init (Calc_Init TariffChart_zero) 1 72000 107827200
      = some ⟨0, 0, 4294967291⟩ := by
  refine ⟨by decide, by decide, by decide, by decide, by decide, by decide, by decide,
    by decide, by decide, by decide⟩

end EnergyMeter
